import Mathlib

/-!
Verification development for the hielements core (Rust crate `hielements-core`).

The definitions below are shallow embeddings of the corresponding Rust items,
translated function by function from the crate's sources:

* `Hie.Lex`  embeds `src/lexer.rs` (the `logos`-derived token matcher, the
  indentation bookkeeping in `Lexer::process_indentation`, `Lexer::next_token`
  and `Lexer::tokenize`).
* `Hie.Interp` embeds the evaluation path of `src/interpreter.rs`
  (`run_with_options`, `run_element_with_options`, `evaluate_expression`,
  `run_check`, `get_library_function`, `expression_to_string`) together with
  the `files` standard library (`src/stdlib/files.rs`) and the value model of
  `src/stdlib/mod.rs`.
* `Hie.Par` embeds `src/parser.rs` (recursive descent over the token stream).

Source spans and line/column bookkeeping are omitted throughout: they are
write-only metadata that never influences control flow of the embedded
functions, and none of the verified properties mentions spans.  Diagnostic
messages are likewise reduced to their stable codes where the text is never
inspected.  File-system access and library dispatch are modelled by explicit
parameters (a list of existing paths, a registry function), mirroring the
`Library` trait object boundary of the crate.
-/

namespace Hie

/-- Characters are handled as lists to keep every definition kernel-reducible. -/
abbrev Str := List Char

def tabChar : Char := '\t'

def nlChar : Char := '\n'

def crChar : Char := '\r'

def hashChar : Char := '#'

/-- Single-quote character (written via its code point). -/
def squote : Char := Char.ofNat 39

/-- Double-quote character (written via its code point). -/
def dquote : Char := Char.ofNat 34

/-- Backslash character (written via its code point). -/
def bslash : Char := Char.ofNat 92

namespace Lex

/-- Token kinds.  The variants up to `Eof` are exactly those declared by the
`TokenKind` enum of `src/lexer.rs` (with their `#[token]`/`#[regex]` rules
embedded in `innerNextCore` below).  The variants after `Eof` are referenced
by `src/parser.rs` (`TokenKind::Ref`, `TokenKind::LBrace`, ...) but are absent
from the `TokenKind` enum in `src/lexer.rs`; they are modelled from the spec
(§3.1 keyword/punctuation lists) as kinds that the parser may test for.  The
lexer of `src/lexer.rs` has no rule producing them, so the embedded lexer
never emits them. -/
inductive TokenKind where
  | Element | Template | Implements | Scope | ConnectionPoint | Check
  | Import | From | As | True | False
  | RequiresDescendant | AllowsConnection | ForbidsConnection
  | RequiresConnection | To
  | Colon | Equals | Dot | Comma | LParen | RParen | LBracket | RBracket
  | Star | Newline | Identifier | StringDouble | StringSingle | Number
  | MultiLineComment | DocComment | Comment | Indent | Dedent | Eof
  | Ref | Uses | Binds | Requires | Allows | Forbids | Descendant
  | Connection | Language | ConnectionCheck | LBrace | RBrace | LAngle | RAngle
  deriving DecidableEq, Repr

/-- A token: kind plus matched text (spans omitted, see the file header). -/
structure Token where
  kind : TokenKind
  text : Str
  deriving DecidableEq, Repr

def indTok : Token := ⟨.Indent, []⟩

def dedTok : Token := ⟨.Dedent, []⟩

def eofTok : Token := ⟨.Eof, []⟩

/-- Horizontal whitespace skipped by the inner lexer (`#[logos(skip r"[ \t]+")]`). -/
def isWs (c : Char) : Bool := c = ' ' || c = tabChar

/-- Start of the identifier regex `[a-zA-Z_][a-zA-Z0-9_]*`. -/
def isIdentStart (c : Char) : Bool := c.isAlpha || c = '_'

def isIdentChar (c : Char) : Bool := c.isAlphanum || c = '_'

/-- The `#[token("...")]` keyword rules of `src/lexer.rs`.  A maximal
identifier-shaped lexeme equal to one of these strings lexes as the keyword
(logos gives explicit tokens priority over the identifier regex on ties). -/
def keywordTable : List (Str × TokenKind) :=
  [("element".toList, .Element), ("template".toList, .Template),
   ("implements".toList, .Implements), ("scope".toList, .Scope),
   ("connection_point".toList, .ConnectionPoint), ("check".toList, .Check),
   ("import".toList, .Import), ("from".toList, .From), ("as".toList, .As),
   ("true".toList, .True), ("false".toList, .False),
   ("requires_descendant".toList, .RequiresDescendant),
   ("allows_connection".toList, .AllowsConnection),
   ("forbids_connection".toList, .ForbidsConnection),
   ("requires_connection".toList, .RequiresConnection), ("to".toList, .To)]

def keywordKind (w : Str) : TokenKind := (keywordTable.lookup w).getD .Identifier

/-- Length of the body-and-closing-quote part of a string literal match for
the regexes `'([^'\\]|\\.)*'` and `"([^"\\]|\\.)*"`: scan to the first
unescaped closing quote; an escape is a backslash followed by any character
other than a newline (`\\.` where `.` does not match `\n`); `none` when no
such closing quote exists (the regex fails and the opening quote is skipped
as an unrecognizable byte). -/
def strTail (q : Char) : Str → Option Nat
  | [] => none
  | c :: rest =>
    if c = q then some 1
    else if c = bslash then
      match rest with
      | [] => none
      | c2 :: rest2 =>
        if c2 = nlChar then none else (strTail q rest2).map (· + 2)
    else (strTail q rest).map (· + 1)

/-- Total length of a `###[^#]*###` match starting at `cs` (which must begin
with three hashes); the content may not contain a hash. -/
def mlcTotal (cs : Str) : Option Nat :=
  match cs with
  | h1 :: h2 :: h3 :: body =>
    if h1 = hashChar ∧ h2 = hashChar ∧ h3 = hashChar then
      let mid := body.takeWhile (fun c => ¬ c = hashChar)
      match body.drop mid.length with
      | k1 :: k2 :: k3 :: _ =>
        if k1 = hashChar ∧ k2 = hashChar ∧ k3 = hashChar then
          some (3 + mid.length + 3)
        else none
      | _ => none
    else none
  | _ => none

/-- Length of a `#[^\n]*` (or `##[^\n]*`) match: to the end of the line. -/
def toEolLen (cs : Str) : Nat := (cs.takeWhile (fun c => ¬ c = nlChar)).length

/-- Dispatch between the three comment rules of `src/lexer.rs` for input
beginning with a hash, following the logos semantics: the longest match wins
and on equal lengths the rule with the higher priority (more literal hashes)
wins, so `###…###` beats `##…` beats `#…`. -/
def commentMatch (cs : Str) : TokenKind × Nat :=
  match cs with
  | _ :: c2 :: _ =>
    if c2 = hashChar then
      match mlcTotal cs with
      | some m =>
        if toEolLen cs ≤ m then (.MultiLineComment, m) else (.DocComment, toEolLen cs)
      | none => (.DocComment, toEolLen cs)
    else (.Comment, toEolLen cs)
  | _ => (.Comment, toEolLen cs)

/-- Length of a `[0-9]+(\.[0-9]+)?` match starting at a digit. -/
def numLen (cs : Str) : Nat :=
  let d1 := (cs.takeWhile (·.isDigit)).length
  match cs.drop d1 with
  | c :: rest2 =>
    if c = '.' then
      let d2 := (rest2.takeWhile (·.isDigit)).length
      if d2 = 0 then d1 else d1 + 1 + d2
    else d1
  | [] => d1

/-- Match for the `\r?\n` newline rule when the input starts with `\r`. -/
def crMatch (rest : Str) : Except Unit TokenKind × Nat :=
  match rest with
  | c2 :: _ => if c2 = nlChar then (.ok .Newline, 2) else (.error (), 1)
  | [] => (.error (), 1)

/-- Match for a string-literal rule with quote character `q`. -/
def quoteMatch (q : Char) (kind : TokenKind) (rest : Str) : Except Unit TokenKind × Nat :=
  match strTail q rest with
  | some n => (.ok kind, 1 + n)
  | none => (.error (), 1)

/-- Match for the identifier regex, demoted to a keyword kind when the lexeme
is one of the `#[token]` keywords (logos priority on equal-length matches). -/
def identMatch (c : Char) (rest : Str) : Except Unit TokenKind × Nat :=
  (.ok (keywordKind ((c :: rest).takeWhile isIdentChar)),
    ((c :: rest).takeWhile isIdentChar).length)

/-- Match for the single-character punctuation tokens of `src/lexer.rs`;
any other character is unrecognizable and consumed as an error lexeme. -/
def punctMatch (c : Char) : Except Unit TokenKind × Nat :=
  if c = ':' then (.ok .Colon, 1)
  else if c = '=' then (.ok .Equals, 1)
  else if c = '.' then (.ok .Dot, 1)
  else if c = ',' then (.ok .Comma, 1)
  else if c = '(' then (.ok .LParen, 1)
  else if c = ')' then (.ok .RParen, 1)
  else if c = '[' then (.ok .LBracket, 1)
  else if c = ']' then (.ok .RBracket, 1)
  else if c = '*' then (.ok .Star, 1)
  else (.error (), 1)

/-- One step of the logos-derived matcher on non-empty input (whitespace
already skipped): the token rule that applies at this position, or `Except.error`
for an unrecognizable byte, together with the number of characters consumed. -/
def innerNextCore (c : Char) (rest : Str) : Except Unit TokenKind × Nat :=
  if c = nlChar then (.ok .Newline, 1)
  else if c = crChar then crMatch rest
  else if c = hashChar then
    (.ok (commentMatch (c :: rest)).1, (commentMatch (c :: rest)).2)
  else if c = squote then quoteMatch squote .StringSingle rest
  else if c = dquote then quoteMatch dquote .StringDouble rest
  else if c.isDigit then (.ok .Number, numLen (c :: rest))
  else if isIdentStart c then identMatch c rest
  else punctMatch c

/-- The inner logos lexer's `next()`: skip horizontal whitespace, then match;
`none` at end of input.  Returns the match result, its text, and the rest. -/
def innerNext (cs : Str) : Option (Except Unit TokenKind × Str × Str) :=
  match cs.dropWhile isWs with
  | [] => none
  | c :: rest =>
    some ((innerNextCore c rest).1, (c :: rest).take (innerNextCore c rest).2,
      (c :: rest).drop (innerNextCore c rest).2)

/-- The DEDENT-emitting pop loop of `Lexer::process_indentation`: pop levels
while the top is strictly greater than the new indent, one DEDENT per pop. -/
def popLevels (stack : List Nat) (indent : Nat) : List Nat × List Token :=
  match stack with
  | [] => ([], [])
  | top :: rest =>
    if indent < top then
      let (s, ts) := popLevels rest indent
      (s, dedTok :: ts)
    else (top :: rest, [])

/-- The comparison against the top of the indent stack at the end of the
whitespace scan in `Lexer::process_indentation`. -/
def indentCompare (stack : List Nat) (indent : Nat) : List Nat × List Token :=
  if indent > stack.headD 0 then (indent :: stack, [indTok])
  else if indent < stack.headD 0 then popLevels stack indent
  else (stack, [])

/-- `Lexer::process_indentation`: scan the leading whitespace of the line
(`cs` is the source suffix at the line start, `indent` the count so far, a
tab counting as 4), returning the updated stack and the layout tokens to
emit.  A newline or carriage return means an empty line (no change); a hash
means a comment line (which may only push an INDENT); any other character —
or the end of input — ends the scan and compares against the stack top. -/
def processInd (stack : List Nat) : Str → Nat → List Nat × List Token
  | [], indent => indentCompare stack indent
  | c :: rest, indent =>
    if c = ' ' then processInd stack rest (indent + 1)
    else if c = tabChar then processInd stack rest (indent + 4)
    else if c = nlChar ∨ c = crChar then (stack, [])
    else if c = hashChar then
      if indent > stack.headD 0 then (indent :: stack, [indTok]) else (stack, [])
    else indentCompare stack indent

/-- Lexer state: remaining input, indent stack (head is the top, the bottom
is the initial 0), pending layout tokens, and the two flags of `Lexer`. -/
structure LexSt where
  rest : Str
  stack : List Nat
  pending : List Token
  atLineStart : Bool
  finished : Bool
  deriving DecidableEq, Repr

/-- The DEDENTs emitted at end of input: one per stack level above the bottom. -/
def finishFlush (stack : List Nat) : List Token :=
  List.replicate (stack.length - 1) dedTok

theorem isIdentChar_of_start {c : Char} (h : isIdentStart c) : isIdentChar c := by
  unfold isIdentStart at h
  unfold isIdentChar Char.isAlphanum
  rcases (by simpa using h : c.isAlpha = true ∨ c = '_') with h1 | h1 <;> simp [h1]

theorem numLen_pos {c : Char} {rest : Str} (h : c.isDigit) : 1 ≤ numLen (c :: rest) := by
  have ht : (c :: rest).takeWhile (·.isDigit) = c :: rest.takeWhile (·.isDigit) :=
    List.takeWhile_cons_of_pos (by simpa using h)
  unfold numLen
  rw [ht]
  simp only [List.length_cons]
  split
  · split
    · split <;> omega
    · omega
  · omega

theorem identLen_pos {c : Char} {rest : Str} (h : isIdentStart c) :
    1 ≤ ((c :: rest).takeWhile isIdentChar).length := by
  rw [List.takeWhile_cons_of_pos (by simpa using isIdentChar_of_start h)]
  simp

theorem toEolLen_pos {c : Char} {rest : Str} (h : ¬ c = nlChar) :
    1 ≤ toEolLen (c :: rest) := by
  unfold toEolLen
  rw [List.takeWhile_cons_of_pos (by simpa using h)]
  simp

theorem commentMatch_pos {c : Char} {rest : Str} (h : ¬ c = nlChar) :
    1 ≤ (commentMatch (c :: rest)).2 := by
  have hline : 1 ≤ toEolLen (c :: rest) := toEolLen_pos h
  rcases rest with _ | ⟨c2, rest2⟩
  · simpa [commentMatch] using hline
  · by_cases h2 : c2 = hashChar
    · subst h2
      rcases hm : mlcTotal (c :: hashChar :: rest2) with _ | m
      · simpa [commentMatch, hm] using hline
      · have h5 : commentMatch (c :: hashChar :: rest2) =
            if toEolLen (c :: hashChar :: rest2) ≤ m then (.MultiLineComment, m)
            else (.DocComment, toEolLen (c :: hashChar :: rest2)) := by
          simp [commentMatch, hm]
        rw [h5]
        by_cases hle : toEolLen (c :: hashChar :: rest2) ≤ m
        · rw [if_pos hle]
          exact le_trans hline hle
        · rw [if_neg hle]
          exact hline
    · simpa [commentMatch, h2] using hline

theorem crMatch_pos (rest : Str) : 1 ≤ (crMatch rest).2 := by
  unfold crMatch
  split
  · split <;> omega
  · exact Nat.le_refl 1

theorem quoteMatch_pos (q : Char) (k : TokenKind) (rest : Str) :
    1 ≤ (quoteMatch q k rest).2 := by
  unfold quoteMatch
  rcases hst : strTail q rest with _ | n <;> simp [hst]

theorem identMatch_pos {c : Char} (rest : Str) (h : isIdentStart c) :
    1 ≤ (identMatch c rest).2 := identLen_pos h

theorem punctMatch_pos (c : Char) : 1 ≤ (punctMatch c).2 := by
  unfold punctMatch
  split_ifs <;> exact Nat.le_refl 1

theorem innerNextCore_pos (c : Char) (rest : Str) : 1 ≤ (innerNextCore c rest).2 := by
  unfold innerNextCore
  split_ifs with h1 h2 h3 h4 h5 h6 h7
  · exact Nat.le_refl 1
  · exact crMatch_pos rest
  · exact commentMatch_pos h1
  · exact quoteMatch_pos _ _ rest
  · exact quoteMatch_pos _ _ rest
  · exact numLen_pos h6
  · exact identMatch_pos rest h7
  · exact punctMatch_pos c

theorem innerNext_progress {cs : Str} {r : Except Unit TokenKind} {txt rest' : Str}
    (h : innerNext cs = some (r, txt, rest')) : rest'.length < cs.length := by
  unfold innerNext at h
  rcases hd : cs.dropWhile isWs with _ | ⟨c, rest⟩
  · rw [hd] at h; exact absurd h (by simp)
  · rw [hd] at h
    simp only [Option.some.injEq, Prod.mk.injEq] at h
    obtain ⟨-, -, h3⟩ := h
    have hlen : (cs.dropWhile isWs).length ≤ cs.length :=
      List.Sublist.length_le
        (List.dropWhile_sublist isWs : List.Sublist (List.dropWhile isWs cs)
          cs)
    rw [hd] at hlen
    have hpos := innerNextCore_pos c rest
    calc rest'.length = rest.length + 1 - (innerNextCore c rest).2 := by
          rw [← h3]; simp [List.length_drop]
      _ < rest.length + 1 := by omega
      _ ≤ cs.length := hlen

/-- The inner token loop of `Lexer::next_token`, with a fuel parameter so
that the recursion is structural (each skipped lexeme consumes at least one
character, so `cs.length + 1` fuel is enough; the fuel-exhausted branch is
unreachable, see `innerLoop_measure_aux` and `innerLoopGo_congr`): fetch
matches until one is returnable.  `Comment` and `MultiLineComment` lexemes
are skipped, as are error lexemes; a `Newline` sets the line-start flag.
When the inner lexer is exhausted, the lexer is marked finished, the indent
stack is flushed to one DEDENT per level above the bottom, and the first
flushed token (or EOF) is returned; the remaining flushed tokens pend. -/
def innerLoopGo : Nat → List Nat → Str → Token × LexSt
  | 0, stack, cs => (eofTok, ⟨cs, stack, [], false, true⟩)
  | n + 1, stack, cs =>
    match innerNext cs with
    | none =>
      match finishFlush stack with
      | [] => (eofTok, ⟨[], [stack.getLastD 0], [], false, true⟩)
      | d :: ds => (d, ⟨[], [stack.getLastD 0], ds, false, true⟩)
    | some (.ok k, txt, rest') =>
      match k with
      | .Newline => (⟨.Newline, txt⟩, ⟨rest', stack, [], true, false⟩)
      | .Comment => innerLoopGo n stack rest'
      | .MultiLineComment => innerLoopGo n stack rest'
      | _ => (⟨k, txt⟩, ⟨rest', stack, [], false, false⟩)
    | some (.error _, _, rest') => innerLoopGo n stack rest'

def innerLoop (stack : List Nat) (cs : Str) : Token × LexSt :=
  innerLoopGo (cs.length + 1) stack cs

theorem innerLoopGo_congr : ∀ (n m : Nat) (stack : List Nat) (cs : Str),
    cs.length < n → cs.length < m → innerLoopGo n stack cs = innerLoopGo m stack cs := by
  intro n
  induction n with
  | zero => intro m stack cs h; omega
  | succ n ih =>
    intro m stack cs hn hm
    rcases m with _ | m
    · omega
    · show innerLoopGo (n + 1) stack cs = innerLoopGo (m + 1) stack cs
      unfold innerLoopGo
      rcases hin : innerNext cs with _ | ⟨r, txt, rest'⟩
      · rfl
      · have hp := innerNext_progress hin
        rcases r with e | k
        · exact ih m stack rest' (by omega) (by omega)
        · cases k <;> first
            | rfl
            | exact ih m stack rest' (by omega) (by omega)

theorem innerLoop_eq (stack : List Nat) (cs : Str) (n : Nat) (h : cs.length < n) :
    innerLoopGo n stack cs = innerLoop stack cs :=
  innerLoopGo_congr n (cs.length + 1) stack cs h (by omega)

/-- `Lexer::next_token`: return a pending layout token if any; return EOF
forever once finished; otherwise process indentation when at a line start
(returning the first produced layout token, if any) and then run the inner
token loop. -/
def nextToken (s : LexSt) : Token × LexSt :=
  match s.pending with
  | t :: ts => (t, { s with pending := ts })
  | [] =>
    if s.finished then (eofTok, s)
    else
      match (if s.atLineStart then processInd s.stack s.rest 0 else (s.stack, [])) with
      | (stack1, t :: ts) => (t, ⟨s.rest, stack1, ts, false, false⟩)
      | (stack1, []) => innerLoop stack1 s.rest

/-- Termination measure for the token stream: strictly decreases at every
`nextToken` step that does not return EOF. -/
def lexMeasure (s : LexSt) : Nat :=
  4 * s.rest.length + (if s.atLineStart then 2 else 0) +
    (if s.finished then s.pending.length else s.stack.length + s.pending.length + 2)

theorem popLevels_len (stack : List Nat) (i : Nat) :
    (popLevels stack i).1.length + (popLevels stack i).2.length = stack.length := by
  induction stack with
  | nil => simp [popLevels]
  | cons top rest ih =>
    unfold popLevels
    split
    · simpa using by omega
    · simp

theorem processInd_cases (stack : List Nat) (cs : Str) (ind : Nat) :
    processInd stack cs ind = (stack, []) ∨
    (∃ i, processInd stack cs ind = (i :: stack, [indTok])) ∨
    ((processInd stack cs ind).1.length + (processInd stack cs ind).2.length
        = stack.length ∧ (processInd stack cs ind).2 ≠ []) := by
  have hic : ∀ j, indentCompare stack j = (stack, []) ∨
      (∃ i, indentCompare stack j = (i :: stack, [indTok])) ∨
      ((indentCompare stack j).1.length + (indentCompare stack j).2.length
          = stack.length ∧ (indentCompare stack j).2 ≠ []) := by
    intro j
    unfold indentCompare
    split_ifs with h1 h2
    · exact Or.inr (Or.inl ⟨j, rfl⟩)
    · refine Or.inr (Or.inr ⟨popLevels_len stack j, ?_⟩)
      rcases stack with _ | ⟨top, rest⟩
      · simp at h2
      · have htop : j < top := by simpa using h2
        unfold popLevels
        rw [if_pos htop]
        simp
    · exact Or.inl rfl
  induction cs generalizing ind with
  | nil => exact hic ind
  | cons c rest ih =>
    unfold processInd
    split_ifs with h1 h2 h3 h4 h5
    · exact ih _
    · exact ih _
    · exact Or.inl rfl
    · exact Or.inr (Or.inl ⟨ind, rfl⟩)
    · exact Or.inl rfl
    · exact hic ind

theorem innerLoop_measure_aux : ∀ (n : Nat) (stack : List Nat) (cs : Str), cs.length < n →
    lexMeasure (innerLoopGo n stack cs).2 < 4 * cs.length + stack.length + 2 := by
  intro n
  induction n with
  | zero => intro _ _ h; omega
  | succ n ih =>
    intro stack cs hlt
    unfold innerLoopGo
    split
    · split
      · simp [lexMeasure]
      · rename_i hnone x d ds hf
        have hds : ds.length + 1 = (finishFlush stack).length := by rw [hf]; simp
        simp only [finishFlush, List.length_replicate] at hds
        simp [lexMeasure]
        omega
    · rename_i k txt rest' hin
      have hp := innerNext_progress hin
      split
      · simp [lexMeasure]
        omega
      · exact lt_trans (ih stack rest' (by omega)) (by omega)
      · exact lt_trans (ih stack rest' (by omega)) (by omega)
      · simp [lexMeasure]
        omega
    · rename_i a txt rest' hin
      have hp := innerNext_progress hin
      exact lt_trans (ih stack rest' (by omega)) (by omega)

theorem innerLoop_measure (stack : List Nat) (cs : Str) :
    lexMeasure (innerLoop stack cs).2 < 4 * cs.length + stack.length + 2 :=
  innerLoop_measure_aux (cs.length + 1) stack cs (by omega)

theorem innerLoopGo_measure {n : Nat} (stack : List Nat) (cs : Str) (h : cs.length < n) :
    lexMeasure (innerLoopGo n stack cs).2 < 4 * cs.length + stack.length + 2 :=
  innerLoop_measure_aux n stack cs h

theorem nextToken_dec (s : LexSt) (h : ¬ (nextToken s).1.kind = .Eof) :
    lexMeasure (nextToken s).2 < lexMeasure s := by
  obtain ⟨rest, stack, pending, als, fin⟩ := s
  rcases pending with _ | ⟨t, ts⟩
  · rcases fin with _ | _
    · rcases als with _ | _
      · have hred : nextToken ⟨rest, stack, [], false, false⟩ = innerLoop stack rest := by
          simp [nextToken]
        rw [hred]
        have hb := innerLoop_measure stack rest
        simp only [lexMeasure] at hb ⊢
        simp at hb ⊢
        omega
      · rcases hc : processInd stack rest 0 with ⟨stack1, pend1⟩
        rcases pend1 with _ | ⟨t1, ts1⟩
        · have hs : stack1 = stack := by
            rcases processInd_cases stack rest 0 with h1 | ⟨i, h1⟩ | ⟨h1, h2⟩
            · rw [hc] at h1
              exact (Prod.mk.injEq _ _ _ _ ▸ h1).1
            · rw [hc] at h1
              simp at h1
            · rw [hc] at h2
              simp at h2
          subst hs
          have hred : nextToken ⟨rest, stack1, [], true, false⟩ = innerLoop stack1 rest := by
            simp [nextToken, hc]
          rw [hred]
          have hb := innerLoop_measure stack1 rest
          simp only [lexMeasure] at hb ⊢
          simp at hb ⊢
          omega
        · have hred : nextToken ⟨rest, stack, [], true, false⟩ =
              (t1, ⟨rest, stack1, ts1, false, false⟩) := by
            simp [nextToken, hc]
          rw [hred]
          have hlen : stack1.length + ts1.length < stack.length + 2 := by
            rcases processInd_cases stack rest 0 with h1 | ⟨i, h1⟩ | ⟨h1, h2⟩
            · rw [hc] at h1
              simp at h1
            · rw [hc] at h1
              simp only [Prod.mk.injEq, List.cons.injEq] at h1
              obtain ⟨e1, e2, e3⟩ := h1
              subst e1
              subst e3
              simp
            · rw [hc] at h1
              simp at h1
              omega
          simp only [lexMeasure]
          simp
          omega
    · exfalso
      apply h
      simp [nextToken, eofTok]
  · rcases fin with _ | _ <;>
      simp [nextToken, lexMeasure] <;> omega

/-- `Lexer::tokenize`: call `next_token` until EOF, collecting the tokens
(the EOF token included).  The fuel makes the recursion structural; by
`nextToken_dec` the measure strictly decreases at every non-EOF step, so
`lexMeasure s + 1` fuel is enough and the fuel-exhausted branch is
unreachable (`lexGo_congr`). -/
def lexGo : Nat → LexSt → List Token
  | 0, _ => []
  | n + 1, s =>
    match nextToken s with
    | (t, s') => if t.kind = .Eof then [t] else t :: lexGo n s'

def lexAll (s : LexSt) : List Token := lexGo (lexMeasure s + 1) s

theorem lexGo_congr : ∀ (n m : Nat) (s : LexSt),
    lexMeasure s < n → lexMeasure s < m → lexGo n s = lexGo m s := by
  intro n
  induction n with
  | zero => intro m s h; omega
  | succ n ih =>
    intro m s hn hm
    rcases m with _ | m
    · omega
    · show lexGo (n + 1) s = lexGo (m + 1) s
      unfold lexGo
      rcases hnt : nextToken s with ⟨t, s'⟩
      by_cases ht : t.kind = .Eof
      · simp [ht]
      · have hdec := nextToken_dec s (by rw [hnt]; exact ht)
        rw [hnt] at hdec
        have hdec2 : lexMeasure s' < lexMeasure s := hdec
        simp only [ht, if_neg, if_false]
        rw [ih m s' (by omega) (by omega)]

/-- Unfolding rule for `lexAll` in terms of `nextToken`. -/
theorem lexAll_eq (s : LexSt) :
    lexAll s =
      match nextToken s with
      | (t, s') => if t.kind = .Eof then [t] else t :: lexAll s' := by
  show lexGo (lexMeasure s + 1) s = _
  unfold lexGo
  rcases hnt : nextToken s with ⟨t, s'⟩
  by_cases ht : t.kind = .Eof
  · simp [ht]
  · have hdec := nextToken_dec s (by rw [hnt]; exact ht)
    rw [hnt] at hdec
    have hdec2 : lexMeasure s' < lexMeasure s := hdec
    simp only [ht, if_neg, if_false]
    rw [lexGo_congr (lexMeasure s) (lexMeasure s' + 1) s' (by omega) (by omega)]
    rfl

/-- The initial lexer state of `Lexer::new`: indent stack `[0]`, no pending
tokens, at line start, not finished. -/
def initSt (src : String) : LexSt := ⟨src.toList, [0], [], true, false⟩

/-- `Lexer::tokenize` on a source string. -/
def tokenize (src : String) : List Token := lexAll (initSt src)

/-- Declarative indent of a line: leading spaces count 1, leading tabs count
4, stopping at the first non-horizontal-whitespace character. -/
def lineIndent : Str → Nat
  | [] => 0
  | c :: r =>
    if c = ' ' then 1 + lineIndent r
    else if c = tabChar then 4 + lineIndent r
    else 0

/-- Declarative classification of a line, as used by the spec's indentation
rules: blank (first non-whitespace character is a newline or carriage
return), comment (it is a hash), or code (anything else — including a
whitespace-only line that ends at the end of input without a newline, which
`process_indentation` treats as a code line; that is the corrected point of
claim C4). -/
inductive LineShape where
  | blank | commentLine | codeLine
  deriving DecidableEq, Repr

def lineShape (cs : Str) : LineShape :=
  match cs.dropWhile isWs with
  | [] => .codeLine
  | c :: _ =>
    if c = nlChar ∨ c = crChar then .blank
    else if c = hashChar then .commentLine
    else .codeLine

theorem processInd_spec (stack : List Nat) :
    ∀ (cs : Str) (acc : Nat),
      processInd stack cs acc =
        match lineShape cs with
        | .blank => (stack, [])
        | .commentLine =>
          if acc + lineIndent cs > stack.headD 0
          then ((acc + lineIndent cs) :: stack, [indTok]) else (stack, [])
        | .codeLine => indentCompare stack (acc + lineIndent cs) := by
  have hsp : ¬ (' ' = tabChar) := by decide
  have hnl1 : ¬ (nlChar = ' ') := by decide
  have hnl2 : ¬ (nlChar = tabChar) := by decide
  have hcr1 : ¬ (crChar = ' ') := by decide
  have hcr2 : ¬ (crChar = tabChar) := by decide
  have hha1 : ¬ (hashChar = ' ') := by decide
  have hha2 : ¬ (hashChar = tabChar) := by decide
  have hha3 : ¬ (hashChar = nlChar ∨ hashChar = crChar) := by decide
  have hwsp : isWs ' ' = true := by decide
  have hwtb : isWs tabChar = true := by decide
  intro cs
  induction cs with
  | nil => intro acc; simp [processInd, lineShape, lineIndent]
  | cons c r ih =>
    intro acc
    by_cases h1 : c = ' '
    · subst h1
      have e1 : lineShape (' ' :: r) = lineShape r := by
        simp [lineShape, List.dropWhile_cons, hwsp]
      have e2 : lineIndent (' ' :: r) = 1 + lineIndent r := by
        simp [lineIndent]
      have e3 : processInd stack (' ' :: r) acc = processInd stack r (acc + 1) := by
        simp [processInd]
      rw [e3, ih (acc + 1), e1, e2,
        (by omega : acc + 1 + lineIndent r = acc + (1 + lineIndent r))]
    · by_cases h2 : c = tabChar
      · subst h2
        have e1 : lineShape (tabChar :: r) = lineShape r := by
          simp [lineShape, List.dropWhile_cons, hwtb]
        have e2 : lineIndent (tabChar :: r) = 4 + lineIndent r := by
          simp [lineIndent, h1]
        have e3 : processInd stack (tabChar :: r) acc = processInd stack r (acc + 4) := by
          simp [processInd, h1]
        rw [e3, ih (acc + 4), e1, e2,
          (by omega : acc + 4 + lineIndent r = acc + (4 + lineIndent r))]
      · have hdw : (c :: r).dropWhile isWs = c :: r := by
          rw [List.dropWhile_cons_of_neg]
          simp [isWs, h1, h2]
        have hin : lineIndent (c :: r) = 0 := by
          simp [lineIndent, h1, h2]
        by_cases h3 : c = nlChar ∨ c = crChar
        · have hsh : lineShape (c :: r) = .blank := by
            simp [lineShape, hdw, h3]
          rw [hsh]
          rcases h3 with h3 | h3 <;> subst h3
          · simp [processInd, hnl1, hnl2]
          · simp [processInd, hcr1, hcr2, hnl1]
        · by_cases h4 : c = hashChar
          · subst h4
            have hsh : lineShape (hashChar :: r) = .commentLine := by
              simp [lineShape, hdw, hha3]
            rw [hsh, hin]
            simp only [processInd, hha1, hha2, hha3, if_neg, if_false, if_pos, if_true]
            simp [Nat.add_zero]
          · have hsh : lineShape (c :: r) = .codeLine := by
              simp [lineShape, hdw, h3, h4]
            rw [hsh, hin]
            simp [processInd, h1, h2, h3, h4]

theorem sorted_head_max {stack : List Nat} (hs : List.Sorted (· > ·) stack) :
    ∀ l ∈ stack, l ≤ stack.headD 0 := by
  rcases stack with _ | ⟨top, rest⟩
  · simp
  · intro l hl
    rcases List.mem_cons.mp hl with h | h
    · simp [h]
    · exact le_of_lt ((List.sorted_cons.mp hs).1 l h)

theorem popLevels_spec {stack : List Nat} (ind : Nat) (hs : List.Sorted (· > ·) stack) :
    popLevels stack ind =
      (stack.filter (fun l => l ≤ ind),
       List.replicate ((stack.filter (fun l => ind < l)).length) dedTok) := by
  induction stack with
  | nil => simp [popLevels]
  | cons top rest ih =>
    rcases List.sorted_cons.mp hs with ⟨hall, hrest⟩
    unfold popLevels
    by_cases htop : ind < top
    · rw [if_pos htop, ih hrest]
      have h1 : ¬ top ≤ ind := by omega
      simp [h1, htop, List.replicate_succ]
    · rw [if_neg htop]
      have hle : top ≤ ind := by omega
      have hall2 : ∀ l ∈ rest, l ≤ ind := fun l hl => le_trans (le_of_lt (hall l hl)) hle
      have hfilter1 : (top :: rest).filter (fun l => l ≤ ind) = top :: rest := by
        rw [List.filter_eq_self]
        intro a ha
        rcases List.mem_cons.mp ha with h | h
        · simp [h, hle]
        · simpa using hall2 a h
      have hfilter2 : (top :: rest).filter (fun l => ind < l) = [] := by
        rw [List.filter_eq_nil_iff]
        intro a ha
        rcases List.mem_cons.mp ha with h | h
        · subst h; simpa using htop
        · have := hall2 a h
          simp
          omega
      rw [hfilter1, hfilter2]
      simp

theorem indentCompare_spec {stack : List Nat} (ind : Nat) (hs : List.Sorted (· > ·) stack) :
    indentCompare stack ind =
      if ind > stack.headD 0 then (ind :: stack, [indTok])
      else
        (stack.filter (fun l => l ≤ ind),
         List.replicate ((stack.filter (fun l => ind < l)).length) dedTok) := by
  unfold indentCompare
  by_cases h1 : ind > stack.headD 0
  · rw [if_pos h1, if_pos h1]
  · rw [if_neg h1, if_neg h1]
    by_cases h2 : ind < stack.headD 0
    · rw [if_pos h2, popLevels_spec ind hs]
    · rw [if_neg h2]
      have hall : ∀ l ∈ stack, l ≤ ind := by
        intro l hl
        have := sorted_head_max hs l hl
        omega
      have hfilter1 : stack.filter (fun l => l ≤ ind) = stack := by
        rw [List.filter_eq_self]
        intro a ha
        simpa using hall a ha
      have hfilter2 : stack.filter (fun l => ind < l) = [] := by
        rw [List.filter_eq_nil_iff]
        intro a ha
        have := hall a ha
        simp
        omega
      rw [hfilter1, hfilter2]
      simp

/-- Tokens still to come from a finished lexer whose pending queue holds `n`
DEDENTs: exactly those DEDENTs followed by the EOF token. -/
theorem lexAll_finished (st0 : List Nat) (rest0 : Str) (als : Bool) :
    ∀ n : Nat, lexAll ⟨rest0, st0, List.replicate n dedTok, als, true⟩ =
      List.replicate n dedTok ++ [eofTok] := by
  intro n
  induction n with
  | zero =>
    rw [lexAll_eq]
    simp [nextToken, eofTok]
  | succ n ih =>
    rw [lexAll_eq]
    have hnt : nextToken ⟨rest0, st0, List.replicate (n + 1) dedTok, als, true⟩ =
        (dedTok, ⟨rest0, st0, List.replicate n dedTok, als, true⟩) := by
      simp [nextToken, List.replicate_succ]
    rw [hnt]
    have hne : ¬ (dedTok.kind = TokenKind.Eof) := by decide
    simp only [if_neg hne, ih, List.replicate_succ, List.cons_append]

/-- Kinds never produced by a matcher rule: the synthetic layout kinds. -/
abbrev nonLayout (k : TokenKind) : Prop :=
  ¬ k = .Indent ∧ ¬ k = .Dedent ∧ ¬ k = .Eof

theorem lookup_val_mem {l : List (Str × TokenKind)} {a : Str} {b : TokenKind}
    (h : l.lookup a = some b) : b ∈ l.map Prod.snd := by
  induction l with
  | nil => simp [List.lookup] at h
  | cons p rest ih =>
    rcases p with ⟨k, v⟩
    have hdef : List.lookup a ((k, v) :: rest) =
        match a == k with
        | true => some v
        | false => rest.lookup a := rfl
    rw [hdef] at h
    cases hbk : a == k <;> rw [hbk] at h
    · rw [List.map_cons]
      exact List.mem_cons_of_mem _ (ih h)
    · simp at h
      subst h
      rw [List.map_cons]
      exact List.mem_cons_self _ _

theorem keywordKind_nonLayout (w : Str) : nonLayout (keywordKind w) := by
  unfold keywordKind
  rcases hl : keywordTable.lookup w with _ | v
  · decide
  · have hv := lookup_val_mem hl
    have hall : ∀ k ∈ keywordTable.map Prod.snd, nonLayout k := by decide
    simpa using hall v hv

theorem commentMatch_kind (cs : Str) :
    (commentMatch cs).1 = .MultiLineComment ∨ (commentMatch cs).1 = .DocComment ∨
      (commentMatch cs).1 = .Comment := by
  unfold commentMatch
  split
  · split
    · split
      · split <;> simp
      · simp
    · simp
  · simp

theorem punctMatch_kind {c : Char} {k : TokenKind}
    (h : (punctMatch c).1 = .ok k) : nonLayout k := by
  unfold punctMatch at h
  split_ifs at h <;> simp at h <;> subst h <;> decide

theorem quoteMatch_kind {q : Char} {kd k : TokenKind} {rest : Str}
    (h : (quoteMatch q kd rest).1 = .ok k) : k = kd := by
  unfold quoteMatch at h
  split at h
  · simp at h
    exact h.symm
  · simp at h

theorem innerNextCore_kinds {c : Char} {rest : Str} {k : TokenKind}
    (h : (innerNextCore c rest).1 = .ok k) : nonLayout k := by
  unfold innerNextCore at h
  split_ifs at h with h1 h2 h3 h4 h5 h6 h7
  · simp at h; subst h; decide
  · unfold crMatch at h
    rcases rest with _ | ⟨c2, r2⟩
    · simp at h
    · by_cases hc2 : c2 = nlChar <;> simp [hc2] at h
      subst h; decide
  · simp at h
    rcases commentMatch_kind (c :: rest) with h5 | h5 | h5 <;> rw [h5] at h <;>
      subst h <;> decide
  · rw [quoteMatch_kind h]
    decide
  · rw [quoteMatch_kind h]
    decide
  · simp at h; subst h; decide
  · unfold identMatch at h
    simp at h
    subst h
    exact keywordKind_nonLayout _
  · exact punctMatch_kind h

theorem innerNext_kinds {cs : Str} {k : TokenKind} {txt rest' : Str}
    (h : innerNext cs = some (.ok k, txt, rest')) : nonLayout k := by
  unfold innerNext at h
  rcases hd : cs.dropWhile isWs with _ | ⟨c, rest⟩ <;> rw [hd] at h
  · simp at h
  · simp only [Option.some.injEq, Prod.mk.injEq] at h
    exact innerNextCore_kinds h.1

theorem innerLoopGo_out : ∀ (n : Nat) (stack : List Nat) (cs : Str), cs.length < n →
    (stack.length ≤ 1 ∧
      innerLoopGo n stack cs = (eofTok, ⟨[], [stack.getLastD 0], [], false, true⟩)) ∨
    (2 ≤ stack.length ∧
      innerLoopGo n stack cs =
        (dedTok, ⟨[], [stack.getLastD 0], List.replicate (stack.length - 2) dedTok,
          false, true⟩)) ∨
    (∃ txt rest', rest'.length < cs.length ∧
      innerLoopGo n stack cs = (⟨.Newline, txt⟩, ⟨rest', stack, [], true, false⟩)) ∨
    (∃ k txt rest', rest'.length < cs.length ∧ nonLayout k ∧ ¬ k = .Newline ∧
      innerLoopGo n stack cs = (⟨k, txt⟩, ⟨rest', stack, [], false, false⟩)) := by
  intro n
  induction n with
  | zero => intro stack cs h; omega
  | succ n ih =>
    intro stack cs hlt
    show _ ∨ _ ∨ _ ∨ _
    unfold innerLoopGo
    rcases hin : innerNext cs with _ | ⟨r, txt, rest'⟩
    · rcases hstack : stack.length with _ | _ | m
      · left
        constructor
        · omega
        · have : finishFlush stack = [] := by simp [finishFlush, hstack]
          rw [this]
      · left
        constructor
        · omega
        · have : finishFlush stack = [] := by simp [finishFlush, hstack]
          rw [this]
      · right; left
        constructor
        · omega
        · have : finishFlush stack = dedTok :: List.replicate (stack.length - 2) dedTok := by
            simp [finishFlush, hstack, List.replicate_succ]
          rw [this]
          simp [hstack]
    · have hp := innerNext_progress hin
      rcases r with e | k
      · rcases ih stack rest' (by omega) with h | h | ⟨a, b, hl, h⟩ | ⟨a, b, c, hl, h⟩
        · exact Or.inl ⟨h.1, h.2⟩
        · exact Or.inr (Or.inl ⟨h.1, h.2⟩)
        · exact Or.inr (Or.inr (Or.inl ⟨a, b, by omega, h⟩))
        · exact Or.inr (Or.inr (Or.inr ⟨a, b, c, by omega, h⟩))
      · have hk := innerNext_kinds hin
        rcases hkk : k with _ | _ | _ | _ | _ | _ | _ | _ | _ | _ | _ | _ | _ | _ | _ | _
          | _ | _ | _ | _ | _ | _ | _ | _ | _ | _ | _ | _ | _ | _ | _ | _ | _ | _ | _ | _
          | _ | _ | _ | _ | _ | _ | _ | _ | _ | _ | _ | _ | _ | _
        all_goals (subst hkk)
        case Newline =>
          exact Or.inr (Or.inr (Or.inl ⟨txt, rest', by omega, rfl⟩))
        case Comment =>
          rcases ih stack rest' (by omega) with h | h | ⟨a, b, hl, h⟩ | ⟨a, b, c, hl, h⟩
          · exact Or.inl ⟨h.1, h.2⟩
          · exact Or.inr (Or.inl ⟨h.1, h.2⟩)
          · exact Or.inr (Or.inr (Or.inl ⟨a, b, by omega, h⟩))
          · exact Or.inr (Or.inr (Or.inr ⟨a, b, c, by omega, h⟩))
        case MultiLineComment =>
          rcases ih stack rest' (by omega) with h | h | ⟨a, b, hl, h⟩ | ⟨a, b, c, hl, h⟩
          · exact Or.inl ⟨h.1, h.2⟩
          · exact Or.inr (Or.inl ⟨h.1, h.2⟩)
          · exact Or.inr (Or.inr (Or.inl ⟨a, b, by omega, h⟩))
          · exact Or.inr (Or.inr (Or.inr ⟨a, b, c, by omega, h⟩))
        case Indent => exact absurd rfl hk.1
        case Dedent => exact absurd rfl hk.2.1
        case Eof => exact absurd rfl hk.2.2
        all_goals
          exact Or.inr (Or.inr (Or.inr ⟨_, txt, rest', by omega,
            ⟨by simp, by simp, by simp⟩, by simp, rfl⟩))

def cntK (k : TokenKind) (ts : List Token) : Nat :=
  ts.countP (fun t => decide (t.kind = k))

theorem cntK_cons (k : TokenKind) (t : Token) (ts : List Token) :
    cntK k (t :: ts) = cntK k ts + (if t.kind = k then 1 else 0) := by
  unfold cntK
  rw [List.countP_cons]
  congr 1
  simp

theorem cntK_replicate_ded (n : Nat) :
    cntK .Dedent (List.replicate n dedTok) = n ∧
      cntK .Indent (List.replicate n dedTok) = 0 := by
  induction n with
  | zero => simp [cntK]
  | succ n ih =>
    rw [List.replicate_succ]
    constructor
    · rw [cntK_cons, ih.1]
      simp [dedTok]
    · rw [cntK_cons, ih.2]
      simp [dedTok]

/-- State invariant maintained by the lexer: pending tokens are layout
tokens, and the indent stack is non-empty with bottom 0 (the initial 0 is
never popped because no indent is negative). -/
def StInv (s : LexSt) : Prop :=
  (∀ t ∈ s.pending, t = indTok ∨ t = dedTok) ∧
    s.stack ≠ [] ∧ s.stack.getLast? = some 0

theorem popLevels_pend (stack : List Nat) (i : Nat) :
    ∀ t ∈ (popLevels stack i).2, t = dedTok := by
  induction stack with
  | nil => simp [popLevels]
  | cons top rest ih =>
    unfold popLevels
    split
    · intro t ht
      rcases List.mem_cons.mp ht with h | h
      · exact h
      · exact ih t h
    · simp

theorem popLevels_last {stack : List Nat} (i : Nat) (hl : stack.getLast? = some 0) :
    (popLevels stack i).1 ≠ [] ∧ (popLevels stack i).1.getLast? = some 0 := by
  induction stack with
  | nil => simp at hl
  | cons top rest ih =>
    unfold popLevels
    split
    · rename_i hlt
      rcases rest with _ | ⟨r1, rs⟩
      · simp at hl
        omega
      · have hl2 : (r1 :: rs).getLast? = some 0 := by
          rw [List.getLast?_cons_cons] at hl
          exact hl
        exact ih hl2
    · constructor
      · simp
      · exact hl

theorem processInd_inv {stack : List Nat} {cs : Str} {ind : Nat} {stack1 : List Nat}
    {pend1 : List Token}
    (hne : stack ≠ []) (hl : stack.getLast? = some 0)
    (h : processInd stack cs ind = (stack1, pend1)) :
    stack1 ≠ [] ∧ stack1.getLast? = some 0 ∧
      (∀ t ∈ pend1, t = indTok ∨ t = dedTok) ∧
      cntK .Indent pend1 + stack.length = cntK .Dedent pend1 + stack1.length := by
  have hic : ∀ j su pu, indentCompare stack j = (su, pu) →
      su ≠ [] ∧ su.getLast? = some 0 ∧ (∀ t ∈ pu, t = indTok ∨ t = dedTok) ∧
        cntK .Indent pu + stack.length = cntK .Dedent pu + su.length := by
    intro j su pu hj
    unfold indentCompare at hj
    split_ifs at hj with h1 h2
    · obtain ⟨e1, e2⟩ := Prod.mk.injEq .. ▸ hj
      subst e1
      subst e2
      refine ⟨by simp, ?_, by simp [indTok], ?_⟩
      · rcases stack with _ | ⟨a, b⟩
        · simp at hne
        · rw [List.getLast?_cons_cons]
          exact hl
      · have e1 : cntK .Indent [indTok] = 1 := rfl
        have e2 : cntK .Dedent [indTok] = 0 := rfl
        rw [e1, e2]
        simp only [List.length_cons]
        omega
    · have hp1 := popLevels_pend stack j
      have hp2 := popLevels_last j hl
      have hp3 := popLevels_len stack j
      have hded : ∀ t ∈ (popLevels stack j).2, t.kind = .Dedent := by
        intro t ht
        rw [hp1 t ht]
        rfl
      rw [hj] at hp1 hp2 hp3 hded
      have hp3x : su.length + pu.length = stack.length := hp3
      refine ⟨hp2.1, hp2.2, fun t ht => Or.inr (hp1 t ht), ?_⟩
      have hcd : cntK .Dedent pu = pu.length := by
        unfold cntK
        rw [List.countP_eq_length]
        intro t ht
        simpa using hded t ht
      have hci : cntK .Indent pu = 0 := by
        unfold cntK
        rw [List.countP_eq_zero]
        intro t ht
        have := hded t ht
        simp [this]
      rw [hcd, hci]
      omega
    · obtain ⟨e1, e2⟩ := Prod.mk.injEq .. ▸ hj
      subst e1
      subst e2
      exact ⟨hne, hl, by simp, by rfl⟩
  induction cs generalizing ind with
  | nil =>
    simp only [processInd] at h
    exact hic ind stack1 pend1 h
  | cons c r ih =>
    unfold processInd at h
    split_ifs at h with h1 h2 h3 h4 h5
    · exact ih h
    · exact ih h
    · obtain ⟨e1, e2⟩ := Prod.mk.injEq .. ▸ h
      subst e1; subst e2
      exact ⟨hne, hl, by simp, by rfl⟩
    · obtain ⟨e1, e2⟩ := Prod.mk.injEq .. ▸ h
      subst e1; subst e2
      refine ⟨by simp, ?_, by simp [indTok], ?_⟩
      · rcases stack with _ | ⟨a, b⟩
        · simp at hne
        · rw [List.getLast?_cons_cons]
          exact hl
      · have e1 : cntK .Indent [indTok] = 1 := rfl
        have e2 : cntK .Dedent [indTok] = 0 := rfl
        rw [e1, e2]
        simp only [List.length_cons]
        omega
    · obtain ⟨e1, e2⟩ := Prod.mk.injEq .. ▸ h
      subst e1; subst e2
      exact ⟨hne, hl, by simp, by rfl⟩
    · exact hic ind stack1 pend1 h

theorem innerLoop_out (stack : List Nat) (cs : Str) :
    (stack.length ≤ 1 ∧
      innerLoop stack cs = (eofTok, ⟨[], [stack.getLastD 0], [], false, true⟩)) ∨
    (2 ≤ stack.length ∧
      innerLoop stack cs =
        (dedTok, ⟨[], [stack.getLastD 0], List.replicate (stack.length - 2) dedTok,
          false, true⟩)) ∨
    (∃ txt rest', rest'.length < cs.length ∧
      innerLoop stack cs = (⟨.Newline, txt⟩, ⟨rest', stack, [], true, false⟩)) ∨
    (∃ k txt rest', rest'.length < cs.length ∧ nonLayout k ∧ ¬ k = .Newline ∧
      innerLoop stack cs = (⟨k, txt⟩, ⟨rest', stack, [], false, false⟩)) :=
  innerLoopGo_out (cs.length + 1) stack cs (by omega)

/-- The token stream always ends in exactly one EOF-kind token. -/
theorem lexAll_shape : ∀ (n : Nat) (s : LexSt), lexMeasure s < n →
    ∃ ts t, lexAll s = ts ++ [t] ∧ t.kind = .Eof ∧ ∀ u ∈ ts, ¬ u.kind = .Eof := by
  intro n
  induction n with
  | zero => intro s h; omega
  | succ n ih =>
    intro s hlt
    rcases hnt : nextToken s with ⟨t, s1⟩
    have he1 : lexAll s = if t.kind = .Eof then [t] else t :: lexAll s1 := by
      rw [lexAll_eq s, hnt]
    by_cases ht : t.kind = .Eof
    · exact ⟨[], t, by rw [he1, if_pos ht]; rfl, ht, by simp⟩
    · have hdec : lexMeasure s1 < lexMeasure s := by
        have h := nextToken_dec s (by rw [hnt]; exact ht)
        rw [hnt] at h
        exact h
      obtain ⟨ts2, t2, he, hk, hno⟩ := ih s1 (by omega)
      refine ⟨t :: ts2, t2, ?_, hk, ?_⟩
      · rw [he1, if_neg ht, he]
        rfl
      · intro u hu
        rcases List.mem_cons.mp hu with h | h
        · subst h; exact ht
        · exact hno u h

/-- Ledger equation for layout tokens: the DEDENTs still to be emitted
(pending ones plus one per stack level above the bottom, unless finished)
balance the INDENTs. -/
def Ledger (s : LexSt) : Prop :=
  cntK .Dedent (lexAll s) + cntK .Indent s.pending
    = cntK .Indent (lexAll s) + cntK .Dedent s.pending +
      (if s.finished then 0 else s.stack.length - 1)

theorem ledger_inner {n : Nat} {s : LexSt} {stack1 : List Nat}
    (ihyp : ∀ s1 : LexSt, lexMeasure s1 < n → StInv s1 → Ledger s1)
    (hm : lexMeasure s < n + 1)
    (hpend : s.pending = []) (hfin : s.finished = false)
    (hnt : nextToken s = innerLoop stack1 s.rest)
    (hne1 : stack1 ≠ []) (hl1 : stack1.getLast? = some 0)
    (hlen : stack1.length = s.stack.length) : Ledger s := by
  have hgl : stack1.getLastD 0 = 0 := by
    rw [List.getLastD_eq_getLast?, hl1]
    rfl
  have hlen1 : 0 < stack1.length := List.length_pos.mpr hne1
  rcases innerLoop_out stack1 s.rest with ⟨hA, hcase⟩ | ⟨hB, hcase⟩ |
      ⟨txt, rest', hrlt, hcase⟩ | ⟨k, txt, rest', hrlt, hk, hkn, hcase⟩
  · have hL : lexAll s = [eofTok] := by
      rw [lexAll_eq s, hnt, hcase]
      rfl
    unfold Ledger
    rw [hL, hpend, hfin]
    have e1 : cntK .Dedent [eofTok] = 0 := rfl
    have e2 : cntK .Indent [eofTok] = 0 := rfl
    have e3 : cntK .Indent ([] : List Token) = 0 := rfl
    have e4 : cntK .Dedent ([] : List Token) = 0 := rfl
    rw [e1, e2, e3, e4]
    simp
    omega
  · rw [hgl] at hcase
    have hnt2 : nextToken s =
        (dedTok, ⟨[], [0], List.replicate (stack1.length - 2) dedTok, false, true⟩) := by
      rw [hnt, hcase]
    have hdec : lexMeasure (⟨[], [0], List.replicate (stack1.length - 2) dedTok,
        false, true⟩ : LexSt) < lexMeasure s := by
      have h := nextToken_dec s (by rw [hnt2]; simp [dedTok])
      rw [hnt2] at h
      exact h
    have hinvB : StInv (⟨[], [0], List.replicate (stack1.length - 2) dedTok,
        false, true⟩ : LexSt) := by
      refine ⟨fun t ht => Or.inr (List.eq_of_mem_replicate ht), by simp, by simp⟩
    have hIH := ihyp _ (by omega) hinvB
    have hL : lexAll s = dedTok ::
        lexAll (⟨[], [0], List.replicate (stack1.length - 2) dedTok,
          false, true⟩ : LexSt) := by
      rw [lexAll_eq s, hnt2]
      rfl
    have hrep := cntK_replicate_ded (stack1.length - 2)
    unfold Ledger at hIH ⊢
    rw [hL, hpend, hfin]
    rw [hrep.1, hrep.2] at hIH
    simp only [cntK_cons]
    have i1 : (if dedTok.kind = TokenKind.Dedent then 1 else 0) = 1 := rfl
    have i2 : (if dedTok.kind = TokenKind.Indent then 1 else 0) = 0 := rfl
    have e3 : cntK .Indent ([] : List Token) = 0 := rfl
    have e4 : cntK .Dedent ([] : List Token) = 0 := rfl
    rw [i1, i2, e3, e4]
    simp at hIH ⊢
    omega
  · have hnt2 : nextToken s = (⟨.Newline, txt⟩, ⟨rest', stack1, [], true, false⟩) := by
      rw [hnt, hcase]
    have hdec : lexMeasure (⟨rest', stack1, [], true, false⟩ : LexSt) <
        lexMeasure s := by
      have h := nextToken_dec s (by rw [hnt2]; simp)
      rw [hnt2] at h
      exact h
    have hinv2 : StInv (⟨rest', stack1, [], true, false⟩ : LexSt) :=
      ⟨by simp, hne1, hl1⟩
    have hIH := ihyp _ (by omega) hinv2
    have hL : lexAll s = ⟨.Newline, txt⟩ ::
        lexAll (⟨rest', stack1, [], true, false⟩ : LexSt) := by
      rw [lexAll_eq s, hnt2]
      rfl
    unfold Ledger at hIH ⊢
    rw [hL, hpend, hfin]
    simp only [cntK_cons] at hIH ⊢
    simp at hIH ⊢
    omega
  · have hnt2 : nextToken s = (⟨k, txt⟩, ⟨rest', stack1, [], false, false⟩) := by
      rw [hnt, hcase]
    have hdec : lexMeasure (⟨rest', stack1, [], false, false⟩ : LexSt) <
        lexMeasure s := by
      have h := nextToken_dec s (by rw [hnt2]; simpa using hk.2.2)
      rw [hnt2] at h
      exact h
    have hinv2 : StInv (⟨rest', stack1, [], false, false⟩ : LexSt) :=
      ⟨by simp, hne1, hl1⟩
    have hIH := ihyp _ (by omega) hinv2
    have hL : lexAll s = ⟨k, txt⟩ ::
        lexAll (⟨rest', stack1, [], false, false⟩ : LexSt) := by
      rw [lexAll_eq s, hnt2]
      simp [hk.2.2]
    unfold Ledger at hIH ⊢
    rw [hL, hpend, hfin]
    simp only [cntK_cons] at hIH ⊢
    simp [hk.1, hk.2.1] at hIH ⊢
    omega

theorem lexAll_ledger : ∀ (n : Nat) (s : LexSt), lexMeasure s < n → StInv s → Ledger s := by
  intro n
  induction n with
  | zero => intro s h; omega
  | succ n ih =>
    intro s hm hinv
    obtain ⟨rest, stack, pending, als, fin⟩ := s
    obtain ⟨hp, hne, hl⟩ := hinv
    rcases pending with _ | ⟨t, ts⟩
    · rcases fin with _ | _
      · rcases als with _ | _
        · have hnt2 : nextToken ⟨rest, stack, [], false, false⟩ =
              innerLoop stack rest := by
            simp [nextToken]
          exact ledger_inner ih hm rfl rfl hnt2 hne hl rfl
        · rcases hc : processInd stack rest 0 with ⟨stack1, pend1⟩
          obtain ⟨hne1, hl1, hp1, hcnt⟩ := processInd_inv hne hl hc
          rcases pend1 with _ | ⟨t1, ts1⟩
          · have hs : stack1 = stack := by
              rcases processInd_cases stack rest 0 with h1 | ⟨i, h1⟩ | ⟨h1, h2⟩
              · rw [hc] at h1
                exact ((Prod.mk.injEq _ _ _ _).mp h1).1
              · rw [hc] at h1
                simp at h1
              · rw [hc] at h2
                simp at h2
            subst hs
            have hnt2 : nextToken ⟨rest, stack1, [], true, false⟩ =
                innerLoop stack1 rest := by
              simp [nextToken, hc]
            exact ledger_inner ih hm rfl rfl hnt2 hne1 hl1 rfl
          · have hnt2 : nextToken ⟨rest, stack, [], true, false⟩ =
                (t1, ⟨rest, stack1, ts1, false, false⟩) := by
              simp [nextToken, hc]
            have htk := hp1 t1 (List.mem_cons_self t1 ts1)
            have hkE : ¬ t1.kind = .Eof := by
              rcases htk with h | h <;> subst h <;> decide
            have hdec : lexMeasure (⟨rest, stack1, ts1, false, false⟩ : LexSt) <
                lexMeasure (⟨rest, stack, [], true, false⟩ : LexSt) := by
              have h := nextToken_dec _ (by rw [hnt2]; exact hkE)
              rw [hnt2] at h
              exact h
            have hinv2 : StInv (⟨rest, stack1, ts1, false, false⟩ : LexSt) :=
              ⟨fun u hu => hp1 u (List.mem_cons_of_mem t1 hu), hne1, hl1⟩
            have hIH := ih _ (by omega) hinv2
            have hL : lexAll ⟨rest, stack, [], true, false⟩ =
                t1 :: lexAll ⟨rest, stack1, ts1, false, false⟩ := by
              rw [lexAll_eq _, hnt2]
              simp [hkE]
            have hlen0 : 0 < stack.length := List.length_pos.mpr hne
            have hlenB : 0 < stack1.length := List.length_pos.mpr hne1
            unfold Ledger at hIH ⊢
            rw [hL]
            have e3 : cntK .Indent ([] : List Token) = 0 := rfl
            have e4 : cntK .Dedent ([] : List Token) = 0 := rfl
            rcases htk with h | h <;> subst h
            · simp only [cntK_cons] at hcnt ⊢
              have iI : (if indTok.kind = TokenKind.Indent then 1 else 0) = 1 := rfl
              have iD : (if indTok.kind = TokenKind.Dedent then 1 else 0) = 0 := rfl
              rw [iI, iD] at hcnt ⊢
              rw [e3, e4]
              simp at hIH ⊢
              omega
            · simp only [cntK_cons] at hcnt ⊢
              have iI : (if dedTok.kind = TokenKind.Indent then 1 else 0) = 0 := rfl
              have iD : (if dedTok.kind = TokenKind.Dedent then 1 else 0) = 1 := rfl
              rw [iI, iD] at hcnt ⊢
              rw [e3, e4]
              simp at hIH ⊢
              omega
      · have hL : lexAll ⟨rest, stack, [], als, true⟩ = [eofTok] := by
          rw [lexAll_eq (⟨rest, stack, [], als, true⟩ : LexSt)]
          rfl
        unfold Ledger
        rw [hL]
        have e1 : cntK .Dedent [eofTok] = 0 := rfl
        have e2 : cntK .Indent [eofTok] = 0 := rfl
        have e3 : cntK .Indent ([] : List Token) = 0 := rfl
        have e4 : cntK .Dedent ([] : List Token) = 0 := rfl
        rw [e1, e2, e3, e4]
        simp
    · have hnt2 : nextToken ⟨rest, stack, t :: ts, als, fin⟩ =
          (t, ⟨rest, stack, ts, als, fin⟩) := rfl
      have htk : t = indTok ∨ t = dedTok := hp t (List.mem_cons_self t ts)
      have hkE : ¬ t.kind = .Eof := by
        rcases htk with h | h <;> subst h <;> decide
      have hdec : lexMeasure (⟨rest, stack, ts, als, fin⟩ : LexSt) <
          lexMeasure (⟨rest, stack, t :: ts, als, fin⟩ : LexSt) := by
        have h := nextToken_dec _ (by rw [hnt2]; exact hkE)
        rw [hnt2] at h
        exact h
      have hinv2 : StInv (⟨rest, stack, ts, als, fin⟩ : LexSt) :=
        ⟨fun u hu => hp u (List.mem_cons_of_mem t hu), hne, hl⟩
      have hIH := ih _ (by omega) hinv2
      have hL : lexAll ⟨rest, stack, t :: ts, als, fin⟩ =
          t :: lexAll ⟨rest, stack, ts, als, fin⟩ := by
        rw [lexAll_eq _, hnt2]
        simp [hkE]
      unfold Ledger at hIH ⊢
      rw [hL]
      rcases htk with h | h <;> subst h <;>
        simp only [cntK_cons] at hIH ⊢ <;>
        simp [indTok, dedTok] at hIH ⊢ <;> omega

/-- C3: the claim that the lexer recognizes `ref`, `uses`, `binds`,
`requires`, `allows`, `forbids`, `descendant`, `connection`, `language` and
`connection_check` as keyword tokens, and `\x7b \x7d < >` as punctuation,
fails on the source `TokenKind` of `src/lexer.rs`: every one of those words
lexes as a plain `Identifier`, and the brace and angle characters match no
rule at all — they are silently skipped, so `"\x7b\x7d<>"` lexes to just
EOF.  (The punctuation that `src/lexer.rs` does recognize is confirmed in
the last conjunct.) -/
theorem C3_lexer_token_coverage_bug :
    (tokenize "ref").map Token.kind = [.Identifier, .Eof] ∧
    (tokenize "uses").map Token.kind = [.Identifier, .Eof] ∧
    (tokenize "binds").map Token.kind = [.Identifier, .Eof] ∧
    (tokenize "requires").map Token.kind = [.Identifier, .Eof] ∧
    (tokenize "allows").map Token.kind = [.Identifier, .Eof] ∧
    (tokenize "forbids").map Token.kind = [.Identifier, .Eof] ∧
    (tokenize "descendant").map Token.kind = [.Identifier, .Eof] ∧
    (tokenize "connection").map Token.kind = [.Identifier, .Eof] ∧
    (tokenize "language").map Token.kind = [.Identifier, .Eof] ∧
    (tokenize "connection_check").map Token.kind = [.Identifier, .Eof] ∧
    (tokenize "\x7b\x7d<>").map Token.kind = [.Eof] ∧
    (tokenize ":=.,()[]*").map Token.kind =
      [.Colon, .Equals, .Dot, .Comma, .LParen, .RParen,
       .LBracket, .RBracket, .Star, .Eof] := by
  refine ⟨rfl, rfl, rfl, rfl, rfl, rfl, rfl, rfl, rfl, rfl, rfl, rfl⟩

/-- C4 counterexample: on `"x\n  "` — whose second line is blank (it holds
only whitespace) — the lexer emits an INDENT for the blank line and a
matching DEDENT at EOF, although the claim says blank lines do not affect
the indent stack and only the first non-whitespace character of a line can
trigger layout tokens. -/
theorem C4_blank_line_counterexample :
    (tokenize "x\n  ").map Token.kind =
      [.Identifier, .Newline, .Indent, .Dedent, .Eof] := rfl

/-- C4 (amended): the indentation algorithm, stated per line over a
strictly-decreasing indent stack (which the lexer maintains, bottom 0).
The stack starts as `[0]`; on a code line of indent `i` (spaces count 1,
tabs count 4, see `lineIndent`), `i` greater than the top pushes `i` and
emits one INDENT, otherwise every level strictly greater than `i` is
popped with one DEDENT per pop (nothing when `i` equals the top); a line
whose first non-whitespace character is a newline or carriage return
leaves the stack alone; a comment line pushes an INDENT exactly when its
indent exceeds the top and never pops; at end of input one DEDENT is
emitted per stack level above the bottom.  The correction to the claim:
`lineShape` classifies a whitespace-only line that ends at end-of-input as
a code line, not a blank line (see `C4_blank_line_counterexample`). -/
theorem C4_indentation_algorithm (src : String) (stack : List Nat) (cs : Str)
    (hs : List.Sorted (· > ·) stack) :
    (initSt src).stack = [0] ∧
    (lineShape cs = .codeLine →
      (lineIndent cs > stack.headD 0 →
        processInd stack cs 0 = (lineIndent cs :: stack, [indTok])) ∧
      (¬ lineIndent cs > stack.headD 0 →
        processInd stack cs 0 =
          (stack.filter (fun l => l ≤ lineIndent cs),
           List.replicate ((stack.filter (fun l => lineIndent cs < l)).length)
             dedTok))) ∧
    (lineShape cs = .blank → processInd stack cs 0 = (stack, [])) ∧
    (lineShape cs = .commentLine →
      processInd stack cs 0 =
        (if lineIndent cs > stack.headD 0
         then (lineIndent cs :: stack, [indTok]) else (stack, []))) ∧
    lexAll ⟨[], stack, [], false, false⟩ =
      List.replicate (stack.length - 1) dedTok ++ [eofTok] := by
  have hps := processInd_spec stack cs 0
  simp only [Nat.zero_add] at hps
  refine ⟨rfl, ?_, ?_, ?_, ?_⟩
  · intro hsh
    rw [hsh] at hps
    dsimp only at hps
    constructor
    · intro hgt
      rw [hps, indentCompare_spec _ hs, if_pos hgt]
    · intro hgt
      rw [hps, indentCompare_spec _ hs, if_neg hgt]
  · intro hsh
    rw [hsh] at hps
    dsimp only at hps
    exact hps
  · intro hsh
    rw [hsh] at hps
    dsimp only at hps
    exact hps
  · have hnt : nextToken ⟨[], stack, [], false, false⟩ = innerLoop stack [] := by
      simp [nextToken]
    rcases innerLoop_out stack [] with ⟨hA, hcase⟩ | ⟨hB, hcase⟩ |
        ⟨txt, rest', hrlt, _⟩ | ⟨k, txt, rest', hrlt, _, _, _⟩
    · have hLx : lexAll (⟨[], stack, [], false, false⟩ : LexSt) = [eofTok] := by
        rw [lexAll_eq _, hnt, hcase]
        rfl
      rw [hLx, (by omega : stack.length - 1 = 0)]
      rfl
    · have hLx : lexAll (⟨[], stack, [], false, false⟩ : LexSt) =
          dedTok :: lexAll (⟨[], [stack.getLastD 0],
            List.replicate (stack.length - 2) dedTok, false, true⟩ : LexSt) := by
        rw [lexAll_eq _, hnt, hcase]
        rfl
      rw [hLx, lexAll_finished, (by omega : stack.length - 1 = (stack.length - 2) + 1),
        List.replicate_succ]
      rfl
    · simp at hrlt
    · simp at hrlt

theorem C4_indentation_algorithm_witness :
    List.Sorted (· > ·) ([4, 0] : List Nat) ∧
    ((initSt "x").stack = [0] ∧
    (lineShape "  x".toList = .codeLine →
      (lineIndent "  x".toList > ([4, 0] : List Nat).headD 0 →
        processInd [4, 0] "  x".toList 0 =
          (lineIndent "  x".toList :: [4, 0], [indTok])) ∧
      (¬ lineIndent "  x".toList > ([4, 0] : List Nat).headD 0 →
        processInd [4, 0] "  x".toList 0 =
          (([4, 0] : List Nat).filter (fun l => l ≤ lineIndent "  x".toList),
           List.replicate ((([4, 0] : List Nat).filter
             (fun l => lineIndent "  x".toList < l)).length) dedTok))) ∧
    (lineShape "  x".toList = .blank →
      processInd [4, 0] "  x".toList 0 = ([4, 0], [])) ∧
    (lineShape "  x".toList = .commentLine →
      processInd [4, 0] "  x".toList 0 =
        (if lineIndent "  x".toList > ([4, 0] : List Nat).headD 0
         then (lineIndent "  x".toList :: [4, 0], [indTok]) else ([4, 0], []))) ∧
    lexAll ⟨[], [4, 0], [], false, false⟩ =
      List.replicate (([4, 0] : List Nat).length - 1) dedTok ++ [eofTok]) :=
  ⟨by decide, C4_indentation_algorithm "x" [4, 0] "  x".toList (by decide)⟩

/-- C9: for every input string the token stream of `Lexer::tokenize` (a
total function of this embedding, so tokenization terminates) ends in an
EOF-kind token that is its only EOF-kind token, and contains exactly as
many DEDENT tokens as INDENT tokens.  Unrecognizable bytes produce no
token and no diagnostic — they are skipped, witnessed by the unrecognized
at-signs in the last conjunct: `"@x@"` lexes exactly like `"x"`. -/
theorem C9_tokenize_wellformed (src : String) :
    (∃ ts t, tokenize src = ts ++ [t] ∧ t.kind = .Eof ∧ ∀ u ∈ ts, ¬ u.kind = .Eof) ∧
    cntK .Dedent (tokenize src) = cntK .Indent (tokenize src) ∧
    tokenize "@x@" = tokenize "x" := by
  refine ⟨?_, ?_, ?_⟩
  · exact lexAll_shape (lexMeasure (initSt src) + 1) (initSt src) (by omega)
  · have hinv : StInv (initSt src) :=
      ⟨by simp [initSt], by simp [initSt], by simp [initSt]⟩
    have hled := lexAll_ledger (lexMeasure (initSt src) + 1) (initSt src)
      (by omega) hinv
    unfold Ledger at hled
    have hIp : (initSt src).pending = [] := rfl
    have hIf : (initSt src).finished = false := rfl
    have hIs : (initSt src).stack = [0] := rfl
    rw [hIp, hIf, hIs] at hled
    have e3 : cntK .Indent ([] : List Token) = 0 := rfl
    have e4 : cntK .Dedent ([] : List Token) = 0 := rfl
    rw [e3, e4] at hled
    simp at hled
    exact hled
  · rfl

end Lex

/-! ## Interpreter (`src/interpreter.rs`, `src/stdlib/mod.rs`, `src/stdlib/files.rs`)

The run path of `Interpreter` — `run_with_options`, `run_element_with_options`,
`evaluate_expression`, `run_check`, `get_library_function`,
`expression_to_string` — together with the `files` standard library.

Modelling notes.
* Strings are `List Char`; spans are omitted everywhere (they never influence
  the run path's control flow, only diagnostics locations).
* The file system is an explicit parameter (`FS`): the sets of file and
  directory paths that exist, plus the glob crate's answers and file sizes as
  oracle functions — the run path only consumes these through the `files`
  library.  `Path::new(a).join(b)` is modelled for the non-empty-`a`,
  relative-`b` case the embedded checks exercise: `a ++ "/" ++ b`.
* `f64` numeric literals are modelled at their integral case (`Int`), which
  is the `fract() == 0.0` branch of `evaluate_expression`; no claim involves
  non-integral numerals, so `Value::Float` is unreachable and omitted.
  `ConnectionPoint`'s `data` map is omitted: the embedded run path never
  constructs nor reads it.
* `HashMap<String, Value>` iteration order is not a function of the map's
  contents in Rust (`RandomState`); the scope map is an insertion-ordered
  association list and every function that iterates it (the suffix-match
  scans of `evaluate_expression`) takes an iteration-order oracle
  `ord : List (Str × Value) → List (Str × Value)`; a faithful oracle is any
  function producing a permutation of its input.
* The library registry is a parameter `Registry` (built-ins plus whatever
  `load_from_workspace` added); the `files` library is embedded in full.
* `verbose` output goes to stderr only and never changes results; the field
  is kept, the printing is not modelled. -/

namespace Interp

/-- `LibraryError` of `stdlib/mod.rs`. -/
structure LibraryError where
  message : Str
  code : Str
  deriving DecidableEq, Repr

/-- `ScopeKind` of `stdlib/mod.rs`. -/
inductive ScopeKind where
  | file (path : Str)
  | folder (path : Str)
  | glob (pattern : Str)
  deriving DecidableEq, Repr

/-- `Scope` of `stdlib/mod.rs`. -/
structure Scope where
  kind : ScopeKind
  paths : List Str
  resolved : Bool
  deriving DecidableEq, Repr

/-- `CheckResult` of `stdlib/mod.rs`. -/
inductive CheckResult where
  | pass
  | fail (msg : Str)
  | error (msg : Str)
  deriving DecidableEq, Repr

/-- `Value` of `stdlib/mod.rs` (see the modelling notes for `Float` and
`ConnectionPoint`). -/
inductive Value where
  | null
  | bool (b : Bool)
  | int (i : Int)
  | string (s : Str)
  | list (vs : List Value)
  | scope (s : Scope)
  | connectionPoint (name : Str) (kind : Str)

/-- `Value::as_string`. -/
def Value.asString : Value → Option Str
  | .string s => some s
  | _ => none

/-- `Value::as_int` (the `Float` arm is unreachable, see notes). -/
def Value.asInt : Value → Option Int
  | .int i => some i
  | _ => none

/-- `Value::as_scope`. -/
def Value.asScope : Value → Option Scope
  | .scope s => some s
  | _ => none

def slashChar : Char := Char.ofNat 47

/-- File-system model (see the modelling notes). -/
structure FS where
  files : List Str
  dirs : List Str
  globMatches : Str → List Str
  globOk : Str → Bool
  sizeOf : Str → Option Nat

/-- `Path::new(a).join(b)` for non-empty `a` and relative `b`. -/
def joinPath (a b : Str) : Str := a ++ slashChar :: b

def FS.isFile (fs : FS) (p : Str) : Bool := fs.files.contains p

def FS.isDir (fs : FS) (p : Str) : Bool := fs.dirs.contains p

/-- `Path::exists`. -/
def FS.pathExists (fs : FS) (p : Str) : Bool := fs.isFile p || fs.isDir p

/-- The files found by `WalkDir::new(dir)` (recursively), in the file
system's own enumeration order. -/
def FS.filesUnder (fs : FS) (dir : Str) : List Str :=
  fs.files.filter (fun p => (dir ++ [slashChar]).isPrefixOf p)

/-- `Path::file_name` as the component after the last slash. -/
def lastComponent (p : Str) : Str :=
  (p.reverse.takeWhile (fun c => ¬ c = slashChar)).reverse

/-- `Path::parent` as the prefix before the last slash. -/
def dropLastComponent (p : Str) : Str :=
  ((p.reverse.dropWhile (fun c => ¬ c = slashChar)).drop 1).reverse

/-- `FilesLibrary::file_selector`. -/
def fileSelector (fs : FS) (path ws : Str) : Except LibraryError Value :=
  if fs.pathExists (joinPath ws path) && fs.isFile (joinPath ws path) then
    .ok (.scope ⟨.file path, [joinPath ws path], true⟩)
  else
    .ok (.scope ⟨.file path, [], true⟩)

/-- `FilesLibrary::folder_selector`. -/
def folderSelector (fs : FS) (path ws : Str) : Except LibraryError Value :=
  if fs.pathExists (joinPath ws path) && fs.isDir (joinPath ws path) then
    .ok (.scope ⟨.folder path, fs.filesUnder (joinPath ws path), true⟩)
  else
    .ok (.scope ⟨.folder path, [], true⟩)

/-- `FilesLibrary::glob_selector`. -/
def globSelector (fs : FS) (pattern ws : Str) : Except LibraryError Value :=
  if fs.globOk (joinPath ws pattern) then
    .ok (.scope ⟨.glob pattern,
      (fs.globMatches (joinPath ws pattern)).filter (fun p => fs.isFile p), true⟩)
  else
    .ok (.scope ⟨.glob pattern, [], true⟩)

/-- `FilesLibrary::check_exists`.  In the `File` branch the `filename`
argument is not used. -/
def checkExists (fs : FS) (scope : Scope) (filename ws : Str) : CheckResult :=
  match scope.kind with
  | .file path =>
    if fs.pathExists (joinPath ws path) then .pass
    else .fail ("File \x27".toList ++ path ++ "\x27 does not exist".toList)
  | .folder path =>
    if fs.pathExists (joinPath (joinPath ws path) filename) then .pass
    else .fail ("File \x27".toList ++ filename ++
      "\x27 does not exist in folder \x27".toList ++ path ++ "\x27".toList)
  | .glob _ =>
    if scope.paths.any (fun p => lastComponent p = filename) then .pass
    else .fail ("No file named \x27".toList ++ filename ++
      "\x27 found in scope".toList)

/-- `FilesLibrary::check_contains`. -/
def checkContains (fs : FS) (scope : Scope) (filename ws : Str) : CheckResult :=
  match scope.kind with
  | .folder path =>
    if fs.pathExists (joinPath (joinPath ws path) filename) then .pass
    else .fail ("Folder \x27".toList ++ path ++
      "\x27 does not contain \x27".toList ++ filename ++ "\x27".toList)
  | _ =>
    if scope.paths.any (fun p =>
        filename.isSuffixOf p || lastComponent p = filename) then .pass
    else .fail ("Scope does not contain \x27".toList ++ filename ++ "\x27".toList)

/-- `FilesLibrary::check_no_files_matching` (the failure message's file list
is abbreviated to the match count, the only part no claim depends on). -/
def checkNoFilesMatching (fs : FS) (scope : Scope) (pattern ws : Str) : CheckResult :=
  match scope.kind with
  | .folder path =>
    if fs.globOk (joinPath (joinPath ws path) pattern) then
      if fs.globMatches (joinPath (joinPath ws path) pattern) = [] then .pass
      else .fail ("Found files matching pattern \x27".toList ++ pattern ++ "\x27".toList)
    else .error ("Invalid glob pattern: ".toList ++ pattern)
  | .file path =>
    if fs.globOk (joinPath (dropLastComponent (joinPath ws path)) pattern) then
      if fs.globMatches (joinPath (dropLastComponent (joinPath ws path)) pattern) = []
      then .pass
      else .fail ("Found files matching pattern \x27".toList ++ pattern ++ "\x27".toList)
    else .error ("Invalid glob pattern: ".toList ++ pattern)
  | .glob _ =>
    if fs.globOk (joinPath ws pattern) then
      if fs.globMatches (joinPath ws pattern) = [] then .pass
      else .fail ("Found files matching pattern \x27".toList ++ pattern ++ "\x27".toList)
    else .error ("Invalid glob pattern: ".toList ++ pattern)

/-- `FilesLibrary::check_max_size`. -/
def checkMaxSize (fs : FS) (scope : Scope) (maxBytes : Int) : CheckResult :=
  if scope.paths.any (fun p =>
      match fs.sizeOf p with
      | some len => maxBytes < (len : Int)
      | none => false) then
    .fail ("File exceeds maximum size".toList)
  else .pass

/-- `<FilesLibrary as Library>::call`. -/
def filesCall (fs : FS) (function : Str) (args : List Value) (ws : Str) :
    Except LibraryError Value :=
  if function = "file_selector".toList then
    match (args.get? 0).bind Value.asString with
    | some path => fileSelector fs path ws
    | none => .error ⟨"file_selector requires a string path argument".toList,
        "E100".toList⟩
  else if function = "folder_selector".toList then
    match (args.get? 0).bind Value.asString with
    | some path => folderSelector fs path ws
    | none => .error ⟨"folder_selector requires a string path argument".toList,
        "E101".toList⟩
  else if function = "glob_selector".toList then
    match (args.get? 0).bind Value.asString with
    | some pattern => globSelector fs pattern ws
    | none => .error ⟨"glob_selector requires a string pattern argument".toList,
        "E102".toList⟩
  else
    .error ⟨"Unknown function: files.".toList ++ function, "E199".toList⟩

/-- `<FilesLibrary as Library>::check`. -/
def filesCheck (fs : FS) (function : Str) (args : List Value) (ws : Str) :
    Except LibraryError CheckResult :=
  if function = "exists".toList then
    match (args.get? 0).bind Value.asScope with
    | some scope =>
      match (args.get? 1).bind Value.asString with
      | some filename => .ok (checkExists fs scope filename ws)
      | none => .error ⟨"exists requires a filename as second argument".toList,
          "E111".toList⟩
    | none => .error ⟨"exists requires a scope as first argument".toList,
        "E110".toList⟩
  else if function = "contains".toList then
    match (args.get? 0).bind Value.asScope with
    | some scope =>
      match (args.get? 1).bind Value.asString with
      | some filename => .ok (checkContains fs scope filename ws)
      | none => .error ⟨"contains requires a filename as second argument".toList,
          "E113".toList⟩
    | none => .error ⟨"contains requires a scope as first argument".toList,
        "E112".toList⟩
  else if function = "no_files_matching".toList then
    match (args.get? 0).bind Value.asScope with
    | some scope =>
      match (args.get? 1).bind Value.asString with
      | some pattern => .ok (checkNoFilesMatching fs scope pattern ws)
      | none => .error ⟨"no_files_matching requires a pattern as second argument".toList,
          "E115".toList⟩
    | none => .error ⟨"no_files_matching requires a scope as first argument".toList,
        "E114".toList⟩
  else if function = "max_size".toList then
    match (args.get? 0).bind Value.asScope with
    | some scope =>
      match (args.get? 1).bind Value.asInt with
      | some maxBytes => .ok (checkMaxSize fs scope maxBytes)
      | none => .error ⟨"max_size requires a number as second argument".toList,
          "E117".toList⟩
    | none => .error ⟨"max_size requires a scope as first argument".toList,
        "E116".toList⟩
  else
    .error ⟨"Unknown check function: files.".toList ++ function, "E199".toList⟩

/-- The `Library` trait interface (`call` and `check` of `stdlib/mod.rs`),
with the workspace as an argument as in the trait. -/
structure Library where
  call : Str → List Value → Str → Except LibraryError Value
  check : Str → List Value → Str → Except LibraryError CheckResult

/-- The `files` library as a `Library`. -/
def filesLib (fs : FS) : Library := ⟨filesCall fs, filesCheck fs⟩

/-- `LibraryRegistry::get_mut` viewed as a lookup function; the registry's
contents are a parameter (built-ins plus whatever `load_from_workspace`
registered). -/
abbrev Registry := Str → Option Library

/-- `Expression` of `ast.rs`, as consumed by the interpreter's run path
(spans omitted; numeric literals at their integral case, see notes). -/
inductive Expression where
  | ident (name : Str)
  | member (object : Expression) (memberName : Str)
  | call (function : Expression) (arguments : List Expression)
  | str (value : Str)
  | num (value : Int)
  | bool (value : Bool)
  | list (elements : List Expression)

/-- `ScopeDeclaration` as read by the interpreter's run path, which takes
`expression` to be present (`self.evaluate_expression(&scope.expression)`;
the snapshot's `ast.rs` has grown an `Option` there that
`interpreter.rs` does not handle — the run path is embedded as the
interpreter reads it). -/
structure ScopeDecl where
  name : Str
  expression : Expression

/-- `CheckDeclaration` as read by the run path. -/
structure CheckDecl where
  expression : Expression

/-- `Element` as read by the run path: `name`, `scopes`, `checks`,
`children` are the only fields `run_element_with_options` touches. -/
inductive Element where
  | mk (name : Str) (scopes : List ScopeDecl) (checks : List CheckDecl)
      (children : List Element)

def Element.name : Element → Str
  | .mk n _ _ _ => n

def Element.scopes : Element → List ScopeDecl
  | .mk _ s _ _ => s

def Element.checks : Element → List CheckDecl
  | .mk _ _ c _ => c

def Element.children : Element → List Element
  | .mk _ _ _ c => c

/-- `Program` as read by `run_with_options`, which iterates only
`program.elements`. -/
structure Program where
  elements : List Element

/-- Decimal digits of a natural number (`u64`/`i64` display). -/
def natToStrGo : Nat → Nat → Str
  | 0, _ => []
  | f + 1, n =>
    if n < 10 then [Char.ofNat (48 + n)]
    else natToStrGo f (n / 10) ++ [Char.ofNat (48 + n % 10)]

def natToStr (n : Nat) : Str := natToStrGo (n + 1) n

def intToStr (i : Int) : Str :=
  if i < 0 then Char.ofNat 45 :: natToStr i.natAbs else natToStr i.natAbs

/-- `Vec::join(sep)`. -/
def joinSep (sep : Str) : List Str → Str
  | [] => []
  | [x] => x
  | x :: xs => x ++ sep ++ joinSep sep xs

/-- `Interpreter::expression_to_string`. -/
def exprToString : Expression → Str
  | .ident n => n
  | .str s => squote :: s ++ [squote]
  | .num v => intToStr v
  | .bool b => if b then "true".toList else "false".toList
  | .member o m => exprToString o ++ Char.ofNat 46 :: m
  | .call f args =>
    exprToString f ++ Char.ofNat 40 :: joinSep ", ".toList (toStrings args)
      ++ [Char.ofNat 41]
  | .list es =>
    Char.ofNat 91 :: joinSep ", ".toList (toStrings es) ++ [Char.ofNat 93]
where toStrings : List Expression → List Str
  | [] => []
  | e :: es => exprToString e :: toStrings es

/-- A diagnostic, reduced to its code and message (spans and severity do not
influence the run path). -/
structure Diag where
  code : Str
  message : Str
  deriving DecidableEq, Repr

/-- `Interpreter::get_library_function`. -/
def getLibraryFunction : Expression → Except Diag (Str × Str)
  | .member (.ident libName) m => .ok (libName, m)
  | .member _ _ => .error ⟨"E205".toList, "Expected library.function".toList⟩
  | _ => .error ⟨"E205".toList, "Expected library.function".toList⟩

/-- The scope map: `HashMap<String, Value>` contents as an
insertion-ordered association list (see the modelling notes for iteration
order). -/
abbrev ScopeMap := List (Str × Value)

/-- `HashMap::insert`: replace the value under an existing key, otherwise
add the binding. -/
def insertScope (m : ScopeMap) (k : Str) (v : Value) : ScopeMap :=
  if m.any (fun p => p.1 == k) then
    m.map (fun p => if p.1 == k then (k, v) else p)
  else m ++ [(k, v)]

/-- `HashMap::get`. -/
def lookupScope (m : ScopeMap) (k : Str) : Option Value :=
  (m.find? (fun p => p.1 == k)).map Prod.snd

/-- The iteration-order oracle for scope-map scans (see modelling notes). -/
abbrev IterOrd := ScopeMap → ScopeMap

/-- `Interpreter::evaluate_expression`.  Read-only in the interpreter state
(it inserts nothing); `scopes` and `curPath` are the `self.scopes` and
`self.current_element_path` fields, `ord` the map's iteration order. -/
def evalExpr (reg : Registry) (ws : Str) (ord : IterOrd) (scopes : ScopeMap)
    (curPath : Str) : Expression → Except Diag Value
  | .str s => .ok (.string s)
  | .num n => .ok (.int n)
  | .bool b => .ok (.bool b)
  | .list es =>
    match evalArgs es with
    | .ok vs => .ok (.list vs)
    | .error d => .error d
  | .ident name =>
    match lookupScope scopes (curPath ++ Char.ofNat 46 :: name) with
    | some v => .ok v
    | none =>
      match (ord scopes).find?
          (fun p => (Char.ofNat 46 :: name).isSuffixOf p.1 || p.1 == name) with
      | some p => .ok p.2
      | none =>
        .error ⟨"E200".toList, "Undefined identifier: ".toList ++ name⟩
  | .member obj m =>
    match obj with
    | .ident libName =>
      .error ⟨"E201".toList, "Member access ".toList ++ libName ++
        Char.ofNat 46 :: m ++ " cannot be evaluated directly".toList⟩
    | _ =>
      match (ord scopes).find?
          (fun p => (exprToString (.member obj m)).isSuffixOf p.1) with
      | some p => .ok p.2
      | none =>
        .error ⟨"E202".toList,
          "Undefined reference: ".toList ++ exprToString (.member obj m)⟩
  | .call fn args =>
    match getLibraryFunction fn with
    | .error d => .error d
    | .ok (libName, fnName) =>
      match evalArgs args with
      | .error d => .error d
      | .ok vals =>
        match reg libName with
        | some lib =>
          match lib.call fnName vals ws with
          | .ok v => .ok v
          | .error e => .error ⟨e.code, e.message⟩
        | none =>
          .error ⟨"E203".toList, "Unknown library: ".toList ++ libName⟩
where evalArgs : List Expression → Except Diag (List Value)
  | [] => .ok []
  | e :: es =>
    match evalExpr reg ws ord scopes curPath e with
    | .error d => .error d
    | .ok v =>
      match evalArgs es with
      | .error d => .error d
      | .ok vs => .ok (v :: vs)

/-- `Interpreter::run_check`. -/
def runCheck (reg : Registry) (ws : Str) (ord : IterOrd) (scopes : ScopeMap)
    (curPath : Str) : Expression → Except Diag CheckResult
  | .call fn args =>
    match getLibraryFunction fn with
    | .error d => .error d
    | .ok (libName, fnName) =>
      match evalExpr.evalArgs reg ws ord scopes curPath args with
      | .error d => .error d
      | .ok vals =>
        match reg libName with
        | some lib =>
          match lib.check fnName vals ws with
          | .ok r => .ok r
          | .error e => .error ⟨e.code, e.message⟩
        | none =>
          .error ⟨"E203".toList, "Unknown library: ".toList ++ libName⟩
  | e => .error ⟨"E204".toList, "Check must be a function call".toList⟩

/-- `RunOptions` of `interpreter.rs`. -/
structure RunOptions where
  filter : Option Str
  limit : Option Nat
  verbose : Bool
  deriving DecidableEq, Repr

/-- `SingleCheckResult`. -/
structure SingleCheckResult where
  element_path : Str
  check_expr : Str
  result : CheckResult
  deriving DecidableEq, Repr

/-- `CheckOutput`. -/
structure CheckOutput where
  total : Nat
  passed : Nat
  failed : Nat
  errors : Nat
  results : List SingleCheckResult
  skipped : Nat
  deriving DecidableEq, Repr

/-- The mutable interpreter fields that the run path touches: `scopes`,
`diagnostics`, `current_element_path` (`libraries` and `workspace` are
never written — they are the `reg` and `ws` parameters). -/
structure InterpSt where
  scopes : ScopeMap
  diagnostics : List Diag
  currentElementPath : Str

/-- The interpreter state made by `Interpreter::new`. -/
def newInterp : InterpSt := ⟨[], [], []⟩

/-- `current_path.join(".")`. -/
def joinDot : List Str → Str
  | [] => []
  | [x] => x
  | x :: xs => x ++ Char.ofNat 46 :: joinDot xs

/-- The per-check limit guard of `run_element_with_options`
(`options.limit` reached by `output.results`). -/
def limitHit (opts : RunOptions) (out : CheckOutput) : Bool :=
  match opts.limit with
  | some limit => limit ≤ out.results.length
  | none => false

/-- `str::contains(needle)` on our string model. -/
def strContains : Str → Str → Bool
  | [], needle => needle.isPrefixOf []
  | c :: t, needle => needle.isPrefixOf (c :: t) || strContains t needle

/-- The filter test of `run_element_with_options`:
`path_str.contains(filter)` when a filter is set. -/
def matchesFilter (opts : RunOptions) (pathStr : Str) : Bool :=
  match opts.filter with
  | some f => strContains pathStr f
  | none => true

/-- The scope-evaluation loop of `run_element_with_options`: each scope is
evaluated and stored under `"<path_str>.<name>"`; an evaluation error is
pushed onto the diagnostics instead. -/
def runScopes (reg : Registry) (ws : Str) (ord : IterOrd) (pathStr : Str) :
    List ScopeDecl → InterpSt → InterpSt
  | [], st => st
  | sd :: rest, st =>
    match evalExpr reg ws ord st.scopes st.currentElementPath sd.expression with
    | .ok v =>
      runScopes reg ws ord pathStr rest
        { st with scopes :=
            insertScope st.scopes (pathStr ++ Char.ofNat 46 :: sd.name) v }
    | .error d =>
      runScopes reg ws ord pathStr rest
        { st with diagnostics := st.diagnostics ++ [d] }

/-- The check loop of `run_element_with_options`. -/
def runChecks (reg : Registry) (ws : Str) (ord : IterOrd) (opts : RunOptions)
    (pathStr : Str) (matchesF : Bool) (st : InterpSt) :
    List CheckDecl → CheckOutput → CheckOutput
  | [], out => out
  | cd :: rest, out =>
    if limitHit opts out then
      runChecks reg ws ord opts pathStr matchesF st rest
        { out with skipped := out.skipped + 1 }
    else if matchesF = false then
      runChecks reg ws ord opts pathStr matchesF st rest
        { out with skipped := out.skipped + 1 }
    else
      match runCheck reg ws ord st.scopes st.currentElementPath cd.expression with
      | .ok r =>
        runChecks reg ws ord opts pathStr matchesF st rest
          (match r with
            | .pass =>
              { out with
                total := out.total + 1
                passed := out.passed + 1
                results := out.results ++
                  [⟨pathStr, exprToString cd.expression, r⟩] }
            | .fail _ =>
              { out with
                total := out.total + 1
                failed := out.failed + 1
                results := out.results ++
                  [⟨pathStr, exprToString cd.expression, r⟩] }
            | .error _ =>
              { out with
                total := out.total + 1
                errors := out.errors + 1
                results := out.results ++
                  [⟨pathStr, exprToString cd.expression, r⟩] })
      | .error d =>
        runChecks reg ws ord opts pathStr matchesF st rest
          { out with
            total := out.total + 1
            errors := out.errors + 1
            results := out.results ++
              [⟨pathStr, exprToString cd.expression, .error d.message⟩] }

/-- `Interpreter::run_element_with_options`: set the current element path,
return early when the limit is already reached (without touching
`skipped`), evaluate and store the scopes, run the checks, recurse into the
children. -/
def runElement (reg : Registry) (ws : Str) (ord : IterOrd) (opts : RunOptions) :
    Element → List Str → InterpSt → CheckOutput → InterpSt × CheckOutput
  | .mk name scopes checks children, path, st, out =>
    if limitHit opts out then
      ({ st with currentElementPath := joinDot (path ++ [name]) }, out)
    else
      runChildren children (path ++ [name])
        (runScopes reg ws ord (joinDot (path ++ [name])) scopes
          { st with currentElementPath := joinDot (path ++ [name]) })
        (runChecks reg ws ord opts (joinDot (path ++ [name]))
          (matchesFilter opts (joinDot (path ++ [name])))
          (runScopes reg ws ord (joinDot (path ++ [name])) scopes
            { st with currentElementPath := joinDot (path ++ [name]) })
          checks out)
where runChildren : List Element → List Str → InterpSt → CheckOutput →
    InterpSt × CheckOutput
  | [], _, st, out => (st, out)
  | e :: es, path, st, out =>
    match runElement reg ws ord opts e path st out with
    | (st2, out2) => runChildren es path st2 out2

/-- `Interpreter::run_with_options`: fresh zeroed output, the interpreter
state (in particular `scopes`) carried over from whatever came before. -/
def runWithOptions (reg : Registry) (ws : Str) (ord : IterOrd)
    (opts : RunOptions) (p : Program) (st : InterpSt) :
    InterpSt × CheckOutput :=
  runElement.runChildren reg ws ord opts p.elements [] st ⟨0, 0, 0, 0, [], 0⟩

/-! ### Concrete example environment for the interpreter claims -/

/-- Example file system: workspace `ws` is a directory; the file `ws/a`
exists, `ws/b` does not. -/
def exFS : FS := ⟨["ws/a".toList], ["ws".toList], fun _ => [], fun _ => true,
  fun _ => none⟩

/-- Registry holding the `files` library over `exFS`. -/
def exReg : Registry :=
  fun n => if n = "files".toList then some (filesLib exFS) else none

def exWs : Str := "ws".toList

def exOpts : RunOptions := ⟨none, none, false⟩

/-- `files.file_selector('<p>')`. -/
def selExpr (p : Str) : Expression :=
  .call (.member (.ident "files".toList) "file_selector".toList) [.str p]

/-- `check files.exists(m, 'x')` with a bare identifier `m`. -/
def checkM : CheckDecl :=
  ⟨.call (.member (.ident "files".toList) "exists".toList)
    [.ident "m".toList, .str "x".toList]⟩

/-- Elements `a` and `b` both declare a scope named `m`; element `c` runs a
check whose bare identifier `m` only resolves through the suffix scan. -/
def progOrd : Program := ⟨[
  .mk "a".toList [⟨"m".toList, selExpr "a".toList⟩] [] [],
  .mk "b".toList [⟨"m".toList, selExpr "b".toList⟩] [] [],
  .mk "c".toList [] [checkM] []]⟩

/-- A program that stores the scope `a.m`. -/
def progStore : Program := ⟨[.mk "a".toList [⟨"m".toList, selExpr "a".toList⟩] [] []]⟩

/-- A program whose only check reads the bare identifier `m`. -/
def progRead : Program := ⟨[.mk "z".toList [] [checkM] []]⟩

/-- `check files.exists(files.file_selector('a'), 'x')` — a check with no
identifier resolution. -/
def checkSelf : CheckDecl :=
  ⟨.call (.member (.ident "files".toList) "exists".toList)
    [selExpr "a".toList, .str "x".toList]⟩

/-- Element `p` with two checks and a child `q` with one: three checks in
total. -/
def progLimit : Program := ⟨[
  .mk "p".toList [] [checkSelf, checkSelf] [.mk "q".toList [] [checkSelf] []]]⟩

/-- Number of `check` declarations in an element tree. -/
def countChecks : Element → Nat
  | .mk _ _ checks children => checks.length + countChecksL children
where countChecksL : List Element → Nat
  | [] => 0
  | e :: es => countChecks e + countChecksL es

def countChecksP (p : Program) : Nat := countChecks.countChecksL p.elements

/-! ### Claim theorems on the interpreter -/

/-- C10: for every scope value of kind `File(p)` the files-library check
`exists(scope, filename)` ignores the filename entirely — any two filenames
give the same result — and passes exactly when `workspace/p` exists. -/
theorem C10_files_exists_ignores_filename (fs : FS) (ws p : Str)
    (paths : List Str) (rv : Bool) (fn1 fn2 : Str) :
    filesCheck fs "exists".toList [.scope ⟨.file p, paths, rv⟩, .string fn1] ws =
      filesCheck fs "exists".toList [.scope ⟨.file p, paths, rv⟩, .string fn2] ws ∧
    filesCheck fs "exists".toList [.scope ⟨.file p, paths, rv⟩, .string fn1] ws =
      .ok (if fs.pathExists (joinPath ws p) then .pass
        else .fail ("File \x27".toList ++ p ++ "\x27 does not exist".toList)) :=
  ⟨rfl, rfl⟩

/-- C5 counterexample: a check whose expression is a `FunctionCall` on a
bare identifier — so not of the form `lib.fn(args)` — records `E205`
(from `get_library_function`), not `E204` as the claim says. -/
theorem C5_bare_function_counterexample :
    runCheck (fun _ => none) [] id [] [] (.call (.ident "f".toList) []) =
      .error ⟨"E205".toList, "Expected library.function".toList⟩ := rfl

/-- C5 (amended): a check expression that is not `lib.fn(args…)` records
`E204` exactly when it is not a `FunctionCall` at all; a `FunctionCall`
whose function part is not `MemberAccess(Identifier, Identifier)` records
`E205` instead. -/
theorem C5_run_check_shape (reg : Registry) (ws : Str) (ord : IterOrd)
    (scopes : ScopeMap) (curPath : Str) (e : Expression)
    (h : ∀ lib fnm args, ¬ e = .call (.member (.ident lib) fnm) args) :
    runCheck reg ws ord scopes curPath e =
      .error (match e with
        | .call _ _ => ⟨"E205".toList, "Expected library.function".toList⟩
        | _ => ⟨"E204".toList, "Check must be a function call".toList⟩) := by
  match e with
  | .ident _ => rfl
  | .member _ _ => rfl
  | .str _ => rfl
  | .num _ => rfl
  | .bool _ => rfl
  | .list _ => rfl
  | .call fn args =>
    match fn with
    | .ident _ => rfl
    | .str _ => rfl
    | .num _ => rfl
    | .bool _ => rfl
    | .list _ => rfl
    | .call _ _ => rfl
    | .member obj m =>
      match obj with
      | .ident lib => exact absurd rfl (h lib m args)
      | .member _ _ => rfl
      | .call _ _ => rfl
      | .str _ => rfl
      | .num _ => rfl
      | .bool _ => rfl
      | .list _ => rfl

theorem C5_run_check_shape_witness :
    (∀ lib fnm args,
      ¬ (Expression.ident "f".toList) = .call (.member (.ident lib) fnm) args) ∧
    runCheck (fun _ => none) [] id [] [] (.ident "f".toList) =
      .error ⟨"E204".toList, "Check must be a function call".toList⟩ :=
  ⟨fun _ _ _ hc => Expression.noConfusion hc,
   C5_run_check_shape (fun _ => none) [] id [] [] (.ident "f".toList)
     (fun _ _ _ hc => Expression.noConfusion hc)⟩

theorem lookupScope_ne_none {m : ScopeMap} {k : Str} :
    ¬ lookupScope m k = none ↔ ∃ p ∈ m, p.1 = k := by
  constructor
  · intro h
    rcases hf : m.find? (fun p => p.1 == k) with _ | p
    · exact absurd (by unfold lookupScope; rw [hf]; rfl) h
    · have h1 := List.find?_some hf
      have hmem := List.mem_of_find?_eq_some hf
      exact ⟨p, hmem, by simpa using h1⟩
  · rintro ⟨p, hp, he⟩ h
    unfold lookupScope at h
    rcases hf : m.find? (fun q => q.1 == k) with _ | q
    · have := List.find?_eq_none.mp hf p hp
      simp [he] at this
    · rw [hf] at h
      simp at h

theorem insertScope_keys {m : ScopeMap} {k : Str} (k' : Str) (v : Value)
    (h : ∃ p ∈ m, p.1 = k) : ∃ p ∈ insertScope m k' v, p.1 = k := by
  obtain ⟨p, hp, he⟩ := h
  unfold insertScope
  split
  · by_cases hk : p.1 == k'
    · refine ⟨(k', v), List.mem_map.mpr ⟨p, hp, by simp [hk]⟩, ?_⟩
      have h2 : p.1 = k' := by simpa using hk
      rw [← h2, he]
    · exact ⟨p, List.mem_map.mpr ⟨p, hp, by simp [hk]⟩, he⟩
  · exact ⟨p, List.mem_append_left _ hp, he⟩

theorem runScopes_keys (reg : Registry) (ws : Str) (ord : IterOrd) (pathStr : Str) :
    ∀ (sds : List ScopeDecl) (st : InterpSt) (k : Str),
      (∃ p ∈ st.scopes, p.1 = k) →
      ∃ p ∈ (runScopes reg ws ord pathStr sds st).scopes, p.1 = k := by
  intro sds
  induction sds with
  | nil => intro st k h; exact h
  | cons sd rest ih =>
    intro st k h
    unfold runScopes
    split
    · exact ih _ k (insertScope_keys _ _ h)
    · exact ih _ k h

mutual
theorem runElement_keys (reg : Registry) (ws : Str) (ord : IterOrd)
    (opts : RunOptions) (e : Element) :
    ∀ (path : List Str) (st : InterpSt) (out : CheckOutput) (k : Str),
      (∃ p ∈ st.scopes, p.1 = k) →
      ∃ p ∈ ((runElement reg ws ord opts e path st out).1).scopes, p.1 = k := by
  match e with
  | .mk name scopes checks children =>
    intro path st out k h
    unfold runElement
    split
    · exact h
    · have h2 := runScopes_keys reg ws ord (joinDot (path ++ [name])) scopes
        { st with currentElementPath := joinDot (path ++ [name]) } k h
      exact runChildren_keys reg ws ord opts children _ _ _ k h2

theorem runChildren_keys (reg : Registry) (ws : Str) (ord : IterOrd)
    (opts : RunOptions) (es : List Element) :
    ∀ (path : List Str) (st : InterpSt) (out : CheckOutput) (k : Str),
      (∃ p ∈ st.scopes, p.1 = k) →
      ∃ p ∈ ((runElement.runChildren reg ws ord opts es path st out).1).scopes,
        p.1 = k := by
  match es with
  | [] => intro path st out k h; exact h
  | e :: rest =>
    intro path st out k h
    unfold runElement.runChildren
    split
    · rename_i st2 out2 heq
      have h1 := runElement_keys reg ws ord opts e path st out k h
      rw [heq] at h1
      exact runChildren_keys reg ws ord opts rest _ _ _ k h1
end

/-- C7 counterexample: one program stores the scope value `a.m`; a second
program's check reads the bare identifier `m`.  On a fresh interpreter the
second program's check errors with E200 (undefined identifier).  Running
the second program on the interpreter state left by the first, the check
passes: the second `run` observes the scope value stored by the first, so
the value outlived its `run` invocation. -/
theorem C7_cross_run_counterexample :
    (runWithOptions exReg exWs id exOpts progRead newInterp).2.errors = 1 ∧
    (runWithOptions exReg exWs id exOpts progRead
      (runWithOptions exReg exWs id exOpts progStore newInterp).1).2.passed = 1 :=
  ⟨rfl, rfl⟩

/-- C7 (amended): scope values persist across runs on the same interpreter.
`run_with_options` never clears `self.scopes`; every scope key present
before a run is still present after it, so a later `run` on the same
`Interpreter` observes values stored by an earlier one (see the
counterexample for a concrete observation). -/
theorem C7_scopes_persist (reg : Registry) (ws : Str) (ord : IterOrd)
    (opts : RunOptions) (p : Program) (st : InterpSt) (k : Str)
    (h : ∃ q ∈ st.scopes, q.1 = k) :
    ∃ q ∈ ((runWithOptions reg ws ord opts p st).1).scopes, q.1 = k :=
  runChildren_keys reg ws ord opts p.elements [] st ⟨0, 0, 0, 0, [], 0⟩ k h

theorem C7_scopes_persist_witness :
    (∃ q ∈ [("a.m".toList, Value.null)], q.1 = "a.m".toList) ∧
    ∃ q ∈ ((runWithOptions exReg exWs id exOpts progRead
      ⟨[("a.m".toList, Value.null)], [], []⟩).1).scopes, q.1 = "a.m".toList :=
  ⟨⟨("a.m".toList, Value.null), by simp⟩,
   C7_scopes_persist exReg exWs id exOpts progRead
     ⟨[("a.m".toList, Value.null)], [], []⟩ "a.m".toList
     ⟨("a.m".toList, Value.null), by simp⟩⟩

theorem runChecks_limit (reg : Registry) (ws : Str) (ord : IterOrd)
    (opts : RunOptions) (pathStr : Str) (mf : Bool) (st : InterpSt) (n : Nat)
    (hn : opts.limit = some n) :
    ∀ (cds : List CheckDecl) (out : CheckOutput),
      out.results.length ≤ n →
      (runChecks reg ws ord opts pathStr mf st cds out).results.length ≤ n := by
  intro cds
  induction cds with
  | nil => intro out h; exact h
  | cons cd rest ih =>
    intro out h
    unfold runChecks
    split
    · exact ih _ h
    · split
      · exact ih _ h
      · rename_i hlim hmf
        have hlt : out.results.length < n := by
          unfold limitHit at hlim
          rw [hn] at hlim
          simpa using hlim
        split
        · split <;> exact ih _ (by simp; omega)
        · exact ih _ (by simp; omega)

theorem runChecks_filter (reg : Registry) (ws : Str) (ord : IterOrd)
    (opts : RunOptions) (pathStr : Str) (st : InterpSt) (f : Str)
    (hf : opts.filter = some f) :
    ∀ (cds : List CheckDecl) (out : CheckOutput),
      (∀ r ∈ out.results, strContains r.element_path f = true) →
      ∀ r ∈ (runChecks reg ws ord opts pathStr
          (matchesFilter opts pathStr) st cds out).results,
        strContains r.element_path f = true := by
  intro cds
  induction cds with
  | nil => intro out h; exact h
  | cons cd rest ih =>
    intro out h
    unfold runChecks
    split
    · exact ih _ h
    · split
      · exact ih _ h
      · rename_i hlim hmf
        have hmt : strContains pathStr f = true := by
          unfold matchesFilter at hmf
          rw [hf] at hmf
          simpa using hmf
        have hstep : ∀ (ce : Str) (res : CheckResult),
            ∀ r ∈ out.results ++ [⟨pathStr, ce, res⟩],
              strContains r.element_path f = true := by
          intro ce res r hr
          rcases List.mem_append.mp hr with h1 | h1
          · exact h r h1
          · have h2 := List.mem_singleton.mp h1
            subst h2
            exact hmt
        split
        · split <;> exact ih _ (hstep _ _)
        · exact ih _ (hstep _ _)

theorem runChecks_account (reg : Registry) (ws : Str) (ord : IterOrd)
    (opts : RunOptions) (pathStr : Str) (mf : Bool) (st : InterpSt)
    (hn : opts.limit = none) :
    ∀ (cds : List CheckDecl) (out : CheckOutput),
      (runChecks reg ws ord opts pathStr mf st cds out).skipped +
        (runChecks reg ws ord opts pathStr mf st cds out).results.length =
      out.skipped + out.results.length + cds.length := by
  intro cds
  induction cds with
  | nil => intro out; simp [runChecks]
  | cons cd rest ih =>
    intro out
    unfold runChecks
    split
    · rename_i hlim
      unfold limitHit at hlim
      rw [hn] at hlim
      simp at hlim
    · split
      · rw [ih]
        simp
        omega
      · split
        · split <;> (rw [ih]; simp; omega)
        · rw [ih]
          simp
          omega

mutual
theorem runElement_limit (reg : Registry) (ws : Str) (ord : IterOrd)
    (opts : RunOptions) (n : Nat) (hn : opts.limit = some n) (e : Element) :
    ∀ (path : List Str) (st : InterpSt) (out : CheckOutput),
      out.results.length ≤ n →
      ((runElement reg ws ord opts e path st out).2).results.length ≤ n := by
  match e with
  | .mk name scopes checks children =>
    intro path st out h
    unfold runElement
    split
    · exact h
    · exact runChildren_limit reg ws ord opts n hn children _ _ _
        (runChecks_limit reg ws ord opts _ _ _ n hn checks out h)

theorem runChildren_limit (reg : Registry) (ws : Str) (ord : IterOrd)
    (opts : RunOptions) (n : Nat) (hn : opts.limit = some n) (es : List Element) :
    ∀ (path : List Str) (st : InterpSt) (out : CheckOutput),
      out.results.length ≤ n →
      ((runElement.runChildren reg ws ord opts es path st out).2).results.length
        ≤ n := by
  match es with
  | [] => intro path st out h; exact h
  | e :: rest =>
    intro path st out h
    unfold runElement.runChildren
    split
    · rename_i st2 out2 heq
      have h1 := runElement_limit reg ws ord opts n hn e path st out h
      rw [heq] at h1
      exact runChildren_limit reg ws ord opts n hn rest _ _ _ h1
end

mutual
theorem runElement_filter (reg : Registry) (ws : Str) (ord : IterOrd)
    (opts : RunOptions) (f : Str) (hf : opts.filter = some f) (e : Element) :
    ∀ (path : List Str) (st : InterpSt) (out : CheckOutput),
      (∀ r ∈ out.results, strContains r.element_path f = true) →
      ∀ r ∈ ((runElement reg ws ord opts e path st out).2).results,
        strContains r.element_path f = true := by
  match e with
  | .mk name scopes checks children =>
    intro path st out h
    unfold runElement
    split
    · exact h
    · exact runChildren_filter reg ws ord opts f hf children _ _ _
        (runChecks_filter reg ws ord opts _ _ f hf checks out h)

theorem runChildren_filter (reg : Registry) (ws : Str) (ord : IterOrd)
    (opts : RunOptions) (f : Str) (hf : opts.filter = some f) (es : List Element) :
    ∀ (path : List Str) (st : InterpSt) (out : CheckOutput),
      (∀ r ∈ out.results, strContains r.element_path f = true) →
      ∀ r ∈ ((runElement.runChildren reg ws ord opts es path st out).2).results,
        strContains r.element_path f = true := by
  match es with
  | [] => intro path st out h; exact h
  | e :: rest =>
    intro path st out h
    unfold runElement.runChildren
    split
    · rename_i st2 out2 heq
      have h1 := runElement_filter reg ws ord opts f hf e path st out h
      rw [heq] at h1
      exact runChildren_filter reg ws ord opts f hf rest _ _ _ h1
end

mutual
theorem runElement_account (reg : Registry) (ws : Str) (ord : IterOrd)
    (opts : RunOptions) (hn : opts.limit = none) (e : Element) :
    ∀ (path : List Str) (st : InterpSt) (out : CheckOutput),
      ((runElement reg ws ord opts e path st out).2).skipped +
        ((runElement reg ws ord opts e path st out).2).results.length =
      out.skipped + out.results.length + countChecks e := by
  match e with
  | .mk name scopes checks children =>
    intro path st out
    unfold runElement
    split
    · rename_i hlim
      unfold limitHit at hlim
      rw [hn] at hlim
      simp at hlim
    · rw [runChildren_account reg ws ord opts hn children]
      rw [runChecks_account reg ws ord opts _ _ _ hn checks out]
      unfold countChecks
      omega

theorem runChildren_account (reg : Registry) (ws : Str) (ord : IterOrd)
    (opts : RunOptions) (hn : opts.limit = none) (es : List Element) :
    ∀ (path : List Str) (st : InterpSt) (out : CheckOutput),
      ((runElement.runChildren reg ws ord opts es path st out).2).skipped +
        ((runElement.runChildren reg ws ord opts es path st out).2).results.length
      = out.skipped + out.results.length + countChecks.countChecksL es := by
  match es with
  | [] =>
    intro path st out
    unfold runElement.runChildren countChecks.countChecksL
    simp
  | e :: rest =>
    intro path st out
    unfold runElement.runChildren
    split
    · rename_i st2 out2 heq
      rw [runChildren_account reg ws ord opts hn rest]
      have h1 := runElement_account reg ws ord opts hn e path st out
      rw [heq] at h1
      have h2 : out2.skipped + out2.results.length =
          out.skipped + out.results.length + countChecks e := h1
      have h3 : countChecks.countChecksL (e :: rest) =
          countChecks e + countChecks.countChecksL rest := rfl
      rw [h3]
      omega
end

/-- C6 counterexample: `progLimit` has three checks; with limit 1 exactly
one executes and `skipped` ends at 1: the second check of element `p` hits
the per-check limit guard, but the check of child `q` is lost to the
element-level early-return, which does not touch `skipped` — two checks
went unexecuted because of the limit, yet only one was counted. -/
theorem C6_skipped_counterexample :
    countChecksP progLimit = 3 ∧
    (runWithOptions exReg exWs id ⟨none, some 1, false⟩ progLimit
      newInterp).2.total = 1 ∧
    (runWithOptions exReg exWs id ⟨none, some 1, false⟩ progLimit
      newInterp).2.skipped = 1 :=
  ⟨rfl, rfl, rfl⟩

/-- C6 (amended): with `limit = n` the result list never exceeds `n`
entries; with `filter = f` every result's element path contains `f`; and
`skipped` counts exactly the checks skipped by the per-check guards — with
no limit set every check is either executed (one result) or counted
skipped, but checks inside an element subtree pruned by the element-level
limit early-return are not counted (see the counterexample). -/
theorem C6_filter_limit_laws (reg : Registry) (ws : Str) (ord : IterOrd)
    (opts : RunOptions) (p : Program) (st : InterpSt) :
    (∀ n, opts.limit = some n →
      ((runWithOptions reg ws ord opts p st).2).results.length ≤ n) ∧
    (∀ f, opts.filter = some f →
      ∀ r ∈ ((runWithOptions reg ws ord opts p st).2).results,
        strContains r.element_path f = true) ∧
    (opts.limit = none →
      ((runWithOptions reg ws ord opts p st).2).skipped +
        ((runWithOptions reg ws ord opts p st).2).results.length =
      countChecksP p) := by
  refine ⟨?_, ?_, ?_⟩
  · intro n hn
    exact runChildren_limit reg ws ord opts n hn p.elements [] st
      ⟨0, 0, 0, 0, [], 0⟩ (by simp)
  · intro f hf r hr
    exact runChildren_filter reg ws ord opts f hf p.elements [] st
      ⟨0, 0, 0, 0, [], 0⟩ (by simp) r hr
  · intro hn
    have h := runChildren_account reg ws ord opts hn p.elements [] st
      ⟨0, 0, 0, 0, [], 0⟩
    unfold countChecksP
    simpa using h

theorem C6_filter_limit_laws_witness :
    ((runWithOptions exReg exWs id ⟨some "q".toList, some 1, false⟩ progLimit
      newInterp).2).results.length ≤ 1 ∧
    (∀ r ∈ ((runWithOptions exReg exWs id ⟨some "q".toList, some 1, false⟩
        progLimit newInterp).2).results,
      strContains r.element_path "q".toList = true) ∧
    ((runWithOptions exReg exWs id ⟨none, none, false⟩ progLimit
        newInterp).2).skipped +
      ((runWithOptions exReg exWs id ⟨none, none, false⟩ progLimit
        newInterp).2).results.length = countChecksP progLimit :=
  ⟨(C6_filter_limit_laws exReg exWs id ⟨some "q".toList, some 1, false⟩
      progLimit newInterp).1 1 rfl,
   fun r hr => (C6_filter_limit_laws exReg exWs id
      ⟨some "q".toList, some 1, false⟩ progLimit newInterp).2.1
      "q".toList rfl r hr,
   (C6_filter_limit_laws exReg exWs id ⟨none, none, false⟩ progLimit
      newInterp).2.2 rfl⟩

/-- C1 counterexample: `List.reverse` permutes the scope map — a
legitimate `HashMap` iteration order — yet the two runs of the same
program from the same fresh interpreter state produce different outputs:
the bare identifier `m` in element `c`'s check is resolved by scanning all
stored scopes for the suffix `.m`, both `a.m` and `b.m` match, and the
first match (hence the check's verdict) depends on the iteration order,
which Rust's `HashMap` randomizes per process. -/
theorem C1_iteration_order_counterexample :
    (∀ m : ScopeMap, (List.reverse m).Perm m) ∧
    ¬ (runWithOptions exReg exWs id exOpts progOrd newInterp).2 =
      (runWithOptions exReg exWs List.reverse exOpts progOrd newInterp).2 :=
  ⟨fun m => List.reverse_perm m, by decide⟩


/-- Expressions whose evaluation never consults the scope map's iteration
order: no bare identifier and no member access in evaluated position (a
`FunctionCall`'s function part is dispatched syntactically by
`get_library_function` and never evaluated, so only its arguments
matter). -/
def ordFree : Expression → Bool
  | .ident _ => false
  | .member _ _ => false
  | .call _ args => ordFreeL args
  | .str _ => true
  | .num _ => true
  | .bool _ => true
  | .list es => ordFreeL es
where ordFreeL : List Expression → Bool
  | [] => true
  | e :: es => ordFree e && ordFreeL es

/-- All scope and check expressions of an element tree are `ordFree`. -/
def elemOrdFree : Element → Bool
  | .mk _ scopes checks children =>
    scopes.all (fun sd => ordFree sd.expression) &&
    checks.all (fun cd => ordFree cd.expression) &&
    elemOrdFreeL children
where elemOrdFreeL : List Element → Bool
  | [] => true
  | e :: es => elemOrdFree e && elemOrdFreeL es

def progOrdFree (p : Program) : Bool := elemOrdFree.elemOrdFreeL p.elements

section
variable (reg : Registry) (ws : Str) (ord1 ord2 : IterOrd)

mutual
theorem evalExpr_ord (scopes : ScopeMap) (curPath : Str) :
    ∀ e : Expression, ordFree e = true →
      evalExpr reg ws ord1 scopes curPath e = evalExpr reg ws ord2 scopes curPath e := by
  intro e he
  match e with
  | .str s => rfl
  | .num n => rfl
  | .bool b => rfl
  | .ident n => exact absurd he (by simp [ordFree])
  | .member o m => exact absurd he (by simp [ordFree])
  | .list es =>
    have h2 : ordFree.ordFreeL es = true := he
    unfold evalExpr
    rw [evalArgs_ord scopes curPath es h2]
  | .call fn args =>
    have h2 : ordFree.ordFreeL args = true := he
    unfold evalExpr
    rw [evalArgs_ord scopes curPath args h2]

theorem evalArgs_ord (scopes : ScopeMap) (curPath : Str) :
    ∀ es : List Expression, ordFree.ordFreeL es = true →
      evalExpr.evalArgs reg ws ord1 scopes curPath es =
        evalExpr.evalArgs reg ws ord2 scopes curPath es := by
  intro es he
  match es with
  | [] => rfl
  | e :: rest =>
    have h12 := (Bool.and_eq_true _ _).mp he
    unfold evalExpr.evalArgs
    rw [evalExpr_ord scopes curPath e h12.1, evalArgs_ord scopes curPath rest h12.2]
end

theorem runCheck_ord (scopes : ScopeMap) (curPath : Str) :
    ∀ e : Expression, ordFree e = true →
      runCheck reg ws ord1 scopes curPath e = runCheck reg ws ord2 scopes curPath e := by
  intro e he
  match e with
  | .str s => rfl
  | .num n => rfl
  | .bool b => rfl
  | .ident n => rfl
  | .member o m => rfl
  | .list es => rfl
  | .call fn args =>
    have h2 : ordFree.ordFreeL args = true := he
    unfold runCheck
    dsimp only
    rw [evalArgs_ord reg ws ord1 ord2 scopes curPath args h2]

theorem runScopes_ord (pathStr : Str) :
    ∀ (sds : List ScopeDecl) (st : InterpSt),
      sds.all (fun sd => ordFree sd.expression) = true →
      runScopes reg ws ord1 pathStr sds st = runScopes reg ws ord2 pathStr sds st := by
  intro sds
  induction sds with
  | nil => intro st h; rfl
  | cons sd rest ih =>
    intro st h
    rw [List.all_cons] at h
    have h12 := (Bool.and_eq_true _ _).mp h
    unfold runScopes
    rw [evalExpr_ord reg ws ord1 ord2 st.scopes st.currentElementPath
      sd.expression h12.1]
    cases hev : evalExpr reg ws ord2 st.scopes st.currentElementPath sd.expression with
    | ok v => exact ih _ h12.2
    | error d => exact ih _ h12.2

theorem runChecks_ord (opts : RunOptions) (pathStr : Str) (mf : Bool) (st : InterpSt) :
    ∀ (cds : List CheckDecl) (out : CheckOutput),
      cds.all (fun cd => ordFree cd.expression) = true →
      runChecks reg ws ord1 opts pathStr mf st cds out =
        runChecks reg ws ord2 opts pathStr mf st cds out := by
  intro cds
  induction cds with
  | nil => intro out h; rfl
  | cons cd rest ih =>
    intro out h
    rw [List.all_cons] at h
    have h12 := (Bool.and_eq_true _ _).mp h
    unfold runChecks
    split
    · exact ih _ h12.2
    · split
      · exact ih _ h12.2
      · rw [runCheck_ord reg ws ord1 ord2 st.scopes st.currentElementPath
          cd.expression h12.1]
        cases hev : runCheck reg ws ord2 st.scopes st.currentElementPath
            cd.expression with
        | ok r => exact ih _ h12.2
        | error d => exact ih _ h12.2

mutual
theorem runElement_ord (opts : RunOptions) (e : Element) :
    elemOrdFree e = true →
    ∀ (path : List Str) (st : InterpSt) (out : CheckOutput),
      runElement reg ws ord1 opts e path st out =
        runElement reg ws ord2 opts e path st out := by
  match e with
  | .mk name scopes checks children =>
    intro he path st out
    have h1 := (Bool.and_eq_true _ _).mp he
    have h2 := (Bool.and_eq_true _ _).mp h1.1
    unfold runElement
    split
    · rfl
    · rw [runScopes_ord reg ws ord1 ord2 (joinDot (path ++ [name])) scopes
        { st with currentElementPath := joinDot (path ++ [name]) } h2.1]
      rw [runChecks_ord reg ws ord1 ord2 opts (joinDot (path ++ [name]))
        (matchesFilter opts (joinDot (path ++ [name])))
        (runScopes reg ws ord2 (joinDot (path ++ [name])) scopes
          { st with currentElementPath := joinDot (path ++ [name]) })
        checks out h2.2]
      exact runChildren_ord opts children h1.2 (path ++ [name]) _ _

theorem runChildren_ord (opts : RunOptions) (es : List Element) :
    elemOrdFree.elemOrdFreeL es = true →
    ∀ (path : List Str) (st : InterpSt) (out : CheckOutput),
      runElement.runChildren reg ws ord1 opts es path st out =
        runElement.runChildren reg ws ord2 opts es path st out := by
  match es with
  | [] => intro he path st out; rfl
  | e :: rest =>
    intro he path st out
    have h12 := (Bool.and_eq_true _ _).mp he
    unfold runElement.runChildren
    rw [runElement_ord opts e h12.1 path st out]
    cases hev : runElement reg ws ord2 opts e path st out with
    | mk st2 out2 => exact runChildren_ord opts rest h12.2 path st2 out2
end
end

/-- C1 (amended): the interpreter's run is a deterministic function of the
program, options, workspace, file system, prior interpreter state and the
scope map's iteration order; and whenever no expression of the program is
resolved through the stored-scope scans (no bare identifier and no member
access in evaluated position — `progOrdFree`), the output does not depend
on the iteration order at all, so two runs on identical input and
workspace produce identical results and hence byte-identical JSON.  The
iteration-order hypothesis cannot be dropped: the suffix-match rule for
bare identifiers makes the first matching scope, and with it the run's
output, depend on the `HashMap` iteration order, which Rust randomizes per
process (see the counterexample). -/
theorem C1_run_deterministic (reg : Registry) (ws : Str) (opts : RunOptions)
    (p : Program) (st : InterpSt) (ord1 ord2 : IterOrd)
    (h : progOrdFree p = true) :
    runWithOptions reg ws ord1 opts p st = runWithOptions reg ws ord2 opts p st :=
  runChildren_ord reg ws ord1 ord2 opts p.elements h [] st ⟨0, 0, 0, 0, [], 0⟩

theorem C1_run_deterministic_witness :
    progOrdFree progLimit = true ∧
    runWithOptions exReg exWs id exOpts progLimit newInterp =
      runWithOptions exReg exWs List.reverse exOpts progLimit newInterp :=
  ⟨rfl, C1_run_deterministic exReg exWs exOpts progLimit newInterp id
    List.reverse rfl⟩

end Interp

/-! ## Parser (`src/parser.rs`)

The parser of the snapshot, over the token streams of the embedded lexer.
Modelling notes.
* The snapshot's `parser.rs` references lexer token kinds (`Ref`, `Uses`,
  `Binds`, `Requires`, `Allows`, `Forbids`, `Descendant`, `Connection`,
  `Language`, `ConnectionCheck`, `LBrace`, `RBrace`, `LAngle`, `RAngle`)
  that `lexer.rs` does not define, and AST types (`RefDeclaration`,
  `UsesDeclaration`, `ComponentSpec::Ref`) that `ast.rs` does not define:
  the crate cannot compile as given.  The embedding keeps the parser's own
  view: those token kinds exist (the `Lex.TokenKind` spec-modelled
  variants) but the embedded lexer never produces them, and the AST below
  is the one the parser constructs.
* Spans are omitted; parser diagnostics are reduced to their error codes
  (their messages only interpolate `Debug`-formatted token kinds and change
  no control flow).
* Number literals carry the token text (`text.parse::<f64>().unwrap_or(0.0)`
  is a pure non-panicking function of it that no claim consumes).
* The potentially panicking operations are modelled explicitly:
  `Parser::current`'s `&self.tokens[self.tokens.len() - 1]` and
  `Parser::advance`'s `self.tokens[self.pos - 1]` produce the `panic`
  outcome on an empty token vector resp. an index underflow, and
  `unescape_string`'s `&text[1..text.len() - 1]` produces it on a lexeme
  shorter than two characters.  Loops and recursion take fuel; running out
  gives the distinguished `fuel` outcome (never a silent default). -/

namespace Par

open Lex (Token TokenKind)

/-- The AST as `parser.rs` constructs it (spans omitted).  Identifiers are
their names. -/
inductive PExpr where
  | ident (name : Str)
  | member (object : PExpr) (memberName : Str)
  | call (function : PExpr) (arguments : List PExpr)
  | str (value : Str)
  | num (text : Str)
  | bool (value : Bool)
  | list (elements : List PExpr)
  deriving Repr

inductive ImportPath where
  | ids (parts : List Str)
  | strPath (value : Str)
  deriving Repr

structure ImportStmt where
  path : ImportPath
  aliasName : Option Str
  selective : List Str
  deriving Repr

structure TypeAnn where
  typeName : Str
  deriving Repr

structure ScopeDecl where
  name : Str
  language : Option Str
  binds : Option (List Str)
  expression : Option PExpr
  deriving Repr

structure RefDecl where
  name : Str
  typeAnnotation : TypeAnn
  binds : Option (List Str)
  expression : Option PExpr
  deriving Repr

structure UsesDecl where
  source : Str
  target : List Str
  deriving Repr

structure CheckDecl where
  expression : PExpr
  deriving Repr

structure TemplateBinding where
  path : List Str
  expression : PExpr
  deriving Repr

structure ConnPattern where
  path : List Str
  wildcard : Bool
  deriving Repr

inductive ReqAction where
  | requiresA | allowsA | forbidsA
  deriving Repr, DecidableEq

structure ConnCheckParam where
  name : Str
  deriving Repr

mutual
inductive PElement where
  | mk (docComment : Option Str) (name : Str) (implements : List Str)
      (scopes : List ScopeDecl) (refs : List RefDecl) (uses : List UsesDecl)
      (checks : List CheckDecl) (templateBindings : List TemplateBinding)
      (componentRequirements : List ComponentReq) (children : List PElement)

inductive ComponentReq where
  | mk (action : ReqAction) (isDescendant : Bool) (component : ComponentSpec)

inductive ComponentSpec where
  | scopeC (sd : ScopeDecl)
  | checkC (cd : CheckDecl)
  | elementC (name : Str) ( typeAnnotation : Option TypeAnn)
      (implementsT : Option Str) (body : Option PElement)
  | connectionC (pattern : ConnPattern)
  | refC (name : Str) ( typeAnnotation : TypeAnn) (expression : Option PExpr)
  | languageC (name : Str)
end

structure Template where
  docComment : Option Str
  name : Str
  scopes : List ScopeDecl
  refs : List RefDecl
  checks : List CheckDecl
  componentRequirements : List ComponentReq
  elements : List PElement

structure ConnCheckDecl where
  name : Str
  parameters : List ConnCheckParam
  body : PExpr

structure LanguageDecl where
  name : Str
  connectionChecks : List ConnCheckDecl

structure Program where
  imports : List ImportStmt
  languages : List LanguageDecl
  templates : List Template
  elements : List PElement

/-- Parser state: position and accumulated diagnostics (as codes). -/
structure PSt where
  pos : Nat
  diagnostics : List Str
  deriving DecidableEq, Repr

/-- Outcome of a parser step: success, `Err(diagnostic)` (the state is kept
— the caller continues from it), a panic of the underlying Rust, or fuel
exhaustion (modelling artifact). -/
inductive PRes (α : Type) where
  | ok (a : α) (s : PSt)
  | err (code : Str) (s : PSt)
  | panic
  | fuel

abbrev Tokens := List Token

/-- The parser monad: token vector as environment, `PSt` as state. -/
def PM (α : Type) : Type := Tokens → PSt → PRes α

instance : Monad PM where
  pure a := fun _ s => .ok a s
  bind m f := fun tk s =>
    match m tk s with
    | .ok a s1 => f a tk s1
    | .err c s1 => .err c s1
    | .panic => .panic
    | .fuel => .fuel

def throwE (code : Str) : PM α := fun _ s => .err code s

def panicP : PM α := fun _ _ => .panic

def fuelOut : PM α := fun _ _ => .fuel

def getPos : PM Nat := fun _ s => .ok s.pos s

def setPos (p : Nat) : PM Unit := fun _ s => .ok () { s with pos := p }

def pushDiag (code : Str) : PM Unit :=
  fun _ s => .ok () { s with diagnostics := s.diagnostics ++ [code] }

/-- Catch an `Err` (as `parse` does), yielding the diagnostic code. -/
def tryP (m : PM α) : PM (Except Str α) := fun tk s =>
  match m tk s with
  | .ok a s1 => .ok (.ok a) s1
  | .err c s1 => .ok (.error c) s1
  | .panic => .panic
  | .fuel => .fuel

/-- `Parser::current`: `tokens.get(pos).unwrap_or(&tokens[tokens.len()-1])`
— panics on an empty token vector. -/
def current : PM Token := fun tk s =>
  match tk.get? s.pos with
  | some t => .ok t s
  | none =>
    match tk.get? (tk.length - 1) with
    | some t => .ok t s
    | none => .panic

/-- `Parser::check`. -/
def check (kind : TokenKind) : PM Bool := do
  let t ← current
  pure (t.kind == kind)

/-- `Parser::is_at_end`. -/
def isAtEnd : PM Bool := do
  let t ← current
  pure (t.kind == .Eof)

/-- `Parser::advance`: `if !is_at_end { pos += 1 }; tokens[pos-1].clone()`
— the index underflows (panics) when `pos` is still 0. -/
def advance : PM Token := fun tk s =>
  match current tk s with
  | .ok t _ =>
    match (if t.kind == .Eof then s.pos else s.pos + 1) with
    | 0 => .panic
    | p + 1 =>
      match tk.get? p with
      | some u => .ok u { s with pos := p + 1 }
      | none => .panic
  | .err c s1 => .err c s1
  | .panic => .panic
  | .fuel => .fuel

/-- `Parser::expect` (diagnostic `E007`). -/
def expect (kind : TokenKind) : PM Token := do
  if (← check kind) then advance else throwE "E007".toList

/-- `Parser::expect_newline` (diagnostic `E008`). -/
def expectNewline : PM Unit := do
  if (← check .Newline) || (← check .Eof) || (← check .Dedent) then
    if (← check .Newline) then
      _ ← advance
      pure ()
    else pure ()
  else throwE "E008".toList

/-- `Parser::skip_newlines`. -/
def skipNewlines : Nat → PM Unit
  | 0 => fuelOut
  | n + 1 => do
    if (← check .Newline) then
      _ ← advance
      skipNewlines n
    else pure ()

/-- `Parser::skip_newlines_and_indents`. -/
def skipNewlinesAndIndents : Nat → PM Unit
  | 0 => fuelOut
  | n + 1 => do
    if (← check .Newline) || (← check .Indent) || (← check .Dedent) then
      _ ← advance
      skipNewlinesAndIndents n
    else pure ()

/-- `Parser::skip_newlines_and_comments`. -/
def skipNewlinesAndComments : Nat → PM Unit
  | 0 => fuelOut
  | n + 1 => do
    if (← check .Newline) || (← check .DocComment) then
      _ ← advance
      skipNewlinesAndComments n
    else pure ()

/-- `Parser::recover_to_newline`. -/
def recoverToNewline : Nat → PM Unit
  | 0 => fuelOut
  | n + 1 => do
    if !(← isAtEnd) && !(← check .Newline) then
      _ ← advance
      recoverToNewline n
    else
      if (← check .Newline) then
        _ ← advance
        pure ()
      else pure ()

/-- `Parser::recover_to_element`. -/
def recoverToElement : Nat → PM Unit
  | 0 => fuelOut
  | n + 1 => do
    if (← isAtEnd) then pure ()
    else if (← check .Element) then pure ()
    else do
      _ ← advance
      recoverToElement n

/-- `Parser::parse_identifier` (diagnostic `E004`): an `Identifier` token or
one of the keywords the parser demotes to identifiers. -/
def parseIdentifier : PM Str := do
  if (← check .Identifier) then
    let t ← advance
    pure t.text
  else
    let t ← current
    match t.kind with
    | .Scope | .Element | .Check | .ConnectionPoint | .Ref | .Uses
    | .Template | .Implements | .Binds | .To | .Requires | .Allows
    | .Forbids | .Descendant | .Connection | .Language | .ConnectionCheck => do
      let t2 ← advance
      pure t2.text
    | _ => throwE "E004".toList

/-- The character-level loop of `Parser::unescape_string`. -/
def unescapeGo : Str → Str
  | [] => []
  | c :: rest =>
    if c = bslash then
      match rest with
      | [] => [bslash]
      | e :: rest2 =>
        (if e = Char.ofNat 110 then [nlChar]
         else if e = Char.ofNat 116 then [tabChar]
         else if e = Char.ofNat 114 then [crChar]
         else if e = bslash then [bslash]
         else if e = squote then [squote]
         else if e = dquote then [dquote]
         else [bslash, e]) ++ unescapeGo rest2
    else c :: unescapeGo rest

/-- `Parser::parse_string_literal` (diagnostic `E005`); the
`&text[1..text.len() - 1]` slice panics when the lexeme is shorter than
two characters. -/
def parseStringLiteral : PM Str := do
  if (← check .StringSingle) || (← check .StringDouble) then
    let t ← advance
    if t.text.length < 2 then panicP
    else pure (unescapeGo ((t.text.drop 1).take (t.text.length - 2)))
  else throwE "E005".toList

/-- `Parser::parse_number_literal` (diagnostic `E006`); the value is the
token text (`parse().unwrap_or(0.0)` cannot panic). -/
def parseNumberLiteral : PM Str := do
  if (← check .Number) then
    let t ← advance
    pure t.text
  else throwE "E006".toList

/-- `str::trim` at the ASCII whitespace the lexemes can contain. -/
def isTrimWs (c : Char) : Bool :=
  c = ' ' || c = tabChar || c = nlChar || c = crChar

def trimWs (s : Str) : Str :=
  ((s.dropWhile isTrimWs).reverse.dropWhile isTrimWs).reverse

/-- The collection loop of `Parser::parse_doc_comment`. -/
def docGo : Nat → List Str → PM (Option Str)
  | 0, _ => fuelOut
  | n + 1, acc => do
    if (← check .DocComment) then
      let t ← advance
      _ ← skipNewlines n
      docGo n (acc ++ [trimWs (t.text.dropWhile (fun c => c = hashChar))])
    else
      if acc.isEmpty then pure none
      else pure (some (Interp.joinSep [nlChar] acc))

/-- `Parser::parse_doc_comment`. -/
def parseDocComment (n : Nat) : PM (Option Str) := docGo n []

/-- The dotted-identifier loop of `parse_import_path` and
`parse_qualified_path`. -/
def dotsGo : Nat → List Str → PM (List Str)
  | 0, _ => fuelOut
  | n + 1, acc => do
    if (← check .Dot) then
      _ ← advance
      let id ← parseIdentifier
      dotsGo n (acc ++ [id])
    else pure acc

/-- `Parser::parse_qualified_path`. -/
def parseQualifiedPath (n : Nat) : PM (List Str) := do
  let id ← parseIdentifier
  dotsGo n [id]

/-- `Parser::parse_import_path`. -/
def parseImportPath (n : Nat) : PM ImportPath := do
  if (← check .StringSingle) || (← check .StringDouble) then
    let s ← parseStringLiteral
    pure (.strPath s)
  else do
    let parts ← parseQualifiedPath n
    pure (.ids parts)

/-- The selective-import comma loop of `parse_import`. -/
def selectiveGo : Nat → List Str → PM (List Str)
  | 0, _ => fuelOut
  | n + 1, acc => do
    if (← check .Comma) then
      _ ← advance
      let id ← parseIdentifier
      selectiveGo n (acc ++ [id])
    else pure acc

/-- `Parser::parse_import`. -/
def parseImport : Nat → PM ImportStmt
  | 0 => fuelOut
  | n + 1 => do
    if (← check .From) then
      _ ← advance
      let path ← parseImportPath n
      _ ← expect .Import
      let id ← parseIdentifier
      let selective ← selectiveGo n [id]
      expectNewline
      pure ⟨path, none, selective⟩
    else do
      _ ← expect .Import
      let path ← parseImportPath n
      let aliasName ← (do
        if (← check .As) then
          _ ← advance
          let id ← parseIdentifier
          pure (some id)
        else pure none)
      expectNewline
      pure ⟨path, aliasName, []⟩

mutual
/-- `Parser::parse_expression`. -/
def parseExpression : Nat → PM PExpr
  | 0 => fuelOut
  | n + 1 => parsePostfix n

/-- `Parser::parse_postfix`. -/
def parsePostfix : Nat → PM PExpr
  | 0 => fuelOut
  | n + 1 => do
    let e ← parsePrimary n
    postfixGo n e

/-- The member-access / call loop of `parse_postfix`. -/
def postfixGo : Nat → PExpr → PM PExpr
  | 0, _ => fuelOut
  | n + 1, e => do
    if (← check .Dot) then
      _ ← advance
      let m ← parseIdentifier
      postfixGo n (.member e m)
    else if (← check .LParen) then do
      _ ← advance
      let args ← (do
        if (← check .RParen) then pure []
        else do
          let a ← parseExpression n
          argsGo n [a])
      _ ← expect .RParen
      postfixGo n (.call e args)
    else pure e

/-- The comma loop of the call-argument list (no trailing comma). -/
def argsGo : Nat → List PExpr → PM (List PExpr)
  | 0, _ => fuelOut
  | n + 1, acc => do
    if (← check .Comma) then
      _ ← advance
      let a ← parseExpression n
      argsGo n (acc ++ [a])
    else pure acc

/-- `Parser::parse_primary` (diagnostic `E003`). -/
def parsePrimary : Nat → PM PExpr
  | 0 => fuelOut
  | n + 1 => do
    if (← check .Identifier) then
      let id ← parseIdentifier
      pure (.ident id)
    else if (← check .StringSingle) || (← check .StringDouble) then
      let s ← parseStringLiteral
      pure (.str s)
    else if (← check .Number) then
      let t ← parseNumberLiteral
      pure (.num t)
    else if (← check .True) then
      _ ← advance
      pure (.bool true)
    else if (← check .False) then
      _ ← advance
      pure (.bool false)
    else if (← check .LBracket) then
      parseList n
    else throwE "E003".toList

/-- `Parser::parse_list`. -/
def parseList : Nat → PM PExpr
  | 0 => fuelOut
  | n + 1 => do
    _ ← expect .LBracket
    let elems ← (do
      if (← check .RBracket) then pure []
      else do
        let a ← parseExpression n
        listGo n [a])
    _ ← expect .RBracket
    pure (.list elems)

/-- The comma loop of a list literal (trailing comma allowed). -/
def listGo : Nat → List PExpr → PM (List PExpr)
  | 0, _ => fuelOut
  | n + 1, acc => do
    if (← check .Comma) then do
      _ ← advance
      if (← check .RBracket) then pure acc
      else do
        let a ← parseExpression n
        listGo n (acc ++ [a])
    else pure acc
end

/-- `Parser::parse_type_annotation`. -/
def parseTypeAnnotation : PM TypeAnn := do
  let id ← parseIdentifier
  pure ⟨id⟩

/-- `Parser::parse_scope`. -/
def parseScope : Nat → PM ScopeDecl
  | 0 => fuelOut
  | n + 1 => do
    _ ← expect .Scope
    let name ← parseIdentifier
    let language ← (do
      if (← check .LAngle) then do
        _ ← advance
        let l ← parseIdentifier
        _ ← expect .RAngle
        pure (some l)
      else if (← check .Colon) then do
        _ ← advance
        let l ← parseIdentifier
        pure (some l)
      else pure none)
    let binds ← (do
      if (← check .Binds) then do
        _ ← advance
        let p ← parseQualifiedPath n
        pure (some p)
      else pure none)
    let expression ← (do
      if (← check .Equals) then do
        _ ← expect .Equals
        let e ← parseExpression n
        pure (some e)
      else pure none)
    expectNewline
    pure ⟨name, language, binds, expression⟩

/-- `Parser::parse_ref` (also accepts `connection_point`). -/
def parseRef : Nat → PM RefDecl
  | 0 => fuelOut
  | n + 1 => do
    if (← check .Ref) then
      _ ← advance
      pure ()
    else do
      _ ← expect .ConnectionPoint
      pure ()
    let name ← parseIdentifier
    _ ← expect .Colon
    let ta ← parseTypeAnnotation
    let binds ← (do
      if (← check .Binds) then do
        _ ← advance
        let p ← parseQualifiedPath n
        pure (some p)
      else pure none)
    let expression ← (do
      if (← check .Equals) then do
        _ ← expect .Equals
        let e ← parseExpression n
        pure (some e)
      else pure none)
    expectNewline
    pure ⟨name, ta, binds, expression⟩

/-- `Parser::parse_uses` (diagnostic `E016`). -/
def parseUses : Nat → PM UsesDecl
  | 0 => fuelOut
  | n + 1 => do
    let source ← (do
      if (← check .Identifier) then parseIdentifier
      else throwE "E016".toList)
    _ ← expect .Uses
    let target ← parseQualifiedPath n
    expectNewline
    pure ⟨source, target⟩

/-- `Parser::parse_check`. -/
def parseCheck : Nat → PM CheckDecl
  | 0 => fuelOut
  | n + 1 => do
    _ ← expect .Check
    let e ← parseExpression n
    expectNewline
    pure ⟨e⟩

/-- The dotted loop of `parse_connection_pattern`; returns the path and the
wildcard flag. -/
def connPatGo : Nat → List Str → PM (List Str × Bool)
  | 0, _ => fuelOut
  | n + 1, acc => do
    if (← check .Dot) then do
      _ ← advance
      if (← check .Star) then do
        _ ← advance
        pure (acc, true)
      else if (← check .Identifier) then do
        let id ← parseIdentifier
        connPatGo n (acc ++ [id])
      else pure (acc, false)
    else pure (acc, false)

/-- `Parser::parse_connection_pattern`. -/
def parseConnectionPattern (n : Nat) : PM ConnPattern := do
  let id ← parseIdentifier
  let pw ← connPatGo n [id]
  pure ⟨pw.1, pw.2⟩

/-- `Parser::try_parse_template_binding` (diagnostic `E003` after restoring
the position). -/
def parseTemplateBinding : Nat → PM TemplateBinding
  | 0 => fuelOut
  | n + 1 => do
    let startPos ← getPos
    let id ← parseIdentifier
    if !(← check .Dot) then do
      _ ← setPos startPos
      throwE "E003".toList
    else do
      let path ← dotsGo n [id]
      if path.length < 2 || !(← check .Equals) then do
        _ ← setPos startPos
        throwE "E003".toList
      else do
        _ ← expect .Equals
        let e ← parseExpression n
        expectNewline
        pure ⟨path, e⟩

/-- `Parser::parse_connection_check_parameter` (`name: scope[]`). -/
def parseConnCheckParam : PM ConnCheckParam := do
  let name ← parseIdentifier
  _ ← expect .Colon
  _ ← expect .Scope
  _ ← expect .LBracket
  _ ← expect .RBracket
  pure ⟨name⟩

/-- The parameter comma loop of `parse_connection_check` (trailing comma
allowed). -/
def connParamsGo : Nat → List ConnCheckParam → PM (List ConnCheckParam)
  | 0, _ => fuelOut
  | n + 1, acc => do
    if (← check .Comma) then do
      _ ← advance
      if (← check .RParen) then pure acc
      else do
        let p ← parseConnCheckParam
        connParamsGo n (acc ++ [p])
    else pure acc

/-- `Parser::parse_connection_check`. -/
def parseConnectionCheck : Nat → PM ConnCheckDecl
  | 0 => fuelOut
  | n + 1 => do
    _ ← expect .ConnectionCheck
    let name ← parseIdentifier
    _ ← expect .LParen
    let parameters ← (do
      if (← check .RParen) then pure []
      else do
        let p ← parseConnCheckParam
        connParamsGo n [p])
    _ ← expect .RParen
    _ ← expect .Colon
    _ ← skipNewlines n
    _ ← expect .Indent
    _ ← skipNewlines n
    let body ← parseExpression n
    expectNewline
    _ ← skipNewlines n
    if (← check .Dedent) then do
      _ ← advance
      pure ⟨name, parameters, body⟩
    else pure ⟨name, parameters, body⟩

/-- The body loop of `parse_language_declaration` (diagnostic `E013`). -/
def langBodyGo : Nat → List ConnCheckDecl → PM (List ConnCheckDecl)
  | 0, _ => fuelOut
  | n + 1, acc => do
    _ ← skipNewlines n
    _ ← parseDocComment n
    if (← check .Dedent) || (← isAtEnd) then pure acc
    else if (← check .ConnectionCheck) then do
      let cc ← parseConnectionCheck n
      langBodyGo n (acc ++ [cc])
    else throwE "E013".toList

/-- `Parser::parse_language_declaration`. -/
def parseLanguageDeclaration : Nat → PM LanguageDecl
  | 0 => fuelOut
  | n + 1 => do
    _ ← expect .Language
    let name ← parseIdentifier
    if (← check .Colon) then do
      _ ← advance
      _ ← skipNewlines n
      _ ← expect .Indent
      let ccs ← langBodyGo n []
      if (← check .Dedent) then do
        _ ← advance
        pure ⟨name, ccs⟩
      else pure ⟨name, ccs⟩
    else do
      expectNewline
      pure ⟨name, []⟩

/-- The `implements` comma loop of `parse_element_with_context`. -/
def implGo : Nat → List Str → PM (List Str)
  | 0, _ => fuelOut
  | n + 1, acc => do
    let id ← parseIdentifier
    if (← check .Comma) then do
      _ ← advance
      implGo n (acc ++ [id])
    else pure (acc ++ [id])

/-- Accumulators of an element body. -/
structure ElemAcc where
  scopes : List ScopeDecl
  refs : List RefDecl
  uses : List UsesDecl
  checks : List CheckDecl
  templateBindings : List TemplateBinding
  children : List PElement

mutual
/-- `Parser::parse_element_with_context` (diagnostics `E007`, `E002`,
`E012`, `E014`, `E015`).  With the snapshot's lexer `LBrace` is never
produced, so `use_braces` is always false on real token streams. -/
def parseElementCtx : Nat → Option Str → Bool → PM PElement
  | 0, _, _ => fuelOut
  | n + 1, docComment, inTemplate => do
    _ ← expect .Element
    let name ← parseIdentifier
    let implements ← (do
      if (← check .Implements) then do
        _ ← advance
        implGo n []
      else pure [])
    let useBraces ← check .LBrace
    if useBraces then do
      _ ← advance
      skipNewlinesAndIndents n
    else do
      _ ← expect .Colon
      _ ← skipNewlines n
      _ ← expect .Indent
      pure ()
    let acc ← elemBodyGo n useBraces inTemplate ⟨[], [], [], [], [], []⟩
    if useBraces then
      if (← check .RBrace) then do
        _ ← advance
        pure ()
      else pure ()
    else
      if (← check .Dedent) then do
        _ ← advance
        pure ()
      else pure ()
    if !inTemplate && (acc.scopes.any (fun sd => sd.expression.isNone)) then
      throwE "E014".toList
    else if !inTemplate && (acc.refs.any (fun r => r.expression.isNone)) then
      throwE "E015".toList
    else
      pure (.mk docComment name implements acc.scopes acc.refs acc.uses
        acc.checks acc.templateBindings [] acc.children)

/-- The body loop of `parse_element_with_context`. -/
def elemBodyGo : Nat → Bool → Bool → ElemAcc → PM ElemAcc
  | 0, _, _, _ => fuelOut
  | n + 1, useBraces, inTemplate, acc => do
    if useBraces then skipNewlinesAndIndents n else skipNewlines n
    let fin ← (do
      if useBraces then pure ((← check .RBrace) || (← isAtEnd))
      else pure ((← check .Dedent) || (← isAtEnd)))
    if fin then pure acc
    else do
      let childDoc ← parseDocComment n
      if (← check .Scope) then do
        let sd ← parseScope n
        elemBodyGo n useBraces inTemplate { acc with scopes := acc.scopes ++ [sd] }
      else if (← check .Ref) || (← check .ConnectionPoint) then do
        let r ← parseRef n
        elemBodyGo n useBraces inTemplate { acc with refs := acc.refs ++ [r] }
      else if (← check .Uses) then do
        let u ← parseUses n
        elemBodyGo n useBraces inTemplate { acc with uses := acc.uses ++ [u] }
      else if (← check .Check) then do
        let c ← parseCheck n
        elemBodyGo n useBraces inTemplate { acc with checks := acc.checks ++ [c] }
      else if (← check .Element) then do
        let child ← parseElementCtx n childDoc inTemplate
        elemBodyGo n useBraces inTemplate { acc with children := acc.children ++ [child] }
      else if (← check .Requires) || (← check .Allows) || (← check .Forbids) then
        throwE "E012".toList
      else if (← check .Identifier) then do
        let pos0 ← getPos
        _ ← advance
        if (← check .Uses) then do
          _ ← setPos pos0
          let u ← parseUses n
          elemBodyGo n useBraces inTemplate { acc with uses := acc.uses ++ [u] }
        else if (← check .Dot) then do
          _ ← setPos pos0
          let b ← parseTemplateBinding n
          elemBodyGo n useBraces inTemplate
            { acc with templateBindings := acc.templateBindings ++ [b] }
        else do
          _ ← setPos pos0
          throwE "E002".toList
      else do
        let fin2 ← (do
          if useBraces then pure ((← check .RBrace))
          else pure ((← check .Dedent)))
        if fin2 || (← isAtEnd) then pure acc
        else throwE "E002".toList
end

/-- The body loop of `parse_element_component_spec` (breaks on anything it
does not recognize). -/
def ecsBodyGo : Nat → ElemAcc → PM ElemAcc
  | 0, _ => fuelOut
  | n + 1, acc => do
    _ ← skipNewlines n
    if (← check .Dedent) || (← isAtEnd) then pure acc
    else do
      let childDoc ← parseDocComment n
      if (← check .Scope) then do
        let sd ← parseScope n
        ecsBodyGo n { acc with scopes := acc.scopes ++ [sd] }
      else if (← check .Ref) || (← check .ConnectionPoint) then do
        let r ← parseRef n
        ecsBodyGo n { acc with refs := acc.refs ++ [r] }
      else if (← check .Check) then do
        let c ← parseCheck n
        ecsBodyGo n { acc with checks := acc.checks ++ [c] }
      else if (← check .Element) then do
        let child ← parseElementCtx n childDoc false
        ecsBodyGo n { acc with children := acc.children ++ [child] }
      else if (← check .Requires) || (← check .Allows) || (← check .Forbids) then
        throwE "E012".toList
      else pure acc

/-- `Parser::parse_element_component_spec`. -/
def parseElementComponentSpec : Nat → PM ComponentSpec
  | 0 => fuelOut
  | n + 1 => do
    _ ← advance
    let name ← parseIdentifier
    let typeAnnotation ← (do
      if (← check .Colon) then do
        let pos0 ← getPos
        _ ← advance
        if (← check .Identifier) then do
          let id ← parseIdentifier
          if (← check .Implements) || (← check .Newline) || (← check .Colon) then
            pure (some (⟨id⟩ : TypeAnn))
          else do
            _ ← setPos pos0
            pure none
        else do
          _ ← setPos pos0
          pure none
      else pure none)
    let implementsT ← (do
      if (← check .Implements) then do
        _ ← advance
        let id ← parseIdentifier
        pure (some id)
      else pure none)
    if (← check .Colon) then do
      _ ← expect .Colon
      _ ← skipNewlines n
      if (← check .Indent) then do
        _ ← expect .Indent
        let acc ← ecsBodyGo n ⟨[], [], [], [], [], []⟩
        if (← check .Dedent) then do
          _ ← advance
          pure ()
        else pure ()
        pure (.elementC name typeAnnotation implementsT (some (.mk none name
          (match implementsT with | some i => [i] | none => [])
          acc.scopes acc.refs [] acc.checks [] [] acc.children)))
      else pure (.elementC name typeAnnotation implementsT none)
    else do
      expectNewline
      pure (.elementC name typeAnnotation implementsT none)

/-- `Parser::parse_ref_component_spec`. -/
def parseRefComponentSpec : Nat → PM ComponentSpec
  | 0 => fuelOut
  | n + 1 => do
    _ ← advance
    let name ← parseIdentifier
    _ ← expect .Colon
    let ta ← parseTypeAnnotation
    let expression ← (do
      if (← check .Equals) then do
        _ ← advance
        let e ← parseExpression n
        pure (some e)
      else pure none)
    expectNewline
    pure (.refC name ta expression)

/-- `Parser::parse_component_requirement` (diagnostic `E011`). -/
def parseComponentRequirement : Nat → ReqAction → PM ComponentReq
  | 0, _ => fuelOut
  | n + 1, action => do
    _ ← advance
    let isDesc ← (do
      if (← check .Descendant) then do
        _ ← advance
        pure true
      else pure false)
    if (← check .Scope) then do
      let sd ← parseScope n
      pure (.mk action isDesc (.scopeC sd))
    else if (← check .Check) then do
      let cd ← parseCheck n
      pure (.mk action isDesc (.checkC cd))
    else if (← check .Element) then do
      let cs ← parseElementComponentSpec n
      pure (.mk action isDesc cs)
    else if (← check .Connection) then do
      _ ← advance
      if (← check .To) then do
        _ ← advance
        pure ()
      else pure ()
      let pat ← parseConnectionPattern n
      expectNewline
      pure (.mk action isDesc (.connectionC pat))
    else if (← check .Ref) || (← check .ConnectionPoint) then do
      let cs ← parseRefComponentSpec n
      pure (.mk action isDesc cs)
    else if (← check .Implements) then do
      _ ← advance
      let tn ← parseIdentifier
      expectNewline
      pure (.mk action isDesc (.elementC "_anonymous".toList none (some tn) none))
    else if (← check .Language) then do
      _ ← advance
      let ln ← parseIdentifier
      expectNewline
      pure (.mk action isDesc (.languageC ln))
    else throwE "E011".toList

/-- Accumulators of a template body. -/
structure TemplAcc where
  scopes : List ScopeDecl
  refs : List RefDecl
  checks : List CheckDecl
  componentRequirements : List ComponentReq
  elements : List PElement

/-- The body loop of `parse_template`. -/
def templBodyGo : Nat → Bool → TemplAcc → PM TemplAcc
  | 0, _, _ => fuelOut
  | n + 1, useBraces, acc => do
    if useBraces then skipNewlinesAndIndents n else skipNewlines n
    let fin ← (do
      if useBraces then pure ((← check .RBrace) || (← isAtEnd))
      else pure ((← check .Dedent) || (← isAtEnd)))
    if fin then pure acc
    else do
      let childDoc ← parseDocComment n
      if (← check .Scope) then do
        let sd ← parseScope n
        templBodyGo n useBraces { acc with scopes := acc.scopes ++ [sd] }
      else if (← check .Ref) || (← check .ConnectionPoint) then do
        let r ← parseRef n
        templBodyGo n useBraces { acc with refs := acc.refs ++ [r] }
      else if (← check .Check) then do
        let c ← parseCheck n
        templBodyGo n useBraces { acc with checks := acc.checks ++ [c] }
      else if (← check .Element) then do
        let e ← parseElementCtx n childDoc true
        templBodyGo n useBraces { acc with elements := acc.elements ++ [e] }
      else if (← check .Requires) then do
        let cr ← parseComponentRequirement n .requiresA
        templBodyGo n useBraces
          { acc with componentRequirements := acc.componentRequirements ++ [cr] }
      else if (← check .Allows) then do
        let cr ← parseComponentRequirement n .allowsA
        templBodyGo n useBraces
          { acc with componentRequirements := acc.componentRequirements ++ [cr] }
      else if (← check .Forbids) then do
        let cr ← parseComponentRequirement n .forbidsA
        templBodyGo n useBraces
          { acc with componentRequirements := acc.componentRequirements ++ [cr] }
      else do
        let fin2 ← (do
          if useBraces then pure ((← check .RBrace))
          else pure ((← check .Dedent)))
        if fin2 || (← isAtEnd) then pure acc
        else throwE "E002".toList

/-- `Parser::parse_template`. -/
def parseTemplate : Nat → Option Str → PM Template
  | 0, _ => fuelOut
  | n + 1, docComment => do
    _ ← expect .Template
    let name ← parseIdentifier
    let useBraces ← check .LBrace
    if useBraces then do
      _ ← advance
      skipNewlinesAndIndents n
    else do
      _ ← expect .Colon
      _ ← skipNewlines n
      _ ← expect .Indent
      pure ()
    let acc ← templBodyGo n useBraces ⟨[], [], [], [], []⟩
    if useBraces then
      if (← check .RBrace) then do
        _ ← advance
        pure ()
      else pure ()
    else
      if (← check .Dedent) then do
        _ ← advance
        pure ()
      else pure ()
    pure ⟨docComment, name, acc.scopes, acc.refs, acc.checks,
      acc.componentRequirements, acc.elements⟩

/-- The import loop of `Parser::parse` (errors recover to the next
line). -/
def importsGo : Nat → List ImportStmt → PM (List ImportStmt)
  | 0, _ => fuelOut
  | n + 1, acc => do
    if (← check .Import) || (← check .From) then do
      let r ← tryP (parseImport n)
      match r with
      | .ok imp => do
        _ ← skipNewlinesAndComments n
        importsGo n (acc ++ [imp])
      | .error c => do
        pushDiag c
        _ ← recoverToNewline n
        _ ← skipNewlinesAndComments n
        importsGo n acc
    else pure acc

/-- Accumulators of the top-level declaration loop. -/
structure TopAcc where
  languages : List LanguageDecl
  templates : List Template
  elements : List PElement

/-- The top-level declaration loop of `Parser::parse` (diagnostic `E001`;
template and element errors recover to the next `element` token). -/
def topGo : Nat → TopAcc → PM TopAcc
  | 0, _ => fuelOut
  | n + 1, acc => do
    if (← isAtEnd) then pure acc
    else do
      _ ← skipNewlines n
      if (← isAtEnd) then pure acc
      else do
        let docComment ← parseDocComment n
        if (← check .Template) then do
          let r ← tryP (parseTemplate n docComment)
          match r with
          | .ok t => topGo n { acc with templates := acc.templates ++ [t] }
          | .error c => do
            pushDiag c
            _ ← recoverToElement n
            topGo n acc
        else if (← check .Element) then do
          let r ← tryP (parseElementCtx n docComment false)
          match r with
          | .ok e => topGo n { acc with elements := acc.elements ++ [e] }
          | .error c => do
            pushDiag c
            _ ← recoverToElement n
            topGo n acc
        else if (← check .Language) then do
          let r ← tryP (parseLanguageDeclaration n)
          match r with
          | .ok l => topGo n { acc with languages := acc.languages ++ [l] }
          | .error c => do
            pushDiag c
            _ ← recoverToNewline n
            topGo n acc
        else do
          if (← isAtEnd) then topGo n acc
          else do
            pushDiag "E001".toList
            _ ← advance
            topGo n acc

/-- `Parser::parse`: always returns a `Program` (plus the accumulated
diagnostics in the state), never an `Err`. -/
def parse : Nat → PM Program
  | 0 => fuelOut
  | n + 1 => do
    _ ← skipNewlinesAndComments n
    let imports ← importsGo n []
    let top ← topGo n ⟨[], [], []⟩
    pure ⟨imports, top.languages, top.templates, top.elements⟩

/-- `Parser::new(src).parse()` at a given fuel: tokenize, then parse from
position 0 with no diagnostics. -/
def parseSrc (fuel : Nat) (src : String) : PRes Program :=
  parse fuel (Lex.tokenize src) ⟨0, []⟩

/-- The parsed program's elements, when parsing succeeded. -/
def elementsOf : PRes Program → Option (List PElement)
  | .ok p _ => some p.elements
  | _ => none

/-- The diagnostics accumulated by a finished parse. -/
def diagCodesOf : PRes Program → Option (List Str)
  | .ok _ s => some s.diagnostics
  | _ => none

/-- C2: layout equivalence between `":" NEWLINE INDENT … DEDENT` bodies and
`"\x7b" … "\x7d"` bodies fails on the snapshot: the lexer of `lexer.rs` has no
rule for brace characters (`TokenKind::LBrace`/`RBrace` exist only in the
newer `parser.rs`, which does not compile against this lexer), so braces
are silently skipped and never reach the parser — zero `LBrace` tokens are
produced.  The colon form of an element parses to one element with no
diagnostics; the brace form of the same element parses to zero elements
with an `E007` diagnostic (`expect(Colon)` fails), not to an equal AST
modulo spans. -/
theorem C2_brace_layout_bug :
    Lex.cntK .LBrace
      (Lex.tokenize "element a \x7b\n  scope m = files.file_selector(\x27x\x27)\n\x7d\n") = 0 ∧
    (elementsOf (parseSrc 1000
      "element a:\n  scope m = files.file_selector(\x27x\x27)\n")).map List.length
      = some 1 ∧
    diagCodesOf (parseSrc 1000
      "element a:\n  scope m = files.file_selector(\x27x\x27)\n") = some [] ∧
    (elementsOf (parseSrc 1000
      "element a \x7b\n  scope m = files.file_selector(\x27x\x27)\n\x7d\n")).map List.length
      = some 0 ∧
    diagCodesOf (parseSrc 1000
      "element a \x7b\n  scope m = files.file_selector(\x27x\x27)\n\x7d\n")
      = some ["E007".toList] :=
  ⟨rfl, rfl, rfl, rfl, rfl⟩

end Par

end Hie

open Hie Hie.Par Hie.Lex

namespace Hie.Par

/-- Well-formed token stream, as `Lexer::tokenize` produces: nonempty, the
last token is the only EOF-kind one, and every string-literal token's
lexeme contains its two quotes. -/
def StreamWF (tk : Tokens) : Prop :=
  (∃ ts t, tk = ts ++ [t] ∧ t.kind = .Eof ∧ ∀ u ∈ ts, ¬ u.kind = .Eof) ∧
  ∀ t ∈ tk, (t.kind = .StringSingle ∨ t.kind = .StringDouble) → 2 ≤ t.text.length

/-- The token `Parser::current` yields at position `p`. -/
def curTok (tk : Tokens) (p : Nat) : Token :=
  match tk.get? p with
  | some t => t
  | none =>
    match tk.get? (tk.length - 1) with
    | some t => t
    | none => Lex.eofTok

theorem StreamWF.ne_nil {tk : Tokens} (h : StreamWF tk) : tk ≠ [] := by
  obtain ⟨⟨ts, t, he, -, -⟩, -⟩ := h
  subst he
  simp

theorem StreamWF.len_pos {tk : Tokens} (h : StreamWF tk) : 1 ≤ tk.length := by
  obtain ⟨⟨ts, t, he, -, -⟩, -⟩ := h
  subst he
  simp

theorem curTok_mem {tk : Tokens} {p : Nat} (h : p < tk.length) :
    curTok tk p ∈ tk := by
  unfold curTok
  rw [List.get?_eq_get h]
  exact List.get_mem tk p h

/-- With a well-formed stream, the current token is EOF-kind exactly at or
past the last index. -/
theorem curTok_eof_iff {tk : Tokens} (hwf : StreamWF tk) (p : Nat) :
    (curTok tk p).kind = .Eof ↔ tk.length - 1 ≤ p := by
  obtain ⟨⟨ts, t, he, hk, hno⟩, -⟩ := hwf
  subst he
  have hlast : (ts ++ [t]).get? ts.length = some t := List.get?_concat_length ts t
  have hlen : (ts ++ [t]).length = ts.length + 1 := by simp
  constructor
  · intro hc
    by_contra hlt
    have hp : p < ts.length := by omega
    have hg : (ts ++ [t]).get? p = some (ts.get ⟨p, hp⟩) := by
      rw [List.get?_append hp]
      exact List.get?_eq_get hp
    have : curTok (ts ++ [t]) p = ts.get ⟨p, hp⟩ := by
      unfold curTok
      rw [hg]
    rw [this] at hc
    exact hno _ (List.get_mem ts p hp) hc
  · intro hge
    unfold curTok
    match hg : (ts ++ [t]).get? p with
    | some u =>
      have hl := (List.get?_eq_some.mp hg).1
      have hp : p = ts.length := by omega
      rw [hp, hlast] at hg
      injection hg with hu
      show u.kind = TokenKind.Eof
      rw [← hu]
      exact hk
    | none =>
      show (match (ts ++ [t]).get? ((ts ++ [t]).length - 1) with
        | some u => u
        | none => Lex.eofTok).kind = TokenKind.Eof
      have hidx : (ts ++ [t]).length - 1 = ts.length := by omega
      rw [hidx, hlast]
      exact hk

theorem current_eq {tk : Tokens} (hne : tk ≠ []) (s : PSt) :
    current tk s = .ok (curTok tk s.pos) s := by
  unfold current curTok
  match h : tk.get? s.pos with
  | some t => rfl
  | none =>
    match h2 : tk.get? (tk.length - 1) with
    | some t => rfl
    | none =>
      exfalso
      rw [List.get?_eq_none] at h2
      have : tk.length ≠ 0 := fun hz => hne (List.length_eq_zero.mp hz)
      omega

/-- When the current token is not EOF-kind (so the position is strictly
inside the vector), `advance` moves one forward and returns the consumed
token. -/
theorem advance_eq {tk : Tokens} (hwf : StreamWF tk) (s : PSt)
    (hpos : s.pos < tk.length - 1) :
    advance tk s = .ok (curTok tk s.pos) { s with pos := s.pos + 1 } := by
  have hne : ¬ (curTok tk s.pos).kind = .Eof := by
    rw [curTok_eof_iff hwf]
    omega
  have hg : tk.get? s.pos = some (curTok tk s.pos) := by
    unfold curTok
    rw [List.get?_eq_get (by omega : s.pos < tk.length)]
  unfold advance
  rw [current_eq hwf.ne_nil]
  show (match (if ((curTok tk s.pos).kind == TokenKind.Eof) = true then s.pos
      else s.pos + 1) with
    | 0 => PRes.panic
    | p + 1 =>
      match tk.get? p with
      | some u => PRes.ok u { s with pos := p + 1 }
      | none => PRes.panic) = _
  rw [if_neg (by simpa using hne)]
  show (match tk.get? s.pos with
    | some u => PRes.ok u { s with pos := s.pos + 1 }
    | none => PRes.panic) = _
  rw [hg]

/-- The panic-freedom / fuel-sufficiency / progress triple.  From any state
at or before the end of the vector satisfying `P`, when the fuel `n`
exceeds the threshold `64 * (remaining positions) + r`, the computation
does not panic and does not run out of fuel; on success the position has
advanced by at least `so` and `Q` holds, on a parse error it has advanced
by at least `eo`; the position stays at or before the end. -/
def FT (tk : Tokens) (n r : Nat) (P : PSt → Prop) (m : PM α)
    (eo so : Nat) (Q : α → PSt → Prop) : Prop :=
  ∀ s : PSt, s.pos ≤ tk.length → 64 * (tk.length - s.pos) + r < n → P s →
    match m tk s with
    | .ok a s1 => s1.pos ≤ tk.length ∧ s.pos + so ≤ s1.pos ∧ Q a s1
    | .err _ s1 => s1.pos ≤ tk.length ∧ s.pos + eo ≤ s1.pos
    | .panic => False
    | .fuel => False

theorem FT_conseq {tk : Tokens} {n r r1 : Nat} {P P1 : PSt → Prop} {m : PM α}
    {eo so eo1 so1 : Nat} {Q Q1 : α → PSt → Prop}
    (h : FT tk n r P m eo so Q)
    (hr : r ≤ r1) (hP : ∀ s, P1 s → P s) (heo : eo1 ≤ eo) (hso : so1 ≤ so)
    (hQ : ∀ a s, Q a s → Q1 a s) :
    FT tk n r1 P1 m eo1 so1 Q1 := by
  intro s h1 h2 h3
  have := h s h1 (by omega) (hP s h3)
  revert this
  match m tk s with
  | .ok a s1 => exact fun ⟨x, y, z⟩ => ⟨x, by omega, hQ a s1 z⟩
  | .err c s1 => exact fun ⟨x, y⟩ => ⟨x, by omega⟩
  | .panic => exact id
  | .fuel => exact id

theorem FT_liftIdx {tk : Tokens} {n r : Nat} {P : PSt → Prop} {m : PM α}
    {eo so : Nat} {Q : α → PSt → Prop} (h : FT tk n r P m eo so Q) :
    FT tk (n + 1) (r + 1) P m eo so Q := by
  intro s h1 h2 h3
  exact h s h1 (by omega) h3

theorem FT_bind (rm r2 eo1 so1 eo2 so2 : Nat) {tk : Tokens} {n r : Nat}
    {P : PSt → Prop} {m : PM α}
    {f : α → PM β} {eo so : Nat} {Q1 : α → PSt → Prop}
    {Q2 : β → PSt → Prop}
    (hm : FT tk n rm P m eo1 so1 Q1)
    (hf : ∀ a, FT tk n r2 (Q1 a) (f a) eo2 so2 Q2)
    (hrm : rm ≤ r)
    (hr : r2 ≤ r + 64 * so1)
    (he1 : eo ≤ eo1) (he2 : eo ≤ so1 + eo2) (hs : so ≤ so1 + so2) :
    FT tk n r P (m >>= f) eo so Q2 := by
  intro s h1 h2 h3
  have hm' := hm s h1 (by omega) h3
  show (match (match m tk s with
    | .ok a s1 => f a tk s1
    | .err c s1 => .err c s1
    | .panic => .panic
    | .fuel => .fuel) with
    | .ok a s1 => s1.pos ≤ tk.length ∧ s.pos + so ≤ s1.pos ∧ Q2 a s1
    | .err _ s1 => s1.pos ≤ tk.length ∧ s.pos + eo ≤ s1.pos
    | .panic => False
    | .fuel => False)
  revert hm'
  match m tk s with
  | .ok a s1 =>
    intro hm1
    obtain ⟨hA, hB, hQ⟩ := hm1
    have hthr : 64 * (tk.length - s1.pos) + r2 < n := by omega
    have hf' := hf a s1 hA hthr hQ
    show (match f a tk s1 with
      | .ok b s2 => s2.pos ≤ tk.length ∧ s.pos + so ≤ s2.pos ∧ Q2 b s2
      | .err _ s2 => s2.pos ≤ tk.length ∧ s.pos + eo ≤ s2.pos
      | .panic => False
      | .fuel => False)
    revert hf'
    match f a tk s1 with
    | .ok b s2 =>
      intro hf1
      obtain ⟨x, y, z⟩ := hf1
      exact ⟨x, by omega, z⟩
    | .err c s2 =>
      intro hf1
      obtain ⟨x, y⟩ := hf1
      exact ⟨x, by omega⟩
    | .panic => exact id
    | .fuel => exact id
  | .err c s1 =>
    intro hm1
    obtain ⟨x, y⟩ := hm1
    show s1.pos ≤ tk.length ∧ s.pos + eo ≤ s1.pos
    exact ⟨x, by omega⟩
  | .panic => exact id
  | .fuel => exact id

theorem FT_pure {tk : Tokens} {n : Nat} {P : PSt → Prop}
    {Q : α → PSt → Prop} {r eo : Nat} (a : α)
    (h : ∀ s, s.pos ≤ tk.length → P s → Q a s) :
    FT tk n r P (pure a : PM α) eo 0 Q := by
  intro s h1 h2 h3
  exact ⟨h1, by omega, h s h1 h3⟩

theorem FT_throwE {tk : Tokens} {n : Nat} {P : PSt → Prop}
    {Q : α → PSt → Prop} {r so : Nat} (c : Str) :
    FT tk n r P (throwE c : PM α) 0 so Q := by
  intro s h1 h2 h3
  exact ⟨h1, by omega⟩

theorem FT_getPos {tk : Tokens} {n : Nat} {P : PSt → Prop} {r eo : Nat} :
    FT tk n r P getPos eo 0 (fun p s => P s ∧ p = s.pos) := by
  intro s h1 h2 h3
  exact ⟨h1, by omega, h3, rfl⟩

theorem FT_pushDiag {tk : Tokens} {n : Nat} {P : PSt → Prop}
    {r eo : Nat} (c : Str) (hP : ∀ s d, P s → P ⟨s.pos, d⟩) :
    FT tk n r P (pushDiag c) eo 0 (fun _ s => P s) := by
  intro s h1 h2 h3
  refine ⟨h1, ?_, hP s _ h3⟩
  show s.pos + 0 ≤ s.pos
  omega

theorem bind_eval {α β : Type} (m : PM α) (f : α → PM β) (tk : Tokens) (s : PSt) :
    (m >>= f) tk s = match m tk s with
      | .ok a s1 => f a tk s1
      | .err c s1 => .err c s1
      | .panic => .panic
      | .fuel => .fuel := rfl

theorem pure_eval {α : Type} (a : α) (tk : Tokens) (s : PSt) :
    (pure a : PM α) tk s = .ok a s := rfl

theorem check_eq {tk : Tokens} (hne : tk ≠ []) (k : TokenKind) (s : PSt) :
    check k tk s = .ok ((curTok tk s.pos).kind == k) s := by
  unfold check
  rw [bind_eval, current_eq hne]
  exact pure_eval _ _ _

theorem isAtEnd_eq {tk : Tokens} (hne : tk ≠ []) (s : PSt) :
    isAtEnd tk s = .ok ((curTok tk s.pos).kind == TokenKind.Eof) s := by
  unfold isAtEnd
  rw [bind_eval, current_eq hne]
  exact pure_eval _ _ _

theorem FT_current {tk : Tokens} (hne : tk ≠ []) {n : Nat}
    {P : PSt → Prop} {r eo : Nat} :
    FT tk n r P current eo 0 (fun t s => P s ∧ t = curTok tk s.pos) := by
  intro s h1 h2 h3
  rw [current_eq hne]
  exact ⟨h1, by omega, h3, rfl⟩

theorem FT_check {tk : Tokens} (hne : tk ≠ []) {n : Nat} {P : PSt → Prop}
    (k : TokenKind) {r eo : Nat} :
    FT tk n r P (check k) eo 0
      (fun b s => P s ∧ (b = true ↔ (curTok tk s.pos).kind = k)) := by
  intro s h1 h2 h3
  rw [check_eq hne]
  exact ⟨h1, by omega, h3, by simp⟩

theorem FT_isAtEnd {tk : Tokens} (hne : tk ≠ []) {n : Nat} {P : PSt → Prop}
    {r eo : Nat} :
    FT tk n r P isAtEnd eo 0
      (fun b s => P s ∧ (b = true ↔ (curTok tk s.pos).kind = .Eof)) := by
  intro s h1 h2 h3
  rw [isAtEnd_eq hne]
  exact ⟨h1, by omega, h3, by simp⟩

/-- `advance` under a non-EOF current token: consumes exactly one token and
returns it; `Pk` transports a fact about the consumed token. -/
theorem FT_advance {tk : Tokens} (hwf : StreamWF tk) {n : Nat}
    (Pk : Token → Prop) {r eo : Nat} :
    FT tk n r (fun s => s.pos < tk.length - 1 ∧ Pk (curTok tk s.pos)) advance
      eo 1 (fun t _ => Pk t) := by
  intro s h1 h2 h3
  rw [advance_eq hwf s h3.1]
  refine ⟨?_, ?_, h3.2⟩
  · show s.pos + 1 ≤ tk.length
    omega
  · show s.pos + 1 ≤ s.pos + 1
    omega

/-- `FT_advance` with an arbitrary precondition that implies the guard. -/
theorem FT_advanceP {tk : Tokens} (hwf : StreamWF tk) {n : Nat}
    {P : PSt → Prop} {r eo : Nat} (Pk : Token → Prop)
    (hP : ∀ s : PSt, s.pos ≤ tk.length → P s →
      s.pos < tk.length - 1 ∧ Pk (curTok tk s.pos)) :
    FT tk n r P advance eo 1 (fun t _ => Pk t) := by
  intro s h1 h2 h3
  obtain ⟨hlt, hpk⟩ := hP s h1 h3
  rw [advance_eq hwf s hlt]
  refine ⟨?_, ?_, hpk⟩
  · show s.pos + 1 ≤ tk.length
    omega
  · show s.pos + 1 ≤ s.pos + 1
    omega

theorem FT_tryP {tk : Tokens} {n r : Nat} {P : PSt → Prop} {m : PM α}
    {eo so st : Nat} {Q : α → PSt → Prop}
    (h : FT tk n r P m eo so Q) (h1 : st ≤ so) (h2 : st ≤ eo) (eo2 : Nat) :
    FT tk n r P (tryP m) eo2 st (fun _ _ => True) := by
  intro s hA hB hC
  have h' := h s hA hB hC
  revert h'
  unfold tryP
  match m tk s with
  | .ok a s1 =>
    intro hh
    obtain ⟨x, y, z⟩ := hh
    exact ⟨x, by omega, trivial⟩
  | .err c s1 =>
    intro hh
    obtain ⟨x, y⟩ := hh
    exact ⟨x, by omega, trivial⟩
  | .panic => exact id
  | .fuel => exact id

theorem curTok_ne_eof_pos {tk : Tokens} (hwf : StreamWF tk) {p : Nat}
    {k : TokenKind} (h : (curTok tk p).kind = k) (hk : ¬ k = .Eof) :
    p < tk.length - 1 := by
  by_contra hge
  exact hk (h ▸ (curTok_eof_iff hwf p).mpr (by omega))

theorem FT_absurd {tk : Tokens} {n r : Nat} {P : PSt → Prop} {m : PM α}
    {eo so : Nat} {Q : α → PSt → Prop}
    (h : ∀ s : PSt, s.pos ≤ tk.length → P s → False) :
    FT tk n r P m eo so Q := by
  intro s h1 h2 h3
  exact absurd h3 (fun hp => h s h1 hp)

theorem if_true_bool {α : Sort u} (a b : α) :
    (if (true = true) then a else b) = a := rfl

theorem if_false_bool {α : Sort u} (a b : α) :
    (if (false = true) then a else b) = b := rfl

theorem FT_skipNewlines {tk : Tokens} (hwf : StreamWF tk) :
    ∀ n, FT tk n 0 (fun _ => True) (skipNewlines n) 0 0 (fun _ _ => True) := by
  intro n
  induction n with
  | zero => intro s h1 h2 h3; omega
  | succ n ih =>
    unfold skipNewlines
    refine FT_bind 0 0 0 0 0 0 (FT_check hwf.ne_nil .Newline) ?_ (by omega)
      (by omega) (by omega) (by omega) (by omega)
    intro b
    cases b
    · rw [if_false_bool]
      exact FT_pure _ (fun s h1 h2 => trivial)
    · rw [if_true_bool]
      refine FT_bind 0 1 0 1 0 0 (FT_advanceP hwf (fun _ => True) ?_)
        (fun _ => FT_liftIdx ih) (by omega) (by omega) (by omega) (by omega)
        (by omega)
      intro s h1 hp
      exact ⟨curTok_ne_eof_pos hwf (hp.2.1 rfl) (by decide), trivial⟩



theorem curTok_not_eof_pos {tk : Tokens} (hwf : StreamWF tk) {p : Nat} (h : ¬ (curTok tk p).kind = .Eof) :
    p < tk.length - 1 := by
  by_contra hge
  exact h ((curTok_eof_iff hwf p).mpr (by omega))

/-- The consumed current token is a string token with both quotes when its
kind says so. -/
theorem curTok_strOK {tk : Tokens} (hwf : StreamWF tk) {p : Nat} (hp : p < tk.length)
    (h : (curTok tk p).kind = .StringSingle ∨ (curTok tk p).kind = .StringDouble) :
    2 ≤ (curTok tk p).text.length :=
  hwf.2 _ (curTok_mem hp) h

theorem FT_skipNewlinesAndIndents {tk : Tokens} (hwf : StreamWF tk) :
    ∀ n, FT tk n 0 (fun _ => True) (skipNewlinesAndIndents n) 0 0
      (fun _ _ => True) := by
  intro n
  induction n with
  | zero => intro s h1 h2 h3; omega
  | succ n ih =>
    unfold skipNewlinesAndIndents
    refine FT_bind 0 0 0 0 0 0 (FT_check hwf.ne_nil .Newline) ?_ (by omega)
      (by omega) (by omega) (by omega) (by omega)
    intro b1
    refine FT_bind 0 0 0 0 0 0 (FT_check hwf.ne_nil .Indent) ?_ (by omega)
      (by omega) (by omega) (by omega) (by omega)
    intro b2
    refine FT_bind 0 0 0 0 0 0 (FT_check hwf.ne_nil .Dedent) ?_ (by omega)
      (by omega) (by omega) (by omega) (by omega)
    intro b3
    have hthen : ∀ (P2 : PSt → Prop),
        (∀ s : PSt, P2 s → s.pos < tk.length - 1) →
        FT tk (n + 1) 0 P2 (advance >>= fun _ => skipNewlinesAndIndents n) 0 0
          (fun _ _ => True) := by
      intro P2 hP2
      refine FT_bind 0 1 0 1 0 0
        (FT_advanceP hwf (fun _ => True) (fun s h1 hp => ⟨hP2 s hp, trivial⟩))
        (fun _ => FT_liftIdx ih) (by omega) (by omega) (by omega) (by omega)
        (by omega)
    have hx : ∀ (k : TokenKind) (s : PSt), ¬ k = .Eof →
        (True ↔ (curTok tk s.pos).kind = k) → s.pos < tk.length - 1 :=
      fun k s hk hi =>
        curTok_not_eof_pos hwf (fun he => hk ((hi.mp trivial).symm.trans he))
    cases b1 <;> cases b2 <;> cases b3 <;>
      simp only [Bool.or_true, Bool.true_or, Bool.or_false, Bool.false_or] <;>
      first
        | (rw [if_neg (by decide)]; exact FT_pure _ (fun s h1 h2 => trivial))
        | (rw [if_pos (by decide)]; first
            | exact hthen _ (fun s hp => hx _ s (by decide) hp.1.1.2)
            | exact hthen _ (fun s hp => hx _ s (by decide) hp.1.2)
            | exact hthen _ (fun s hp => hx _ s (by decide) hp.2))

theorem FT_skipNewlinesAndComments {tk : Tokens} (hwf : StreamWF tk) :
    ∀ n, FT tk n 0 (fun _ => True) (skipNewlinesAndComments n) 0 0
      (fun _ _ => True) := by
  intro n
  induction n with
  | zero => intro s h1 h2 h3; omega
  | succ n ih =>
    unfold skipNewlinesAndComments
    refine FT_bind 0 0 0 0 0 0 (FT_check hwf.ne_nil .Newline) ?_ (by omega)
      (by omega) (by omega) (by omega) (by omega)
    intro b1
    refine FT_bind 0 0 0 0 0 0 (FT_check hwf.ne_nil .DocComment) ?_ (by omega)
      (by omega) (by omega) (by omega) (by omega)
    intro b2
    have hthen : ∀ (P2 : PSt → Prop),
        (∀ s : PSt, P2 s → s.pos < tk.length - 1) →
        FT tk (n + 1) 0 P2 (advance >>= fun _ => skipNewlinesAndComments n) 0 0
          (fun _ _ => True) := by
      intro P2 hP2
      refine FT_bind 0 1 0 1 0 0
        (FT_advanceP hwf (fun _ => True) (fun s h1 hp => ⟨hP2 s hp, trivial⟩))
        (fun _ => FT_liftIdx ih) (by omega) (by omega) (by omega) (by omega)
        (by omega)
    have hx : ∀ (k : TokenKind) (s : PSt), ¬ k = .Eof →
        (True ↔ (curTok tk s.pos).kind = k) → s.pos < tk.length - 1 :=
      fun k s hk hi =>
        curTok_not_eof_pos hwf (fun he => hk ((hi.mp trivial).symm.trans he))
    cases b1 <;> cases b2 <;>
      simp only [Bool.or_true, Bool.true_or, Bool.or_false, Bool.false_or] <;>
      first
        | (rw [if_neg (by decide)]; exact FT_pure _ (fun s h1 h2 => trivial))
        | (rw [if_pos (by decide)]; first
            | exact hthen _ (fun s hp => hx _ s (by decide) hp.1.2)
            | exact hthen _ (fun s hp => hx _ s (by decide) hp.2))

theorem FT_recoverToNewline {tk : Tokens} (hwf : StreamWF tk) :
    ∀ n, FT tk n 0 (fun _ => True) (recoverToNewline n) 0 0
      (fun _ _ => True) := by
  intro n
  induction n with
  | zero => intro s h1 h2 h3; omega
  | succ n ih =>
    unfold recoverToNewline
    refine FT_bind 0 0 0 0 0 0 (FT_isAtEnd hwf.ne_nil) ?_ (by omega)
      (by omega) (by omega) (by omega) (by omega)
    intro a
    refine FT_bind 0 0 0 0 0 0 (FT_check hwf.ne_nil .Newline) ?_ (by omega)
      (by omega) (by omega) (by omega) (by omega)
    intro b
    have helse : FT tk (n + 1) 0 (fun _ => True)
        ((check .Newline : PM Bool) >>= fun c =>
          if c = true then advance >>= fun _ => pure () else pure ()) 0 0
        (fun _ _ => True) := by
      refine FT_bind 0 0 0 0 0 0 (FT_check hwf.ne_nil .Newline) ?_ (by omega)
        (by omega) (by omega) (by omega) (by omega)
      intro c
      cases c
      · rw [if_neg (by decide)]
        exact FT_pure _ (fun s h1 h2 => trivial)
      · rw [if_pos rfl]
        refine FT_bind 0 0 0 1 0 0
          (FT_advanceP hwf (fun _ => True) (fun s h1 hp => ⟨curTok_not_eof_pos hwf
            (fun he => (by decide : ¬ TokenKind.Eof = TokenKind.Newline)
              (he.symm.trans (hp.2.mp rfl))), trivial⟩))
          (fun _ => FT_pure _ (fun s h1 h2 => trivial)) (by omega) (by omega)
          (by omega) (by omega) (by omega)
    cases a <;> cases b <;>
      simp only [Bool.not_true, Bool.not_false, Bool.and_self, Bool.and_true,
        Bool.true_and, Bool.and_false, Bool.false_and] <;>
      first
        | (rw [if_neg (by decide)];
           exact FT_conseq helse (by omega) (fun s hp => trivial) (by omega)
             (by omega) (fun x s h => trivial))
        | (rw [if_pos (by decide)];
           refine FT_bind 0 1 0 1 0 0
             (FT_advanceP hwf (fun _ => True)
               (fun s h1 hp => ⟨curTok_not_eof_pos hwf
                 (fun he => Bool.noConfusion (hp.1.2.mpr he)), trivial⟩))
             (fun _ => FT_liftIdx ih) (by omega) (by omega) (by omega) (by omega)
             (by omega))

theorem FT_recoverToElement {tk : Tokens} (hwf : StreamWF tk) :
    ∀ n, FT tk n 0 (fun _ => True) (recoverToElement n) 0 0
      (fun _ _ => True) := by
  intro n
  induction n with
  | zero => intro s h1 h2 h3; omega
  | succ n ih =>
    unfold recoverToElement
    refine FT_bind 0 0 0 0 0 0 (FT_isAtEnd hwf.ne_nil) ?_ (by omega)
      (by omega) (by omega) (by omega) (by omega)
    intro a
    cases a
    · rw [if_neg (by decide)]
      refine FT_bind 0 0 0 0 0 0 (FT_check hwf.ne_nil .Element) ?_ (by omega)
        (by omega) (by omega) (by omega) (by omega)
      intro b
      cases b
      · rw [if_neg (by decide)]
        refine FT_bind 0 1 0 1 0 0
          (FT_advanceP hwf (fun _ => True)
            (fun s h1 hp => ⟨curTok_not_eof_pos hwf
              (fun he => Bool.noConfusion (hp.1.2.mpr he)), trivial⟩))
          (fun _ => FT_liftIdx ih) (by omega) (by omega) (by omega) (by omega)
          (by omega)
      · rw [if_pos rfl]
        exact FT_pure _ (fun s h1 h2 => trivial)
    · rw [if_pos rfl]
      exact FT_pure _ (fun s h1 h2 => trivial)

theorem FT_expect {tk : Tokens} (hwf : StreamWF tk) (k : TokenKind)
    (hk : ¬ k = .Eof) {n : Nat} :
    FT tk n 0 (fun _ => True) (expect k) 0 1 (fun _ _ => True) := by
  unfold expect
  refine FT_bind 0 0 0 0 0 1 (FT_check hwf.ne_nil k) ?_ (by omega)
    (by omega) (by omega) (by omega) (by omega)
  intro b
  cases b
  · rw [if_neg (by decide)]
    exact FT_throwE _
  · rw [if_pos rfl]
    exact FT_advanceP hwf (fun _ => True) (fun s h1 hp => ⟨curTok_not_eof_pos hwf
      (fun he => hk (((hp.2.mp rfl).symm.trans he))), trivial⟩)

theorem FT_expect_kind {tk : Tokens} (hwf : StreamWF tk) (k : TokenKind)
    (hk : ¬ k = .Eof) (eo : Nat) {n : Nat} :
    FT tk n 0 (fun s => (curTok tk s.pos).kind = k) (expect k) eo 1
      (fun _ _ => True) := by
  unfold expect
  refine FT_bind 0 0 eo 0 eo 1 (FT_check hwf.ne_nil k) ?_ (by omega)
    (by omega) (by omega) (by omega) (by omega)
  intro b
  cases b
  · exact FT_absurd (fun s h1 hp => Bool.noConfusion (hp.2.mpr hp.1))
  · rw [if_pos rfl]
    exact FT_advanceP hwf (fun _ => True) (fun s h1 hp => ⟨curTok_not_eof_pos hwf
      (fun he => hk ((hp.1.symm.trans he))), trivial⟩)

theorem FT_expectNewline {tk : Tokens} (hwf : StreamWF tk) {n : Nat} :
    FT tk n 0 (fun _ => True) expectNewline 0 0 (fun _ _ => True) := by
  unfold expectNewline
  refine FT_bind 0 0 0 0 0 0 (FT_check hwf.ne_nil .Newline) ?_ (by omega)
    (by omega) (by omega) (by omega) (by omega)
  intro b1
  refine FT_bind 0 0 0 0 0 0 (FT_check hwf.ne_nil .Eof) ?_ (by omega)
    (by omega) (by omega) (by omega) (by omega)
  intro b2
  refine FT_bind 0 0 0 0 0 0 (FT_check hwf.ne_nil .Dedent) ?_ (by omega)
    (by omega) (by omega) (by omega) (by omega)
  intro b3
  have hthen : ∀ (P2 : PSt → Prop),
      FT tk n 0 P2
        ((check .Newline : PM Bool) >>= fun c =>
          if c = true then advance >>= fun _ => pure () else pure ()) 0 0
        (fun _ _ => True) := by
    intro P2
    refine FT_bind 0 0 0 0 0 0 (FT_check hwf.ne_nil .Newline) ?_ (by omega)
      (by omega) (by omega) (by omega) (by omega)
    intro c
    cases c
    · rw [if_neg (by decide)]
      exact FT_pure _ (fun s h1 h2 => trivial)
    · rw [if_pos rfl]
      refine FT_bind 0 0 0 1 0 0 (FT_advanceP hwf (fun _ => True) (fun s h1 hp => ⟨curTok_not_eof_pos hwf
          (fun he => (by decide : ¬ TokenKind.Eof = TokenKind.Newline)
            (he.symm.trans (hp.2.mp rfl))), trivial⟩))
        (fun _ => FT_pure _ (fun s h1 h2 => trivial)) (by omega) (by omega)
        (by omega) (by omega) (by omega)
  cases b1 <;> cases b2 <;> cases b3 <;>
    simp only [Bool.or_true, Bool.true_or, Bool.or_false, Bool.false_or] <;>
    first
      | (rw [if_neg (by decide)]; exact FT_throwE _)
      | (rw [if_pos (by decide)]; exact hthen _)

theorem FT_parseIdentifier {tk : Tokens} (hwf : StreamWF tk) {n : Nat} :
    FT tk n 0 (fun _ => True) parseIdentifier 0 1 (fun _ _ => True) := by
  unfold parseIdentifier
  refine FT_bind 0 0 0 0 0 1 (FT_check hwf.ne_nil .Identifier) ?_ (by omega)
    (by omega) (by omega) (by omega) (by omega)
  intro b
  have hadv : ∀ (P2 : PSt → Prop), (∀ s : PSt, P2 s → s.pos < tk.length - 1) →
      FT tk n 0 P2 (advance >>= fun t2 => pure t2.text) 0 1
        (fun _ _ => True) := by
    intro P2 hP2
    refine FT_bind 0 0 0 1 0 0
      (FT_advanceP hwf (fun _ => True) (fun s h1 hp => ⟨hP2 s hp, trivial⟩))
      (fun t2 => FT_pure _ (fun s h1 h2 => trivial)) (by omega) (by omega)
      (by omega) (by omega) (by omega)
  cases b
  · rw [if_neg (by decide)]
    refine FT_bind 0 0 0 0 0 1 (FT_current hwf.ne_nil) ?_ (by omega)
      (by omega) (by omega) (by omega) (by omega)
    intro t
    obtain ⟨tknd, ttext⟩ := t
    cases tknd <;>
      first
        | exact FT_throwE _
        | exact hadv _ (fun s hp => curTok_not_eof_pos hwf (fun he => by
            rw [← hp.2] at he
            simp at he))
  · rw [if_pos rfl]
    exact hadv _ (fun s hp => curTok_not_eof_pos hwf (fun he =>
      (by decide : ¬ TokenKind.Eof = TokenKind.Identifier)
        (he.symm.trans (hp.2.mp rfl))))

theorem FT_parseStringLiteral {tk : Tokens} (hwf : StreamWF tk) {n : Nat} :
    FT tk n 0 (fun _ => True) parseStringLiteral 0 1 (fun _ _ => True) := by
  unfold parseStringLiteral
  refine FT_bind 0 0 0 0 0 1 (FT_check hwf.ne_nil .StringSingle) ?_
    (by omega) (by omega) (by omega) (by omega) (by omega)
  intro b1
  refine FT_bind 0 0 0 0 0 1 (FT_check hwf.ne_nil .StringDouble) ?_
    (by omega) (by omega) (by omega) (by omega) (by omega)
  intro b2
  have hthen : ∀ (P2 : PSt → Prop),
      (∀ s : PSt, P2 s → s.pos < tk.length - 1 ∧
        2 ≤ (curTok tk s.pos).text.length) →
      FT tk n 0 P2
        (advance >>= fun t =>
          if t.text.length < 2 then panicP
          else pure (unescapeGo ((t.text.drop 1).take (t.text.length - 2)))) 0 1
        (fun _ _ => True) := by
    intro P2 hP2
    refine FT_bind 0 0 0 1 0 0 (FT_advanceP hwf (fun t => 2 ≤ t.text.length)
      (fun s h1 hp => hP2 s hp)) ?_ (by omega) (by omega) (by omega) (by omega)
      (by omega)
    intro t
    by_cases hlt : t.text.length < 2
    · rw [if_pos hlt]
      exact FT_absurd (fun s h1 hp => by omega)
    · rw [if_neg hlt]
      exact FT_pure _ (fun s h1 h2 => trivial)
  cases b1 <;> cases b2 <;>
    simp only [Bool.or_true, Bool.true_or, Bool.or_false, Bool.false_or] <;>
    first
      | (rw [if_neg (by decide)]; exact FT_throwE _)
      | (rw [if_pos (by decide)];
         refine hthen _ (fun s hp => ?_) <;>
         first
           | (have hk := hp.1.2.mp trivial
              have hlt := curTok_not_eof_pos hwf (fun he =>
                absurd (he.symm.trans hk) (by decide))
              exact ⟨hlt, curTok_strOK hwf (by omega) (Or.inl hk)⟩)
           | (have hk := hp.2.mp trivial
              have hlt := curTok_not_eof_pos hwf (fun he =>
                absurd (he.symm.trans hk) (by decide))
              exact ⟨hlt, curTok_strOK hwf (by omega) (Or.inr hk)⟩))

theorem FT_parseNumberLiteral {tk : Tokens} (hwf : StreamWF tk) {n : Nat} :
    FT tk n 0 (fun _ => True) parseNumberLiteral 0 1 (fun _ _ => True) := by
  unfold parseNumberLiteral
  refine FT_bind 0 0 0 0 0 1 (FT_check hwf.ne_nil .Number) ?_ (by omega)
    (by omega) (by omega) (by omega) (by omega)
  intro b
  cases b
  · rw [if_neg (by decide)]
    exact FT_throwE _
  · rw [if_pos rfl]
    refine FT_bind 0 0 0 1 0 0
      (FT_advanceP hwf (fun _ => True) (fun s h1 hp => ⟨curTok_not_eof_pos hwf
        (fun he => absurd (he.symm.trans (hp.2.mp rfl)) (by decide)), trivial⟩))
      (fun t => FT_pure _ (fun s h1 h2 => trivial)) (by omega) (by omega)
      (by omega) (by omega) (by omega)

theorem FT_parseTypeAnnotation {tk : Tokens} (hwf : StreamWF tk) {n : Nat} :
    FT tk n 0 (fun _ => True) parseTypeAnnotation 0 1 (fun _ _ => True) := by
  unfold parseTypeAnnotation
  refine FT_bind 0 0 0 1 0 0 (FT_parseIdentifier hwf)
    (fun id => FT_pure _ (fun s h1 h2 => trivial)) (by omega) (by omega)
    (by omega) (by omega) (by omega)

theorem FT_docGo {tk : Tokens} (hwf : StreamWF tk) :
    ∀ n acc, FT tk n 2 (fun _ => True) (docGo n acc) 0 0 (fun _ _ => True) := by
  intro n
  induction n with
  | zero => intro acc s h1 h2 h3; omega
  | succ n ih =>
    intro acc
    unfold docGo
    refine FT_bind 0 2 0 0 0 0 (FT_check hwf.ne_nil .DocComment) ?_
      (by omega) (by omega) (by omega) (by omega) (by omega)
    intro b
    cases b
    · rw [if_neg (by decide)]
      by_cases hacc : acc.isEmpty
      · rw [if_pos hacc]
        exact FT_pure _ (fun s h1 h2 => trivial)
      · rw [if_neg hacc]
        exact FT_pure _ (fun s h1 h2 => trivial)
    · rw [if_pos rfl]
      refine FT_bind 0 66 0 1 0 0 (FT_advanceP hwf (fun _ => True) (fun s h1 hp => ⟨curTok_not_eof_pos hwf (fun he =>
          absurd (he.symm.trans (hp.2.mp rfl)) (by decide)), trivial⟩)) ?_ (by omega) (by omega)
        (by omega) (by omega) (by omega)
      intro t
      refine FT_bind 1 3 0 0 0 0 (FT_liftIdx (FT_skipNewlines hwf n))
        (fun _ => FT_liftIdx (ih _)) (by omega) (by omega) (by omega) (by omega)
        (by omega)

theorem FT_parseDocComment {tk : Tokens} (hwf : StreamWF tk) (n : Nat) :
    FT tk n 2 (fun _ => True) (parseDocComment n) 0 0 (fun _ _ => True) :=
  FT_docGo hwf n []

theorem FT_dotsGo {tk : Tokens} (hwf : StreamWF tk) :
    ∀ n acc, FT tk n 2 (fun _ => True) (dotsGo n acc) 0 0 (fun _ _ => True) := by
  intro n
  induction n with
  | zero => intro acc s h1 h2 h3; omega
  | succ n ih =>
    intro acc
    unfold dotsGo
    refine FT_bind 0 2 0 0 0 0 (FT_check hwf.ne_nil .Dot) ?_
      (by omega) (by omega) (by omega) (by omega) (by omega)
    intro b
    cases b
    · rw [if_neg (by decide)]
      exact FT_pure _ (fun s h1 h2 => trivial)
    · rw [if_pos rfl]
      refine FT_bind 0 66 0 1 0 0 (FT_advanceP hwf (fun _ => True) (fun s h1 hp => ⟨curTok_not_eof_pos hwf (fun he =>
          absurd (he.symm.trans (hp.2.mp rfl)) (by decide)), trivial⟩)) ?_ (by omega) (by omega)
        (by omega) (by omega) (by omega)
      intro t
      refine FT_bind 0 3 0 1 0 0 (FT_parseIdentifier hwf)
        (fun id => FT_liftIdx (ih _)) (by omega) (by omega) (by omega)
        (by omega) (by omega)

theorem FT_parseQualifiedPath {tk : Tokens} (hwf : StreamWF tk) (n : Nat) :
    FT tk n 2 (fun _ => True) (parseQualifiedPath n) 0 1 (fun _ _ => True) := by
  unfold parseQualifiedPath
  refine FT_bind 0 66 0 1 0 0 (FT_parseIdentifier hwf)
    (fun id => FT_conseq (FT_dotsGo hwf n [id]) (by omega) (fun s hp => trivial)
      (by omega) (by omega) (fun x s h => trivial)) (by omega) (by omega)
    (by omega) (by omega) (by omega)

theorem FT_parseImportPath {tk : Tokens} (hwf : StreamWF tk) (n : Nat) :
    FT tk n 3 (fun _ => True) (parseImportPath n) 0 1 (fun _ _ => True) := by
  unfold parseImportPath
  refine FT_bind 0 3 0 0 0 1 (FT_check hwf.ne_nil .StringSingle) ?_
    (by omega) (by omega) (by omega) (by omega) (by omega)
  intro b1
  refine FT_bind 0 3 0 0 0 1 (FT_check hwf.ne_nil .StringDouble) ?_
    (by omega) (by omega) (by omega) (by omega) (by omega)
  intro b2
  have hstr : FT tk n 3 (fun _ => True)
      (parseStringLiteral >>= fun s => pure (ImportPath.strPath s)) 0 1
      (fun _ _ => True) := by
    refine FT_bind 0 3 0 1 0 0 (FT_conseq (FT_parseStringLiteral hwf) (by omega)
      (fun s hp => trivial) (by omega) (by omega) (fun x s h => trivial))
      (fun x => FT_pure _ (fun s h1 h2 => trivial)) (by omega) (by omega)
      (by omega) (by omega) (by omega)
  have hqp : FT tk n 3 (fun _ => True)
      (parseQualifiedPath n >>= fun parts => pure (ImportPath.ids parts)) 0 1
      (fun _ _ => True) := by
    refine FT_bind 2 3 0 1 0 0 (FT_parseQualifiedPath hwf n)
      (fun x => FT_pure _ (fun s h1 h2 => trivial)) (by omega) (by omega)
      (by omega) (by omega) (by omega)
  cases b1 <;> cases b2 <;>
    simp only [Bool.or_true, Bool.true_or, Bool.or_false, Bool.false_or] <;>
    first
      | (rw [if_neg (by decide)];
         exact FT_conseq hqp (by omega) (fun s hp => trivial) (by omega)
           (by omega) (fun x s h => trivial))
      | (rw [if_pos (by decide)];
         exact FT_conseq hstr (by omega) (fun s hp => trivial) (by omega)
           (by omega) (fun x s h => trivial))

theorem FT_selectiveGo {tk : Tokens} (hwf : StreamWF tk) :
    ∀ n acc, FT tk n 2 (fun _ => True) (selectiveGo n acc) 0 0
      (fun _ _ => True) := by
  intro n
  induction n with
  | zero => intro acc s h1 h2 h3; omega
  | succ n ih =>
    intro acc
    unfold selectiveGo
    refine FT_bind 0 2 0 0 0 0 (FT_check hwf.ne_nil .Comma) ?_
      (by omega) (by omega) (by omega) (by omega) (by omega)
    intro b
    cases b
    · rw [if_neg (by decide)]
      exact FT_pure _ (fun s h1 h2 => trivial)
    · rw [if_pos rfl]
      refine FT_bind 0 66 0 1 0 0 (FT_advanceP hwf (fun _ => True) (fun s h1 hp => ⟨curTok_not_eof_pos hwf (fun he =>
          absurd (he.symm.trans (hp.2.mp rfl)) (by decide)), trivial⟩)) ?_ (by omega) (by omega)
        (by omega) (by omega) (by omega)
      intro t
      refine FT_bind 0 3 0 1 0 0 (FT_parseIdentifier hwf)
        (fun id => FT_liftIdx (ih _)) (by omega) (by omega) (by omega)
        (by omega) (by omega)




/-- Weaken a `(fun _ => True)`-precondition triple to any precondition and
trivial postcondition, raising the rank. -/
theorem FT_wkT {tk : Tokens} {n r r1 : Nat} {P1 : PSt → Prop} {m : PM α}
    {eo so eo1 so1 : Nat} {Q : α → PSt → Prop}
    (h : FT tk n r (fun _ => True) m eo so Q)
    (hr : r ≤ r1) (heo : eo1 ≤ eo) (hso : so1 ≤ so) :
    FT tk n r1 P1 m eo1 so1 (fun _ _ => True) :=
  FT_conseq h hr (fun s hp => trivial) heo hso (fun a s hq => trivial)

/-- `FT_wkT` combined with one fuel-index lift. -/
theorem FT_lift {tk : Tokens} {n r r1 : Nat} {P1 : PSt → Prop} {m : PM α}
    {eo so eo1 so1 : Nat} {Q : α → PSt → Prop}
    (h : FT tk n r (fun _ => True) m eo so Q)
    (hr : r + 1 ≤ r1) (heo : eo1 ≤ eo) (hso : so1 ≤ so) :
    FT tk (n + 1) r1 P1 m eo1 so1 (fun _ _ => True) :=
  FT_conseq (FT_liftIdx h) hr (fun s hp => trivial) heo hso
    (fun a s hq => trivial)

mutual

theorem FT_parseExpression {tk : Tokens} (hwf : StreamWF tk) :
    ∀ n, FT tk n 12 (fun _ => True) (parseExpression n) 0 1
      (fun _ _ => True)
  | 0 => fun s h1 h2 h3 => absurd h2 (by omega)
  | n + 1 => by
    unfold parseExpression
    exact FT_lift (FT_parsePostfix hwf n) (by omega) (by omega) (by omega)

theorem FT_parsePostfix {tk : Tokens} (hwf : StreamWF tk) :
    ∀ n, FT tk n 11 (fun _ => True) (parsePostfix n) 0 1
      (fun _ _ => True)
  | 0 => fun s h1 h2 h3 => absurd h2 (by omega)
  | n + 1 => by
    unfold parsePostfix
    refine FT_bind 11 21 0 1 0 0 (FT_lift (FT_parsePrimary hwf n) (by omega) (by omega) (by omega))
      (fun e => FT_lift (FT_postfixGo hwf n e) (by omega) (by omega) (by omega)) (by omega) (by omega)
      (by omega) (by omega) (by omega)

theorem FT_postfixGo {tk : Tokens} (hwf : StreamWF tk) :
    ∀ n e, FT tk n 20 (fun _ => True) (postfixGo n e) 0 0
      (fun _ _ => True)
  | 0, _ => fun s h1 h2 h3 => absurd h2 (by omega)
  | n + 1, e => by
    unfold postfixGo
    refine FT_bind 0 20 0 0 0 0 (FT_check hwf.ne_nil .Dot) ?_ (by omega)
      (by omega) (by omega) (by omega) (by omega)
    intro b1
    cases b1
    · rw [if_neg (by decide)]
      refine FT_bind 0 20 0 0 0 0 (FT_check hwf.ne_nil .LParen) ?_ (by omega)
        (by omega) (by omega) (by omega) (by omega)
      intro b2
      cases b2
      · rw [if_neg (by decide)]
        exact FT_pure _ (fun s h1 h2 => trivial)
      · rw [if_pos rfl]
        refine FT_bind 0 84 0 1 0 0
          (FT_advanceP hwf (fun _ => True) (fun s h1 hp =>
            ⟨curTok_not_eof_pos hwf (fun he =>
              absurd (he.symm.trans (hp.2.mp rfl)) (by decide)), trivial⟩))
          ?_ (by omega) (by omega) (by omega) (by omega) (by omega)
        intro t
        refine FT_bind 84 84 0 0 0 0
          (?_ : FT tk (n + 1) 84 _ _ 0 0 (fun _ _ => True)) ?_ (by omega)
          (by omega) (by omega) (by omega) (by omega)
        · refine FT_bind 0 84 0 0 0 0 (FT_check hwf.ne_nil .RParen) ?_
            (by omega) (by omega) (by omega) (by omega) (by omega)
          intro b3
          cases b3
          · rw [if_neg (by decide)]
            refine FT_bind 13 84 0 1 0 0 (FT_lift (FT_parseExpression hwf n) (by omega) (by omega) (by omega))
              (fun a => FT_lift (FT_argsGo hwf n [a]) (by omega) (by omega) (by omega)) (by omega) (by omega)
              (by omega) (by omega) (by omega)
          · rw [if_pos rfl]
            exact FT_pure _ (fun s h1 h2 => trivial)
        · intro args
          refine FT_bind 0 84 0 1 0 0 (FT_wkT (FT_expect hwf .RParen (by decide)) (by omega) (by omega) (by omega)) ?_
            (by omega) (by omega) (by omega) (by omega) (by omega)
          intro t2
          exact FT_lift (FT_postfixGo hwf n (.call e args)) (by omega) (by omega) (by omega)
    · rw [if_pos rfl]
      refine FT_bind 0 84 0 1 0 0
        (FT_advanceP hwf (fun _ => True) (fun s h1 hp =>
          ⟨curTok_not_eof_pos hwf (fun he =>
            absurd (he.symm.trans (hp.2.mp rfl)) (by decide)), trivial⟩))
        ?_ (by omega) (by omega) (by omega) (by omega) (by omega)
      intro t
      refine FT_bind 0 148 0 1 0 0 (FT_wkT (FT_parseIdentifier hwf) (by omega) (by omega) (by omega)) ?_ (by omega)
        (by omega) (by omega) (by omega) (by omega)
      intro m
      exact FT_lift (FT_postfixGo hwf n (.member e m)) (by omega) (by omega) (by omega)

theorem FT_argsGo {tk : Tokens} (hwf : StreamWF tk) :
    ∀ n acc, FT tk n 13 (fun _ => True) (argsGo n acc) 0 0
      (fun _ _ => True)
  | 0, _ => fun s h1 h2 h3 => absurd h2 (by omega)
  | n + 1, acc => by
    unfold argsGo
    refine FT_bind 0 13 0 0 0 0 (FT_check hwf.ne_nil .Comma) ?_ (by omega)
      (by omega) (by omega) (by omega) (by omega)
    intro b
    cases b
    · rw [if_neg (by decide)]
      exact FT_pure _ (fun s h1 h2 => trivial)
    · rw [if_pos rfl]
      refine FT_bind 0 77 0 1 0 0
        (FT_advanceP hwf (fun _ => True) (fun s h1 hp =>
          ⟨curTok_not_eof_pos hwf (fun he =>
            absurd (he.symm.trans (hp.2.mp rfl)) (by decide)), trivial⟩))
        ?_ (by omega) (by omega) (by omega) (by omega) (by omega)
      intro t
      refine FT_bind 13 141 0 1 0 0 (FT_lift (FT_parseExpression hwf n) (by omega) (by omega) (by omega))
        (fun a => FT_lift (FT_argsGo hwf n (acc ++ [a])) (by omega) (by omega) (by omega)) (by omega)
        (by omega) (by omega) (by omega) (by omega)

theorem FT_parsePrimary {tk : Tokens} (hwf : StreamWF tk) :
    ∀ n, FT tk n 10 (fun _ => True) (parsePrimary n) 0 1
      (fun _ _ => True)
  | 0 => fun s h1 h2 h3 => absurd h2 (by omega)
  | n + 1 => by
    unfold parsePrimary
    refine FT_bind 0 10 0 0 0 1 (FT_check hwf.ne_nil .Identifier) ?_ (by omega)
      (by omega) (by omega) (by omega) (by omega)
    intro b1
    cases b1
    · rw [if_neg (by decide)]
      refine FT_bind 0 10 0 0 0 1 (FT_check hwf.ne_nil .StringSingle) ?_
        (by omega) (by omega) (by omega) (by omega) (by omega)
      intro b2
      refine FT_bind 0 10 0 0 0 1 (FT_check hwf.ne_nil .StringDouble) ?_
        (by omega) (by omega) (by omega) (by omega) (by omega)
      intro b3
      have hstr : FT tk (n + 1) 10 (fun _ => True)
          (parseStringLiteral >>= fun s => pure (PExpr.str s)) 0 1
          (fun _ _ => True) := by
        refine FT_bind 0 74 0 1 0 0 (FT_wkT (FT_parseStringLiteral hwf) (by omega) (by omega) (by omega))
          (fun x => FT_pure _ (fun s h1 h2 => trivial)) (by omega) (by omega)
          (by omega) (by omega) (by omega)
      have hrest : FT tk (n + 1) 10 (fun _ => True)
          ((check .Number : PM Bool) >>= fun b4 =>
            if b4 = true then parseNumberLiteral >>= fun t => pure (PExpr.num t)
            else (check .True : PM Bool) >>= fun b5 =>
              if b5 = true then advance >>= fun _ => pure (PExpr.bool true)
              else (check .False : PM Bool) >>= fun b6 =>
                if b6 = true then advance >>= fun _ => pure (PExpr.bool false)
                else (check .LBracket : PM Bool) >>= fun b7 =>
                  if b7 = true then parseList n
                  else throwE "E003".toList) 0 1
          (fun _ _ => True) := by
        refine FT_bind 0 10 0 0 0 1 (FT_check hwf.ne_nil .Number) ?_ (by omega)
          (by omega) (by omega) (by omega) (by omega)
        intro b4
        cases b4
        · rw [if_neg (by decide)]
          refine FT_bind 0 10 0 0 0 1 (FT_check hwf.ne_nil .True) ?_ (by omega)
            (by omega) (by omega) (by omega) (by omega)
          intro b5
          cases b5
          · rw [if_neg (by decide)]
            refine FT_bind 0 10 0 0 0 1 (FT_check hwf.ne_nil .False) ?_
              (by omega) (by omega) (by omega) (by omega) (by omega)
            intro b6
            cases b6
            · rw [if_neg (by decide)]
              refine FT_bind 0 10 0 0 0 1 (FT_check hwf.ne_nil .LBracket) ?_
                (by omega) (by omega) (by omega) (by omega) (by omega)
              intro b7
              cases b7
              · rw [if_neg (by decide)]
                exact FT_throwE _
              · rw [if_pos rfl]
                exact FT_lift (FT_parseList hwf n) (by omega) (by omega) (by omega)
            · rw [if_pos rfl]
              refine FT_bind 0 74 0 1 0 0
                (FT_advanceP hwf (fun _ => True) (fun s h1 hp =>
                  ⟨curTok_not_eof_pos hwf (fun he =>
                    absurd (he.symm.trans (hp.2.mp rfl)) (by decide)),
                   trivial⟩))
                (fun _ => FT_pure _ (fun s h1 h2 => trivial)) (by omega)
                (by omega) (by omega) (by omega) (by omega)
          · rw [if_pos rfl]
            refine FT_bind 0 74 0 1 0 0
              (FT_advanceP hwf (fun _ => True) (fun s h1 hp =>
                ⟨curTok_not_eof_pos hwf (fun he =>
                  absurd (he.symm.trans (hp.2.mp rfl)) (by decide)),
                 trivial⟩))
              (fun _ => FT_pure _ (fun s h1 h2 => trivial)) (by omega)
              (by omega) (by omega) (by omega) (by omega)
        · rw [if_pos rfl]
          refine FT_bind 0 74 0 1 0 0 (FT_wkT (FT_parseNumberLiteral hwf) (by omega) (by omega) (by omega))
            (fun t => FT_pure _ (fun s h1 h2 => trivial)) (by omega) (by omega)
            (by omega) (by omega) (by omega)
      cases b2 <;> cases b3 <;>
        simp only [Bool.or_true, Bool.true_or, Bool.or_false, Bool.false_or] <;>
        first
          | (rw [if_neg (by decide)];
             exact FT_conseq hrest (by omega) (fun s hp => trivial) (by omega)
               (by omega) (fun x s h => trivial))
          | (rw [if_pos (by decide)];
             exact FT_conseq hstr (by omega) (fun s hp => trivial) (by omega)
               (by omega) (fun x s h => trivial))
    · rw [if_pos rfl]
      refine FT_bind 0 74 0 1 0 0 (FT_wkT (FT_parseIdentifier hwf) (by omega) (by omega) (by omega))
        (fun id => FT_pure _ (fun s h1 h2 => trivial)) (by omega) (by omega)
        (by omega) (by omega) (by omega)

theorem FT_parseList {tk : Tokens} (hwf : StreamWF tk) :
    ∀ n, FT tk n 9 (fun _ => True) (parseList n) 0 1
      (fun _ _ => True)
  | 0 => fun s h1 h2 h3 => absurd h2 (by omega)
  | n + 1 => by
    unfold parseList
    refine FT_bind 0 73 0 1 0 0 (FT_wkT (FT_expect hwf .LBracket (by decide)) (by omega) (by omega) (by omega)) ?_
      (by omega) (by omega) (by omega) (by omega) (by omega)
    intro t
    refine FT_bind 73 73 0 0 0 0
      (?_ : FT tk (n + 1) 73 _ _ 0 0 (fun _ _ => True)) ?_ (by omega)
      (by omega) (by omega) (by omega) (by omega)
    · refine FT_bind 0 73 0 0 0 0 (FT_check hwf.ne_nil .RBracket) ?_ (by omega)
        (by omega) (by omega) (by omega) (by omega)
      intro b
      cases b
      · rw [if_neg (by decide)]
        refine FT_bind 13 77 0 1 0 0 (FT_lift (FT_parseExpression hwf n) (by omega) (by omega) (by omega))
          (fun a => FT_lift (FT_listGo hwf n [a]) (by omega) (by omega) (by omega)) (by omega) (by omega)
          (by omega) (by omega) (by omega)
      · rw [if_pos rfl]
        exact FT_pure _ (fun s h1 h2 => trivial)
    · intro elems
      refine FT_bind 0 137 0 1 0 0 (FT_wkT (FT_expect hwf .RBracket (by decide)) (by omega) (by omega) (by omega))
        (fun t2 => FT_pure _ (fun s h1 h2 => trivial)) (by omega) (by omega)
        (by omega) (by omega) (by omega)

theorem FT_listGo {tk : Tokens} (hwf : StreamWF tk) :
    ∀ n acc, FT tk n 13 (fun _ => True) (listGo n acc) 0 0
      (fun _ _ => True)
  | 0, _ => fun s h1 h2 h3 => absurd h2 (by omega)
  | n + 1, acc => by
    unfold listGo
    refine FT_bind 0 13 0 0 0 0 (FT_check hwf.ne_nil .Comma) ?_ (by omega)
      (by omega) (by omega) (by omega) (by omega)
    intro b
    cases b
    · rw [if_neg (by decide)]
      exact FT_pure _ (fun s h1 h2 => trivial)
    · rw [if_pos rfl]
      refine FT_bind 0 77 0 1 0 0
        (FT_advanceP hwf (fun _ => True) (fun s h1 hp =>
          ⟨curTok_not_eof_pos hwf (fun he =>
            absurd (he.symm.trans (hp.2.mp rfl)) (by decide)), trivial⟩))
        ?_ (by omega) (by omega) (by omega) (by omega) (by omega)
      intro t
      refine FT_bind 0 77 0 0 0 0 (FT_check hwf.ne_nil .RBracket) ?_ (by omega)
        (by omega) (by omega) (by omega) (by omega)
      intro b2
      cases b2
      · rw [if_neg (by decide)]
        refine FT_bind 13 141 0 1 0 0 (FT_lift (FT_parseExpression hwf n) (by omega) (by omega) (by omega))
          (fun a => FT_lift (FT_listGo hwf n (acc ++ [a])) (by omega) (by omega) (by omega)) (by omega)
          (by omega) (by omega) (by omega) (by omega)
      · rw [if_pos rfl]
        exact FT_pure _ (fun s h1 h2 => trivial)

end




theorem FT_parseScope {tk : Tokens} (hwf : StreamWF tk) :
    ∀ n, FT tk n 15 (fun _ => True) (parseScope n) 0 1 (fun _ _ => True)
  | 0 => fun s h1 h2 h3 => absurd h2 (by omega)
  | n + 1 => by
    unfold parseScope
    refine FT_bind 0 79 0 1 0 1
      (FT_wkT (FT_expect hwf .Scope (by decide)) (by omega) (by omega)
        (by omega)) ?_ (by omega) (by omega) (by omega) (by omega) (by omega)
    intro t
    refine FT_bind 0 143 0 1 0 0
      (FT_wkT (FT_parseIdentifier hwf) (by omega) (by omega) (by omega)) ?_
      (by omega) (by omega) (by omega) (by omega) (by omega)
    intro name
    refine FT_bind 143 143 0 0 0 0
      (?_ : FT tk (n + 1) 143 _ _ 0 0 (fun _ _ => True)) ?_ (by omega)
      (by omega) (by omega) (by omega) (by omega)
    · -- language group
      refine FT_bind 0 143 0 0 0 0 (FT_check hwf.ne_nil .LAngle) ?_ (by omega)
        (by omega) (by omega) (by omega) (by omega)
      intro b1
      cases b1
      · rw [if_neg (by decide)]
        refine FT_bind 0 143 0 0 0 0 (FT_check hwf.ne_nil .Colon) ?_ (by omega)
          (by omega) (by omega) (by omega) (by omega)
        intro b2
        cases b2
        · rw [if_neg (by decide)]
          exact FT_pure _ (fun s h1 h2 => trivial)
        · rw [if_pos rfl]
          refine FT_bind 0 207 0 1 0 0
            (FT_advanceP hwf (fun _ => True) (fun s h1 hp =>
              ⟨curTok_not_eof_pos hwf (fun he =>
                absurd (he.symm.trans (hp.2.mp rfl)) (by decide)), trivial⟩))
            ?_ (by omega) (by omega) (by omega) (by omega) (by omega)
          intro t1
          refine FT_bind 0 271 0 1 0 0
            (FT_wkT (FT_parseIdentifier hwf) (by omega) (by omega) (by omega))
            (fun l => FT_pure _ (fun s h1 h2 => trivial)) (by omega) (by omega)
            (by omega) (by omega) (by omega)
      · rw [if_pos rfl]
        refine FT_bind 0 207 0 1 0 0
          (FT_advanceP hwf (fun _ => True) (fun s h1 hp =>
            ⟨curTok_not_eof_pos hwf (fun he =>
              absurd (he.symm.trans (hp.2.mp rfl)) (by decide)), trivial⟩))
          ?_ (by omega) (by omega) (by omega) (by omega) (by omega)
        intro t1
        refine FT_bind 0 271 0 1 0 0
          (FT_wkT (FT_parseIdentifier hwf) (by omega) (by omega) (by omega)) ?_
          (by omega) (by omega) (by omega) (by omega) (by omega)
        intro l
        refine FT_bind 0 335 0 1 0 0
          (FT_wkT (FT_expect hwf .RAngle (by decide)) (by omega) (by omega)
            (by omega))
          (fun t2 => FT_pure _ (fun s h1 h2 => trivial)) (by omega) (by omega)
          (by omega) (by omega) (by omega)
    · intro language
      refine FT_bind 143 143 0 0 0 0
        (?_ : FT tk (n + 1) 143 _ _ 0 0 (fun _ _ => True)) ?_ (by omega)
        (by omega) (by omega) (by omega) (by omega)
      · -- binds group
        refine FT_bind 0 143 0 0 0 0 (FT_check hwf.ne_nil .Binds) ?_ (by omega)
          (by omega) (by omega) (by omega) (by omega)
        intro b
        cases b
        · rw [if_neg (by decide)]
          exact FT_pure _ (fun s h1 h2 => trivial)
        · rw [if_pos rfl]
          refine FT_bind 0 207 0 1 0 0
            (FT_advanceP hwf (fun _ => True) (fun s h1 hp =>
              ⟨curTok_not_eof_pos hwf (fun he =>
                absurd (he.symm.trans (hp.2.mp rfl)) (by decide)), trivial⟩))
            ?_ (by omega) (by omega) (by omega) (by omega) (by omega)
          intro t1
          refine FT_bind 3 271 0 1 0 0
            (FT_lift (FT_parseQualifiedPath hwf n) (by omega) (by omega)
              (by omega))
            (fun p => FT_pure _ (fun s h1 h2 => trivial)) (by omega) (by omega)
            (by omega) (by omega) (by omega)
      · intro binds
        refine FT_bind 143 143 0 0 0 0
          (?_ : FT tk (n + 1) 143 _ _ 0 0 (fun _ _ => True)) ?_ (by omega)
          (by omega) (by omega) (by omega) (by omega)
        · -- expression group
          refine FT_bind 0 143 0 0 0 0 (FT_check hwf.ne_nil .Equals) ?_
            (by omega) (by omega) (by omega) (by omega) (by omega)
          intro b
          cases b
          · rw [if_neg (by decide)]
            exact FT_pure _ (fun s h1 h2 => trivial)
          · rw [if_pos rfl]
            refine FT_bind 0 207 0 1 0 0
              (FT_wkT (FT_expect hwf .Equals (by decide)) (by omega) (by omega)
                (by omega)) ?_ (by omega) (by omega) (by omega) (by omega)
              (by omega)
            intro t1
            refine FT_bind 13 271 0 1 0 0
              (FT_lift (FT_parseExpression hwf n) (by omega) (by omega)
                (by omega))
              (fun e => FT_pure _ (fun s h1 h2 => trivial)) (by omega)
              (by omega) (by omega) (by omega) (by omega)
        · intro expression
          refine FT_bind 0 143 0 0 0 0
            (FT_wkT (FT_expectNewline hwf) (by omega) (by omega) (by omega))
            (fun u => FT_pure _ (fun s h1 h2 => trivial)) (by omega) (by omega)
            (by omega) (by omega) (by omega)

theorem FT_parseRef {tk : Tokens} (hwf : StreamWF tk) :
    ∀ n, FT tk n 15 (fun _ => True) (parseRef n) 0 1 (fun _ _ => True)
  | 0 => fun s h1 h2 h3 => absurd h2 (by omega)
  | n + 1 => by
    unfold parseRef
    dsimp only
    refine FT_bind 0 15 0 0 0 1 (FT_check hwf.ne_nil .Ref) ?_ (by omega)
      (by omega) (by omega) (by omega) (by omega)
    intro b
    have hrest : FT tk (n + 1) 15 (fun _ => True)
        (do
          let name ← parseIdentifier
          _ ← expect .Colon
          let ta ← parseTypeAnnotation
          let binds ← (do
            if (← check .Binds) then do
              _ ← advance
              let p ← parseQualifiedPath n
              pure (some p)
            else pure none)
          let expression ← (do
            if (← check .Equals) then do
              _ ← expect .Equals
              let e ← parseExpression n
              pure (some e)
            else pure none)
          expectNewline
          pure (⟨name, ta, binds, expression⟩ : RefDecl)) 0 1
        (fun _ _ => True) := by
      refine FT_bind 0 79 0 1 0 0
        (FT_wkT (FT_parseIdentifier hwf) (by omega) (by omega) (by omega)) ?_
        (by omega) (by omega) (by omega) (by omega) (by omega)
      intro name
      refine FT_bind 0 143 0 1 0 0
        (FT_wkT (FT_expect hwf .Colon (by decide)) (by omega) (by omega)
          (by omega)) ?_ (by omega) (by omega) (by omega) (by omega) (by omega)
      intro t1
      refine FT_bind 0 207 0 1 0 0
        (FT_wkT ( FT_parseTypeAnnotation hwf) (by omega) (by omega) (by omega))
        ?_ (by omega) (by omega) (by omega) (by omega) (by omega)
      intro ta
      refine FT_bind 207 207 0 0 0 0
        (?_ : FT tk (n + 1) 207 _ _ 0 0 (fun _ _ => True)) ?_ (by omega)
        (by omega) (by omega) (by omega) (by omega)
      · refine FT_bind 0 207 0 0 0 0 (FT_check hwf.ne_nil .Binds) ?_ (by omega)
          (by omega) (by omega) (by omega) (by omega)
        intro b2
        cases b2
        · rw [if_neg (by decide)]
          exact FT_pure _ (fun s h1 h2 => trivial)
        · rw [if_pos rfl]
          refine FT_bind 0 271 0 1 0 0
            (FT_advanceP hwf (fun _ => True) (fun s h1 hp =>
              ⟨curTok_not_eof_pos hwf (fun he =>
                absurd (he.symm.trans (hp.2.mp rfl)) (by decide)), trivial⟩))
            ?_ (by omega) (by omega) (by omega) (by omega) (by omega)
          intro t2
          refine FT_bind 3 335 0 1 0 0
            (FT_lift (FT_parseQualifiedPath hwf n) (by omega) (by omega)
              (by omega))
            (fun p => FT_pure _ (fun s h1 h2 => trivial)) (by omega) (by omega)
            (by omega) (by omega) (by omega)
      · intro binds
        refine FT_bind 207 207 0 0 0 0
          (?_ : FT tk (n + 1) 207 _ _ 0 0 (fun _ _ => True)) ?_ (by omega)
          (by omega) (by omega) (by omega) (by omega)
        · refine FT_bind 0 207 0 0 0 0 (FT_check hwf.ne_nil .Equals) ?_
            (by omega) (by omega) (by omega) (by omega) (by omega)
          intro b3
          cases b3
          · rw [if_neg (by decide)]
            exact FT_pure _ (fun s h1 h2 => trivial)
          · rw [if_pos rfl]
            refine FT_bind 0 271 0 1 0 0
              (FT_wkT (FT_expect hwf .Equals (by decide)) (by omega) (by omega)
                (by omega)) ?_ (by omega) (by omega) (by omega) (by omega)
              (by omega)
            intro t2
            refine FT_bind 13 335 0 1 0 0
              (FT_lift (FT_parseExpression hwf n) (by omega) (by omega)
                (by omega))
              (fun e => FT_pure _ (fun s h1 h2 => trivial)) (by omega)
              (by omega) (by omega) (by omega) (by omega)
        · intro expression
          refine FT_bind 0 207 0 0 0 0
            (FT_wkT (FT_expectNewline hwf) (by omega) (by omega) (by omega))
            (fun u => FT_pure _ (fun s h1 h2 => trivial)) (by omega) (by omega)
            (by omega) (by omega) (by omega)
    cases b
    · rw [if_neg (by decide)]
      refine FT_bind 0 79 0 1 0 0
        (FT_wkT (FT_expect hwf .ConnectionPoint (by decide)) (by omega)
          (by omega) (by omega))
        (fun d => FT_wkT hrest (by omega) (by omega) (by omega)) (by omega)
        (by omega) (by omega) (by omega) (by omega)
    · rw [if_pos rfl]
      refine FT_bind 0 79 0 1 0 0
        (FT_advanceP hwf (fun _ => True) (fun s h1 hp =>
          ⟨curTok_not_eof_pos hwf (fun he =>
            absurd (he.symm.trans (hp.2.mp rfl)) (by decide)), trivial⟩))
        (fun d => FT_wkT hrest (by omega) (by omega) (by omega)) (by omega)
        (by omega) (by omega) (by omega) (by omega)

theorem FT_parseUses {tk : Tokens} (hwf : StreamWF tk) :
    ∀ n, FT tk n 15 (fun _ => True) (parseUses n) 0 1 (fun _ _ => True)
  | 0 => fun s h1 h2 h3 => absurd h2 (by omega)
  | n + 1 => by
    unfold parseUses
    dsimp only
    refine FT_bind 15 79 0 1 0 0
      (?_ : FT tk (n + 1) 15 (fun _ => True) _ 0 1 (fun _ _ => True)) ?_
      (by omega) (by omega) (by omega) (by omega) (by omega)
    · refine FT_bind 0 15 0 0 0 1 (FT_check hwf.ne_nil .Identifier) ?_
        (by omega) (by omega) (by omega) (by omega) (by omega)
      intro b
      cases b
      · rw [if_neg (by decide)]
        exact FT_throwE _
      · rw [if_pos rfl]
        exact FT_wkT (FT_parseIdentifier hwf) (by omega) (by omega) (by omega)
    · intro source
      refine FT_bind 0 143 0 1 0 0
        (FT_wkT (FT_expect hwf .Uses (by decide)) (by omega) (by omega)
          (by omega)) ?_ (by omega) (by omega) (by omega) (by omega) (by omega)
      intro t
      refine FT_bind 3 207 0 1 0 0
        (FT_lift (FT_parseQualifiedPath hwf n) (by omega) (by omega)
          (by omega)) ?_ (by omega) (by omega) (by omega) (by omega) (by omega)
      intro target
      refine FT_bind 0 207 0 0 0 0
        (FT_wkT (FT_expectNewline hwf) (by omega) (by omega) (by omega))
        (fun u => FT_pure _ (fun s h1 h2 => trivial)) (by omega) (by omega)
        (by omega) (by omega) (by omega)

theorem FT_parseCheck {tk : Tokens} (hwf : StreamWF tk) :
    ∀ n, FT tk n 15 (fun _ => True) (parseCheck n) 0 1 (fun _ _ => True)
  | 0 => fun s h1 h2 h3 => absurd h2 (by omega)
  | n + 1 => by
    unfold parseCheck
    refine FT_bind 0 79 0 1 0 1
      (FT_wkT (FT_expect hwf .Check (by decide)) (by omega) (by omega)
        (by omega)) ?_ (by omega) (by omega) (by omega) (by omega) (by omega)
    intro t
    refine FT_bind 13 143 0 1 0 0
      (FT_lift (FT_parseExpression hwf n) (by omega) (by omega) (by omega)) ?_
      (by omega) (by omega) (by omega) (by omega) (by omega)
    intro e
    refine FT_bind 0 143 0 0 0 0
      (FT_wkT (FT_expectNewline hwf) (by omega) (by omega) (by omega))
      (fun u => FT_pure _ (fun s h1 h2 => trivial)) (by omega) (by omega)
      (by omega) (by omega) (by omega)

theorem FT_connPatGo {tk : Tokens} (hwf : StreamWF tk) :
    ∀ n acc, FT tk n 2 (fun _ => True) (connPatGo n acc) 0 0
      (fun _ _ => True)
  | 0, _ => fun s h1 h2 h3 => absurd h2 (by omega)
  | n + 1, acc => by
    unfold connPatGo
    refine FT_bind 0 2 0 0 0 0 (FT_check hwf.ne_nil .Dot) ?_ (by omega)
      (by omega) (by omega) (by omega) (by omega)
    intro b
    cases b
    · rw [if_neg (by decide)]
      exact FT_pure _ (fun s h1 h2 => trivial)
    · rw [if_pos rfl]
      refine FT_bind 0 66 0 1 0 0
        (FT_advanceP hwf (fun _ => True) (fun s h1 hp =>
          ⟨curTok_not_eof_pos hwf (fun he =>
            absurd (he.symm.trans (hp.2.mp rfl)) (by decide)), trivial⟩))
        ?_ (by omega) (by omega) (by omega) (by omega) (by omega)
      intro t
      refine FT_bind 0 66 0 0 0 0 (FT_check hwf.ne_nil .Star) ?_ (by omega)
        (by omega) (by omega) (by omega) (by omega)
      intro b2
      cases b2
      · rw [if_neg (by decide)]
        refine FT_bind 0 66 0 0 0 0 (FT_check hwf.ne_nil .Identifier) ?_
          (by omega) (by omega) (by omega) (by omega) (by omega)
        intro b3
        cases b3
        · rw [if_neg (by decide)]
          exact FT_pure _ (fun s h1 h2 => trivial)
        · rw [if_pos rfl]
          refine FT_bind 0 130 0 1 0 0
            (FT_wkT (FT_parseIdentifier hwf) (by omega) (by omega) (by omega))
            (fun id => FT_lift (FT_connPatGo hwf n (acc ++ [id])) (by omega)
              (by omega) (by omega)) (by omega) (by omega) (by omega)
            (by omega) (by omega)
      · rw [if_pos rfl]
        refine FT_bind 0 130 0 1 0 0
          (FT_advanceP hwf (fun _ => True) (fun s h1 hp =>
            ⟨curTok_not_eof_pos hwf (fun he =>
              absurd (he.symm.trans (hp.2.mp rfl)) (by decide)), trivial⟩))
          (fun t2 => FT_pure _ (fun s h1 h2 => trivial)) (by omega) (by omega)
          (by omega) (by omega) (by omega)

theorem FT_parseConnectionPattern {tk : Tokens} (hwf : StreamWF tk) (n : Nat) :
    FT tk n 3 (fun _ => True) (parseConnectionPattern n) 0 1
      (fun _ _ => True) := by
  unfold parseConnectionPattern
  refine FT_bind 0 67 0 1 0 0
    (FT_wkT (FT_parseIdentifier hwf) (by omega) (by omega) (by omega)) ?_
    (by omega) (by omega) (by omega) (by omega) (by omega)
  intro id
  refine FT_bind 2 67 0 0 0 0
    (FT_wkT (FT_connPatGo hwf n [id]) (by omega) (by omega) (by omega))
    (fun pw => FT_pure _ (fun s h1 h2 => trivial)) (by omega) (by omega)
    (by omega) (by omega) (by omega)

theorem FT_parseConnCheckParam {tk : Tokens} (hwf : StreamWF tk) {n : Nat} :
    FT tk n 0 (fun _ => True) parseConnCheckParam 0 1 (fun _ _ => True) := by
  unfold parseConnCheckParam
  refine FT_bind 0 64 0 1 0 0
    (FT_wkT (FT_parseIdentifier hwf) (by omega) (by omega) (by omega)) ?_
    (by omega) (by omega) (by omega) (by omega) (by omega)
  intro name
  refine FT_bind 0 128 0 1 0 0
    (FT_wkT (FT_expect hwf .Colon (by decide)) (by omega) (by omega)
      (by omega)) ?_ (by omega) (by omega) (by omega) (by omega) (by omega)
  intro t1
  refine FT_bind 0 192 0 1 0 0
    (FT_wkT (FT_expect hwf .Scope (by decide)) (by omega) (by omega)
      (by omega)) ?_ (by omega) (by omega) (by omega) (by omega) (by omega)
  intro t2
  refine FT_bind 0 256 0 1 0 0
    (FT_wkT (FT_expect hwf .LBracket (by decide)) (by omega) (by omega)
      (by omega)) ?_ (by omega) (by omega) (by omega) (by omega) (by omega)
  intro t3
  refine FT_bind 0 320 0 1 0 0
    (FT_wkT (FT_expect hwf .RBracket (by decide)) (by omega) (by omega)
      (by omega))
    (fun t4 => FT_pure _ (fun s h1 h2 => trivial)) (by omega) (by omega)
    (by omega) (by omega) (by omega)

theorem FT_connParamsGo {tk : Tokens} (hwf : StreamWF tk) :
    ∀ n acc, FT tk n 2 (fun _ => True) (connParamsGo n acc) 0 0
      (fun _ _ => True)
  | 0, _ => fun s h1 h2 h3 => absurd h2 (by omega)
  | n + 1, acc => by
    unfold connParamsGo
    refine FT_bind 0 2 0 0 0 0 (FT_check hwf.ne_nil .Comma) ?_ (by omega)
      (by omega) (by omega) (by omega) (by omega)
    intro b
    cases b
    · rw [if_neg (by decide)]
      exact FT_pure _ (fun s h1 h2 => trivial)
    · rw [if_pos rfl]
      refine FT_bind 0 66 0 1 0 0
        (FT_advanceP hwf (fun _ => True) (fun s h1 hp =>
          ⟨curTok_not_eof_pos hwf (fun he =>
            absurd (he.symm.trans (hp.2.mp rfl)) (by decide)), trivial⟩))
        ?_ (by omega) (by omega) (by omega) (by omega) (by omega)
      intro t
      refine FT_bind 0 66 0 0 0 0 (FT_check hwf.ne_nil .RParen) ?_ (by omega)
        (by omega) (by omega) (by omega) (by omega)
      intro b2
      cases b2
      · rw [if_neg (by decide)]
        refine FT_bind 0 130 0 1 0 0
          (FT_wkT (FT_parseConnCheckParam hwf) (by omega) (by omega)
            (by omega))
          (fun p => FT_lift (FT_connParamsGo hwf n (acc ++ [p])) (by omega)
            (by omega) (by omega)) (by omega) (by omega) (by omega) (by omega)
          (by omega)
      · rw [if_pos rfl]
        exact FT_pure _ (fun s h1 h2 => trivial)

theorem FT_parseConnectionCheck {tk : Tokens} (hwf : StreamWF tk) :
    ∀ n, FT tk n 20 (fun _ => True) (parseConnectionCheck n) 0 1
      (fun _ _ => True)
  | 0 => fun s h1 h2 h3 => absurd h2 (by omega)
  | n + 1 => by
    unfold parseConnectionCheck
    refine FT_bind 0 84 0 1 0 1
      (FT_wkT (FT_expect hwf .ConnectionCheck (by decide)) (by omega)
        (by omega) (by omega)) ?_ (by omega) (by omega) (by omega) (by omega)
      (by omega)
    intro t1
    refine FT_bind 0 148 0 1 0 0
      (FT_wkT (FT_parseIdentifier hwf) (by omega) (by omega) (by omega)) ?_
      (by omega) (by omega) (by omega) (by omega) (by omega)
    intro name
    refine FT_bind 0 212 0 1 0 0
      (FT_wkT (FT_expect hwf .LParen (by decide)) (by omega) (by omega)
        (by omega)) ?_ (by omega) (by omega) (by omega) (by omega) (by omega)
    intro t2
    refine FT_bind 212 212 0 0 0 0
      (?_ : FT tk (n + 1) 212 _ _ 0 0 (fun _ _ => True)) ?_ (by omega)
      (by omega) (by omega) (by omega) (by omega)
    · refine FT_bind 0 212 0 0 0 0 (FT_check hwf.ne_nil .RParen) ?_ (by omega)
        (by omega) (by omega) (by omega) (by omega)
      intro b
      cases b
      · rw [if_neg (by decide)]
        refine FT_bind 0 276 0 1 0 0
          (FT_wkT (FT_parseConnCheckParam hwf) (by omega) (by omega)
            (by omega))
          (fun p => FT_lift (FT_connParamsGo hwf n [p]) (by omega) (by omega)
            (by omega)) (by omega) (by omega) (by omega) (by omega) (by omega)
      · rw [if_pos rfl]
        exact FT_pure _ (fun s h1 h2 => trivial)
    · intro parameters
      refine FT_bind 0 276 0 1 0 0
        (FT_wkT (FT_expect hwf .RParen (by decide)) (by omega) (by omega)
          (by omega)) ?_ (by omega) (by omega) (by omega) (by omega) (by omega)
      intro t3
      refine FT_bind 0 340 0 1 0 0
        (FT_wkT (FT_expect hwf .Colon (by decide)) (by omega) (by omega)
          (by omega)) ?_ (by omega) (by omega) (by omega) (by omega) (by omega)
      intro t4
      refine FT_bind 1 340 0 0 0 0
        (FT_lift (FT_skipNewlines hwf n) (by omega) (by omega) (by omega)) ?_
        (by omega) (by omega) (by omega) (by omega) (by omega)
      intro u1
      refine FT_bind 0 404 0 1 0 0
        (FT_wkT (FT_expect hwf .Indent (by decide)) (by omega) (by omega)
          (by omega)) ?_ (by omega) (by omega) (by omega) (by omega) (by omega)
      intro t5
      refine FT_bind 1 404 0 0 0 0
        (FT_lift (FT_skipNewlines hwf n) (by omega) (by omega) (by omega)) ?_
        (by omega) (by omega) (by omega) (by omega) (by omega)
      intro u2
      refine FT_bind 13 468 0 1 0 0
        (FT_lift (FT_parseExpression hwf n) (by omega) (by omega) (by omega))
        ?_ (by omega) (by omega) (by omega) (by omega) (by omega)
      intro body
      refine FT_bind 0 468 0 0 0 0
        (FT_wkT (FT_expectNewline hwf) (by omega) (by omega) (by omega)) ?_
        (by omega) (by omega) (by omega) (by omega) (by omega)
      intro u3
      refine FT_bind 1 468 0 0 0 0
        (FT_lift (FT_skipNewlines hwf n) (by omega) (by omega) (by omega)) ?_
        (by omega) (by omega) (by omega) (by omega) (by omega)
      intro u4
      refine FT_bind 0 468 0 0 0 0 (FT_check hwf.ne_nil .Dedent) ?_ (by omega)
        (by omega) (by omega) (by omega) (by omega)
      intro b2
      cases b2
      · rw [if_neg (by decide)]
        exact FT_pure _ (fun s h1 h2 => trivial)
      · rw [if_pos rfl]
        refine FT_bind 0 532 0 1 0 0
          (FT_advanceP hwf (fun _ => True) (fun s h1 hp =>
            ⟨curTok_not_eof_pos hwf (fun he =>
              absurd (he.symm.trans (hp.2.mp rfl)) (by decide)), trivial⟩))
          (fun t6 => FT_pure _ (fun s h1 h2 => trivial)) (by omega) (by omega)
          (by omega) (by omega) (by omega)

theorem FT_langBodyGo {tk : Tokens} (hwf : StreamWF tk) :
    ∀ n acc, FT tk n 22 (fun _ => True) (langBodyGo n acc) 0 0
      (fun _ _ => True)
  | 0, _ => fun s h1 h2 h3 => absurd h2 (by omega)
  | n + 1, acc => by
    unfold langBodyGo
    refine FT_bind 1 22 0 0 0 0
      (FT_lift (FT_skipNewlines hwf n) (by omega) (by omega) (by omega)) ?_
      (by omega) (by omega) (by omega) (by omega) (by omega)
    intro u1
    refine FT_bind 3 22 0 0 0 0
      (FT_lift (FT_parseDocComment hwf n) (by omega) (by omega) (by omega)) ?_
      (by omega) (by omega) (by omega) (by omega) (by omega)
    intro u2
    refine FT_bind 0 22 0 0 0 0 (FT_check hwf.ne_nil .Dedent) ?_ (by omega)
      (by omega) (by omega) (by omega) (by omega)
    intro b1
    refine FT_bind 0 22 0 0 0 0 (FT_isAtEnd hwf.ne_nil) ?_ (by omega)
      (by omega) (by omega) (by omega) (by omega)
    intro b2
    have hfalse : FT tk (n + 1) 22 (fun _ => True)
        ((check .ConnectionCheck : PM Bool) >>= fun b3 =>
          if b3 = true then
            parseConnectionCheck n >>= fun cc => langBodyGo n (acc ++ [cc])
          else throwE "E013".toList) 0 0 (fun _ _ => True) := by
      refine FT_bind 0 22 0 0 0 0 (FT_check hwf.ne_nil .ConnectionCheck) ?_
        (by omega) (by omega) (by omega) (by omega) (by omega)
      intro b3
      cases b3
      · rw [if_neg (by decide)]
        exact FT_throwE _
      · rw [if_pos rfl]
        refine FT_bind 21 86 0 1 0 0
          (FT_lift (FT_parseConnectionCheck hwf n) (by omega) (by omega)
            (by omega))
          (fun cc => FT_lift (FT_langBodyGo hwf n (acc ++ [cc])) (by omega)
            (by omega) (by omega)) (by omega) (by omega) (by omega) (by omega)
          (by omega)
    cases b1 <;> cases b2 <;>
      simp only [Bool.or_true, Bool.true_or, Bool.or_false, Bool.false_or] <;>
      first
        | (rw [if_neg (by decide)];
           exact FT_conseq hfalse (by omega) (fun s hp => trivial) (by omega)
             (by omega) (fun x s h => trivial))
        | (rw [if_pos (by decide)]; exact FT_pure _ (fun s h1 h2 => trivial))

theorem FT_parseLanguageDeclaration {tk : Tokens} (hwf : StreamWF tk) :
    ∀ n, FT tk n 24 (fun _ => True) (parseLanguageDeclaration n) 0 1
      (fun _ _ => True)
  | 0 => fun s h1 h2 h3 => absurd h2 (by omega)
  | n + 1 => by
    unfold parseLanguageDeclaration
    refine FT_bind 0 88 0 1 0 1
      (FT_wkT (FT_expect hwf .Language (by decide)) (by omega) (by omega)
        (by omega)) ?_ (by omega) (by omega) (by omega) (by omega) (by omega)
    intro t1
    refine FT_bind 0 152 0 1 0 0
      (FT_wkT (FT_parseIdentifier hwf) (by omega) (by omega) (by omega)) ?_
      (by omega) (by omega) (by omega) (by omega) (by omega)
    intro name
    refine FT_bind 0 152 0 0 0 0 (FT_check hwf.ne_nil .Colon) ?_ (by omega)
      (by omega) (by omega) (by omega) (by omega)
    intro b
    cases b
    · rw [if_neg (by decide)]
      refine FT_bind 0 152 0 0 0 0
        (FT_wkT (FT_expectNewline hwf) (by omega) (by omega) (by omega))
        (fun u => FT_pure _ (fun s h1 h2 => trivial)) (by omega) (by omega)
        (by omega) (by omega) (by omega)
    · rw [if_pos rfl]
      refine FT_bind 0 216 0 1 0 0
        (FT_advanceP hwf (fun _ => True) (fun s h1 hp =>
          ⟨curTok_not_eof_pos hwf (fun he =>
            absurd (he.symm.trans (hp.2.mp rfl)) (by decide)), trivial⟩))
        ?_ (by omega) (by omega) (by omega) (by omega) (by omega)
      intro t2
      refine FT_bind 1 216 0 0 0 0
        (FT_lift (FT_skipNewlines hwf n) (by omega) (by omega) (by omega)) ?_
        (by omega) (by omega) (by omega) (by omega) (by omega)
      intro u1
      refine FT_bind 0 280 0 1 0 0
        (FT_wkT (FT_expect hwf .Indent (by decide)) (by omega) (by omega)
          (by omega)) ?_ (by omega) (by omega) (by omega) (by omega) (by omega)
      intro t3
      refine FT_bind 23 280 0 0 0 0
        (FT_lift (FT_langBodyGo hwf n []) (by omega) (by omega) (by omega)) ?_
        (by omega) (by omega) (by omega) (by omega) (by omega)
      intro ccs
      refine FT_bind 0 280 0 0 0 0 (FT_check hwf.ne_nil .Dedent) ?_ (by omega)
        (by omega) (by omega) (by omega) (by omega)
      intro b2
      cases b2
      · rw [if_neg (by decide)]
        exact FT_pure _ (fun s h1 h2 => trivial)
      · rw [if_pos rfl]
        refine FT_bind 0 344 0 1 0 0
          (FT_advanceP hwf (fun _ => True) (fun s h1 hp =>
            ⟨curTok_not_eof_pos hwf (fun he =>
              absurd (he.symm.trans (hp.2.mp rfl)) (by decide)), trivial⟩))
          (fun t4 => FT_pure _ (fun s h1 h2 => trivial)) (by omega) (by omega)
          (by omega) (by omega) (by omega)

theorem FT_implGo {tk : Tokens} (hwf : StreamWF tk) :
    ∀ n acc, FT tk n 2 (fun _ => True) (implGo n acc) 0 1 (fun _ _ => True)
  | 0, _ => fun s h1 h2 h3 => absurd h2 (by omega)
  | n + 1, acc => by
    unfold implGo
    refine FT_bind 0 66 0 1 0 0
      (FT_wkT (FT_parseIdentifier hwf) (by omega) (by omega) (by omega)) ?_
      (by omega) (by omega) (by omega) (by omega) (by omega)
    intro id
    refine FT_bind 0 66 0 0 0 0 (FT_check hwf.ne_nil .Comma) ?_ (by omega)
      (by omega) (by omega) (by omega) (by omega)
    intro b
    cases b
    · rw [if_neg (by decide)]
      exact FT_pure _ (fun s h1 h2 => trivial)
    · rw [if_pos rfl]
      refine FT_bind 0 130 0 1 0 0
        (FT_advanceP hwf (fun _ => True) (fun s h1 hp =>
          ⟨curTok_not_eof_pos hwf (fun he =>
            absurd (he.symm.trans (hp.2.mp rfl)) (by decide)), trivial⟩))
        (fun t => FT_lift (FT_implGo hwf n (acc ++ [id])) (by omega) (by omega)
          (by omega)) (by omega) (by omega) (by omega) (by omega) (by omega)

theorem FT_parseImport {tk : Tokens} (hwf : StreamWF tk) :
    ∀ n, FT tk n 4
      (fun s => (curTok tk s.pos).kind = .Import ∨
        (curTok tk s.pos).kind = .From)
      (parseImport n) 1 1 (fun _ _ => True)
  | 0 => fun s h1 h2 h3 => absurd h2 (by omega)
  | n + 1 => by
    unfold parseImport
    refine FT_bind 0 4 1 0 1 1 (FT_check hwf.ne_nil .From) ?_ (by omega)
      (by omega) (by omega) (by omega) (by omega)
    intro b
    cases b
    · rw [if_neg (by decide)]
      refine FT_bind 0 68 1 1 0 0
        (FT_conseq (FT_expect_kind hwf .Import (by decide) 1) (by omega)
          (fun s hp => by
            rcases hp.1 with h | h
            · exact h
            · exact absurd (hp.2.mpr h) (by decide))
          (by omega) (by omega) (fun x s h => trivial)) ?_ (by omega)
        (by omega) (by omega) (by omega) (by omega)
      intro t
      refine FT_bind 4 132 0 1 0 0
        (FT_lift (FT_parseImportPath hwf n) (by omega) (by omega) (by omega))
        ?_ (by omega) (by omega) (by omega) (by omega) (by omega)
      intro path
      refine FT_bind 132 132 0 0 0 0
        (?_ : FT tk (n + 1) 132 _ _ 0 0 (fun _ _ => True)) ?_ (by omega)
        (by omega) (by omega) (by omega) (by omega)
      · refine FT_bind 0 132 0 0 0 0 (FT_check hwf.ne_nil .As) ?_ (by omega)
          (by omega) (by omega) (by omega) (by omega)
        intro b2
        cases b2
        · rw [if_neg (by decide)]
          exact FT_pure _ (fun s h1 h2 => trivial)
        · rw [if_pos rfl]
          refine FT_bind 0 196 0 1 0 0
            (FT_advanceP hwf (fun _ => True) (fun s h1 hp =>
              ⟨curTok_not_eof_pos hwf (fun he =>
                absurd (he.symm.trans (hp.2.mp rfl)) (by decide)), trivial⟩))
            ?_ (by omega) (by omega) (by omega) (by omega) (by omega)
          intro t2
          refine FT_bind 0 260 0 1 0 0
            (FT_wkT (FT_parseIdentifier hwf) (by omega) (by omega) (by omega))
            (fun id => FT_pure _ (fun s h1 h2 => trivial)) (by omega)
            (by omega) (by omega) (by omega) (by omega)
      · intro aliasName
        refine FT_bind 0 132 0 0 0 0
          (FT_wkT (FT_expectNewline hwf) (by omega) (by omega) (by omega))
          (fun u => FT_pure _ (fun s h1 h2 => trivial)) (by omega) (by omega)
          (by omega) (by omega) (by omega)
    · rw [if_pos rfl]
      refine FT_bind 0 68 1 1 0 0
        (FT_advanceP hwf (fun _ => True) (fun s h1 hp =>
          ⟨curTok_not_eof_pos hwf (fun he =>
            absurd (he.symm.trans (hp.2.mp rfl)) (by decide)), trivial⟩))
        ?_ (by omega) (by omega) (by omega) (by omega) (by omega)
      intro t
      refine FT_bind 4 132 0 1 0 0
        (FT_lift (FT_parseImportPath hwf n) (by omega) (by omega) (by omega))
        ?_ (by omega) (by omega) (by omega) (by omega) (by omega)
      intro path
      refine FT_bind 0 196 0 1 0 0
        (FT_wkT (FT_expect hwf .Import (by decide)) (by omega) (by omega)
          (by omega)) ?_ (by omega) (by omega) (by omega) (by omega) (by omega)
      intro t2
      refine FT_bind 0 260 0 1 0 0
        (FT_wkT (FT_parseIdentifier hwf) (by omega) (by omega) (by omega)) ?_
        (by omega) (by omega) (by omega) (by omega) (by omega)
      intro id
      refine FT_bind 3 260 0 0 0 0
        (FT_lift (FT_selectiveGo hwf n [id]) (by omega) (by omega) (by omega))
        ?_ (by omega) (by omega) (by omega) (by omega) (by omega)
      intro selective
      refine FT_bind 0 260 0 0 0 0
        (FT_wkT (FT_expectNewline hwf) (by omega) (by omega) (by omega))
        (fun u => FT_pure _ (fun s h1 h2 => trivial)) (by omega) (by omega)
        (by omega) (by omega) (by omega)




theorem getPos_eval (tk : Tokens) (s : PSt) : getPos tk s = .ok s.pos s := rfl

theorem setPos_eval (p : Nat) (tk : Tokens) (s : PSt) :
    setPos p tk s = .ok () { s with pos := p } := rfl

theorem throwE_eval (c : Str) (tk : Tokens) (s : PSt) :
    (throwE c : PM α) tk s = .err c s := rfl

theorem restore_err (p : Nat) (c : Str) (tk : Tokens) (s : PSt) :
    (setPos p >>= fun _ => (throwE c : PM α)) tk s =
      .err c ⟨p, s.diagnostics⟩ := rfl

/-- Apply a triple at an intermediate state, rebasing the position bounds to
an outer entry state. -/
theorem FT_rebase {tk : Tokens} {n r : Nat} {P : PSt → Prop} {m : PM α}
    {eo so : Nat} {Q : α → PSt → Prop}
    (h : FT tk n r P m eo so Q) (s0 : PSt) (bo be : Nat) (s : PSt)
    (h1 : s.pos ≤ tk.length) (h2 : 64 * (tk.length - s.pos) + r < n)
    (h3 : P s) (hbo : s0.pos + bo ≤ s.pos + so) (hbe : s0.pos + be ≤ s.pos + eo) :
    match m tk s with
    | .ok _ s1 => s1.pos ≤ tk.length ∧ s0.pos + bo ≤ s1.pos ∧ True
    | .err _ s1 => s1.pos ≤ tk.length ∧ s0.pos + be ≤ s1.pos
    | .panic => False
    | .fuel => False := by
  have hh := h s h1 h2 h3
  revert hh
  match m tk s with
  | .ok a s1 =>
    intro hh
    obtain ⟨x, y, -⟩ := hh
    exact ⟨x, by omega, trivial⟩
  | .err c s1 =>
    intro hh
    obtain ⟨x, y⟩ := hh
    exact ⟨x, by omega⟩
  | .panic => exact id
  | .fuel => exact id

theorem FT_parseTemplateBinding {tk : Tokens} (hwf : StreamWF tk) :
    ∀ n, FT tk n 15 (fun _ => True) (parseTemplateBinding n) 0 1
      (fun _ _ => True)
  | 0 => fun s h1 h2 h3 => absurd h2 (by omega)
  | n + 1 => by
    unfold parseTemplateBinding
    dsimp only
    intro s h1 h2 h3
    rw [bind_eval, getPos_eval]
    dsimp only
    rw [bind_eval]
    have htail : ∀ pth : List Str, FT tk (n + 1) 15 (fun _ => True)
        ((do
          let _ ← expect TokenKind.Equals
          let e ← parseExpression n
          expectNewline
          pure { path := pth, expression := e }) : PM TemplateBinding) 0 1
        (fun _ _ => True) := by
      intro pth
      refine FT_bind 0 79 0 1 0 0
        (FT_wkT (FT_expect hwf .Equals (by decide)) (by omega) (by omega)
          (by omega)) ?_ (by omega) (by omega) (by omega) (by omega) (by omega)
      intro t
      refine FT_bind 13 143 0 1 0 0
        (FT_lift (FT_parseExpression hwf n) (by omega) (by omega) (by omega))
        ?_ (by omega) (by omega) (by omega) (by omega) (by omega)
      intro e
      refine FT_bind 0 143 0 0 0 0
        (FT_wkT (FT_expectNewline hwf) (by omega) (by omega) (by omega))
        (fun u => FT_pure _ (fun s h1 h2 => trivial)) (by omega) (by omega)
        (by omega) (by omega) (by omega)
    have hid := (FT_parseIdentifier hwf : FT tk (n + 1) 0 (fun _ => True)
      parseIdentifier 0 1 (fun _ _ => True)) s h1 (by omega) trivial
    revert hid
    match hpid : parseIdentifier tk s with
    | PRes.err c s2 =>
      intro hid
      obtain ⟨x, y⟩ := hid
      exact ⟨x, by omega⟩
    | PRes.panic => exact id
    | PRes.fuel => exact id
    | PRes.ok id s2 =>
      intro hid
      obtain ⟨hA, hB, -⟩ := hid
      dsimp only
      rw [bind_eval, check_eq hwf.ne_nil]
      dsimp only
      cases hdot : (curTok tk s2.pos).kind == TokenKind.Dot
      · simp only [Bool.not_false]
        rw [if_pos trivial, restore_err]
        refine ⟨?_, ?_⟩
        · show s.pos ≤ tk.length
          omega
        · show s.pos + 0 ≤ s.pos
          omega
      · simp only [Bool.not_true]
        rw [if_neg (by decide), bind_eval]
        have hdg := FT_dotsGo hwf n [id] s2 hA (by omega) trivial
        revert hdg
        match hdg2 : dotsGo n [id] tk s2 with
        | PRes.err c s3 =>
          intro hdg
          obtain ⟨x, y⟩ := hdg
          exact ⟨x, by omega⟩
        | PRes.panic => exact fun h => h
        | PRes.fuel => exact fun h => h
        | PRes.ok pth s3 =>
          intro hdg
          obtain ⟨hA3, hB3, -⟩ := hdg
          dsimp only
          rw [bind_eval, check_eq hwf.ne_nil]
          dsimp only
          cases hd2 : decide (pth.length < 2) <;>
            cases heq : (curTok tk s3.pos).kind == TokenKind.Equals <;>
            simp only [Bool.not_true, Bool.not_false, Bool.or_true,
              Bool.true_or, Bool.or_false, Bool.false_or]
          · rw [if_pos trivial, restore_err]
            refine ⟨?_, ?_⟩
            · show s.pos ≤ tk.length
              omega
            · show s.pos + 0 ≤ s.pos
              omega
          · rw [if_neg (by decide)]
            exact FT_rebase (htail pth) s 1 0 s3 hA3 (by omega) trivial
              (by omega) (by omega)
          · rw [if_pos trivial, restore_err]
            refine ⟨?_, ?_⟩
            · show s.pos ≤ tk.length
              omega
            · show s.pos + 0 ≤ s.pos
              omega
          · rw [if_pos trivial, restore_err]
            refine ⟨?_, ?_⟩
            · show s.pos ≤ tk.length
              omega
            · show s.pos + 0 ≤ s.pos
              omega


end Hie.Par

namespace Hie.Par

/-- Case split on a `Bool`-conditional of two parser computations. -/
theorem FT_ite {tk : Tokens} {n r : Nat} {P : PSt → Prop} {eo so : Nat}
    {Q : α → PSt → Prop} (b : Bool) {m1 m2 : PM α}
    (h1 : b = true → FT tk n r P m1 eo so Q)
    (h2 : b = false → FT tk n r P m2 eo so Q) :
    FT tk n r P (if b = true then m1 else m2) eo so Q := by
  cases b
  · rw [if_neg (by decide)]
    exact h2 rfl
  · rw [if_pos rfl]
    exact h1 rfl

mutual

theorem FT_parseElementCtx {tk : Tokens} (hwf : StreamWF tk) :
    ∀ n docComment inTemplate,
      FT tk n 39 (fun s => (curTok tk s.pos).kind = .Element)
        (parseElementCtx n docComment inTemplate) 1 1 (fun _ _ => True)
  | 0, _, _ => fun s h1 h2 h3 => absurd h2 (by omega)
  | n + 1, docComment, it => by
    unfold parseElementCtx
    dsimp only
    refine FT_bind 0 103 1 1 0 0 (FT_expect_kind hwf .Element (by decide) 1)
      ?_ (by omega) (by omega) (by omega) (by omega) (by omega)
    intro t
    refine FT_bind 0 167 0 1 0 0
      (FT_wkT (FT_parseIdentifier hwf) (by omega) (by omega) (by omega)) ?_
      (by omega) (by omega) (by omega) (by omega) (by omega)
    intro name
    refine FT_bind 167 167 0 0 0 0
      (?_ : FT tk (n + 1) 167 _ _ 0 0 (fun _ _ => True)) ?_ (by omega)
      (by omega) (by omega) (by omega) (by omega)
    · -- implements group
      refine FT_bind 0 167 0 0 0 0 (FT_check hwf.ne_nil .Implements) ?_
        (by omega) (by omega) (by omega) (by omega) (by omega)
      intro b
      refine FT_ite b (fun hb => ?_) (fun hb => ?_)
      · refine FT_bind 0 231 0 1 0 0
          (FT_advanceP hwf (fun _ => True) (fun s h1 hp =>
            ⟨curTok_not_eof_pos hwf (fun he =>
              absurd (he.symm.trans (hp.2.mp hb)) (by decide)), trivial⟩))
          (fun d => FT_lift (FT_implGo hwf n []) (by omega) (by omega)
            (by omega)) (by omega) (by omega) (by omega) (by omega) (by omega)
      · exact FT_pure _ (fun s h1 h2 => trivial)
    · intro implements
      refine FT_bind 0 167 0 0 0 0 (FT_check hwf.ne_nil .LBrace) ?_ (by omega)
        (by omega) (by omega) (by omega) (by omega)
      intro ub
      have hrest2 : ∀ ub2 : Bool, FT tk (n + 1) 231 (fun _ => True)
          ((do
            let acc ← elemBodyGo n ub2 it ⟨[], [], [], [], [], []⟩
            if ub2 = true then
              if (← check .RBrace) then do
                _ ← advance
                pure ()
              else pure ()
            else
              if (← check .Dedent) then do
                _ ← advance
                pure ()
              else pure ()
            if !it && (acc.scopes.any (fun sd => sd.expression.isNone)) then
              throwE "E014".toList
            else if !it && (acc.refs.any (fun r => r.expression.isNone)) then
              throwE "E015".toList
            else
              pure (.mk docComment name implements acc.scopes acc.refs acc.uses
                acc.checks acc.templateBindings [] acc.children)) : PM PElement)
          0 0 (fun _ _ => True) := by
        intro ub2
        refine FT_bind 41 231 0 0 0 0
          (FT_lift (FT_elemBodyGo hwf n ub2 it ⟨[], [], [], [], [], []⟩)
            (by omega) (by omega) (by omega)) ?_ (by omega) (by omega)
          (by omega) (by omega) (by omega)
        intro acc
        have htail : FT tk (n + 1) 231 (fun _ => True)
            ((if !it && (acc.scopes.any (fun sd => sd.expression.isNone)) then
                throwE "E014".toList
              else if !it && (acc.refs.any (fun r => r.expression.isNone)) then
                throwE "E015".toList
              else
                pure (.mk docComment name implements acc.scopes acc.refs
                  acc.uses acc.checks acc.templateBindings []
                  acc.children)) : PM PElement) 0 0 (fun _ _ => True) := by
          refine FT_ite _ (fun hE => FT_throwE _) (fun hE => ?_)
          refine FT_ite _ (fun hE2 => FT_throwE _) (fun hE2 => ?_)
          exact FT_pure _ (fun s h1 h2 => trivial)
        refine FT_ite ub2 (fun hb2 => ?_) (fun hb2 => ?_)
        · refine FT_bind 0 231 0 0 0 0 (FT_check hwf.ne_nil .RBrace) ?_
            (by omega) (by omega) (by omega) (by omega) (by omega)
          intro b3
          refine FT_ite b3 (fun hb3 => ?_) (fun hb3 => ?_)
          · refine FT_bind 0 231 0 1 0 0
              (FT_advanceP hwf (fun _ => True) (fun s h1 hp =>
                ⟨curTok_not_eof_pos hwf (fun he =>
                  absurd (he.symm.trans (hp.2.mp hb3)) (by decide)),
                 trivial⟩))
              (fun d => FT_wkT htail (by omega) (by omega) (by omega))
              (by omega) (by omega) (by omega) (by omega) (by omega)
          · exact FT_wkT htail (by omega) (by omega) (by omega)
        · refine FT_bind 0 231 0 0 0 0 (FT_check hwf.ne_nil .Dedent) ?_
            (by omega) (by omega) (by omega) (by omega) (by omega)
          intro b3
          refine FT_ite b3 (fun hb3 => ?_) (fun hb3 => ?_)
          · refine FT_bind 0 231 0 1 0 0
              (FT_advanceP hwf (fun _ => True) (fun s h1 hp =>
                ⟨curTok_not_eof_pos hwf (fun he =>
                  absurd (he.symm.trans (hp.2.mp hb3)) (by decide)),
                 trivial⟩))
              (fun d => FT_wkT htail (by omega) (by omega) (by omega))
              (by omega) (by omega) (by omega) (by omega) (by omega)
          · exact FT_wkT htail (by omega) (by omega) (by omega)
      refine FT_ite ub (fun hb => ?_) (fun hb => ?_)
      · refine FT_bind 0 231 0 1 0 0
          (FT_advanceP hwf (fun _ => True) (fun s h1 hp =>
            ⟨curTok_not_eof_pos hwf (fun he =>
              absurd (he.symm.trans (hp.2.mp hb)) (by decide)), trivial⟩))
          ?_ (by omega) (by omega) (by omega) (by omega) (by omega)
        intro d
        refine FT_bind 1 231 0 0 0 0
          (FT_lift (FT_skipNewlinesAndIndents hwf n) (by omega) (by omega)
            (by omega))
          (fun u => ?_)
          (by omega) (by omega) (by omega) (by omega) (by omega)
        exact FT_wkT (hrest2 ub) (by omega) (by omega) (by omega)
      · refine FT_bind 0 231 0 1 0 0
          (FT_wkT (FT_expect hwf .Colon (by decide)) (by omega) (by omega)
            (by omega)) ?_ (by omega) (by omega) (by omega) (by omega)
          (by omega)
        intro d
        refine FT_bind 1 231 0 0 0 0
          (FT_lift (FT_skipNewlines hwf n) (by omega) (by omega) (by omega))
          ?_ (by omega) (by omega) (by omega) (by omega) (by omega)
        intro u
        refine FT_bind 0 231 0 1 0 0
          (FT_wkT (FT_expect hwf .Indent (by decide)) (by omega) (by omega)
            (by omega))
          (fun d2 => ?_)
          (by omega) (by omega) (by omega) (by omega) (by omega)
        exact FT_wkT (hrest2 ub) (by omega) (by omega) (by omega)

theorem FT_elemBodyGo {tk : Tokens} (hwf : StreamWF tk) :
    ∀ n ub it acc, FT tk n 40 (fun _ => True) (elemBodyGo n ub it acc) 0 0
      (fun _ _ => True)
  | 0, _, _, _ => fun s h1 h2 h3 => absurd h2 (by omega)
  | n + 1, ub, it, acc => by
    unfold elemBodyGo
    dsimp only
    have hrest : ∀ ub2 : Bool, FT tk (n + 1) 40 (fun _ => True)
        ((do
          let fin ← (do
            if ub2 = true then
              pure ((← check .RBrace) || (← isAtEnd))
            else pure ((← check .Dedent) || (← isAtEnd)))
          if fin = true then pure acc
          else do
            let childDoc ← parseDocComment n
            if (← check .Scope) then do
              let sd ← parseScope n
              elemBodyGo n ub2 it ⟨acc.scopes ++ [sd], acc.refs, acc.uses,
                acc.checks, acc.templateBindings, acc.children⟩
            else if (← check .Ref) || (← check .ConnectionPoint) then do
              let r ← parseRef n
              elemBodyGo n ub2 it ⟨acc.scopes, acc.refs ++ [r], acc.uses,
                acc.checks, acc.templateBindings, acc.children⟩
            else if (← check .Uses) then do
              let u ← parseUses n
              elemBodyGo n ub2 it ⟨acc.scopes, acc.refs, acc.uses ++ [u],
                acc.checks, acc.templateBindings, acc.children⟩
            else if (← check .Check) then do
              let c ← parseCheck n
              elemBodyGo n ub2 it ⟨acc.scopes, acc.refs, acc.uses,
                acc.checks ++ [c], acc.templateBindings, acc.children⟩
            else if (← check .Element) then do
              let child ← parseElementCtx n childDoc it
              elemBodyGo n ub2 it ⟨acc.scopes, acc.refs, acc.uses, acc.checks,
                acc.templateBindings, acc.children ++ [child]⟩
            else if (← check .Requires) || (← check .Allows) ||
                (← check .Forbids) then
              throwE "E012".toList
            else if (← check .Identifier) then do
              let pos0 ← getPos
              _ ← advance
              if (← check .Uses) then do
                _ ← setPos pos0
                let u ← parseUses n
                elemBodyGo n ub2 it ⟨acc.scopes, acc.refs, acc.uses ++ [u],
                  acc.checks, acc.templateBindings, acc.children⟩
              else if (← check .Dot) then do
                _ ← setPos pos0
                let b ← parseTemplateBinding n
                elemBodyGo n ub2 it ⟨acc.scopes, acc.refs, acc.uses,
                  acc.checks, acc.templateBindings ++ [b], acc.children⟩
              else do
                _ ← setPos pos0
                throwE "E002".toList
            else do
              let fin2 ← (do
                if ub2 = true then pure (← check .RBrace)
                else pure (← check .Dedent))
              if fin2 || (← isAtEnd) then pure acc
              else throwE "E002".toList) : PM ElemAcc) 0 0
        (fun _ _ => True) := by
      intro ub2
      refine FT_bind 40 40 0 0 0 0
        (?_ : FT tk (n + 1) 40 _ _ 0 0 (fun _ _ => True)) ?_ (by omega)
        (by omega) (by omega) (by omega) (by omega)
      · -- fin group
        refine FT_ite ub2 (fun hb => ?_) (fun hb => ?_)
        · refine FT_bind 0 40 0 0 0 0 (FT_check hwf.ne_nil .RBrace) ?_
            (by omega) (by omega) (by omega) (by omega) (by omega)
          intro a1
          refine FT_bind 0 40 0 0 0 0 (FT_isAtEnd hwf.ne_nil) ?_ (by omega)
            (by omega) (by omega) (by omega) (by omega)
          intro a2
          exact FT_pure _ (fun s h1 h2 => trivial)
        · refine FT_bind 0 40 0 0 0 0 (FT_check hwf.ne_nil .Dedent) ?_
            (by omega) (by omega) (by omega) (by omega) (by omega)
          intro a1
          refine FT_bind 0 40 0 0 0 0 (FT_isAtEnd hwf.ne_nil) ?_ (by omega)
            (by omega) (by omega) (by omega) (by omega)
          intro a2
          exact FT_pure _ (fun s h1 h2 => trivial)
      · intro fin
        refine FT_ite fin (fun hf => FT_pure _ (fun s h1 h2 => trivial))
          (fun hf => ?_)
        refine FT_bind 3 40 0 0 0 0
          (FT_lift (FT_parseDocComment hwf n) (by omega) (by omega)
            (by omega)) ?_ (by omega) (by omega) (by omega) (by omega)
          (by omega)
        intro childDoc
        refine FT_bind 0 40 0 0 0 0 (FT_check hwf.ne_nil .Scope) ?_ (by omega)
          (by omega) (by omega) (by omega) (by omega)
        intro b1
        refine FT_ite b1 (fun hb1 => ?_) (fun hb1 => ?_)
        · refine FT_bind 16 104 0 1 0 0
            (FT_lift (FT_parseScope hwf n) (by omega) (by omega) (by omega))
            (fun sd => FT_lift (FT_elemBodyGo hwf n ub2 it _) (by omega)
              (by omega) (by omega)) (by omega) (by omega) (by omega)
            (by omega) (by omega)
        · refine FT_bind 0 40 0 0 0 0 (FT_check hwf.ne_nil .Ref) ?_ (by omega)
            (by omega) (by omega) (by omega) (by omega)
          intro b2
          refine FT_bind 0 40 0 0 0 0 (FT_check hwf.ne_nil .ConnectionPoint)
            ?_ (by omega) (by omega) (by omega) (by omega) (by omega)
          intro b3
          refine FT_ite _ (fun hb23 => ?_) (fun hb23 => ?_)
          · refine FT_bind 16 104 0 1 0 0
              (FT_lift (FT_parseRef hwf n) (by omega) (by omega) (by omega))
              (fun r => FT_lift (FT_elemBodyGo hwf n ub2 it _) (by omega)
                (by omega) (by omega)) (by omega) (by omega) (by omega)
              (by omega) (by omega)
          · refine FT_bind 0 40 0 0 0 0 (FT_check hwf.ne_nil .Uses) ?_
              (by omega) (by omega) (by omega) (by omega) (by omega)
            intro b4
            refine FT_ite b4 (fun hb4 => ?_) (fun hb4 => ?_)
            · refine FT_bind 16 104 0 1 0 0
                (FT_lift (FT_parseUses hwf n) (by omega) (by omega)
                  (by omega))
                (fun u => FT_lift (FT_elemBodyGo hwf n ub2 it _) (by omega)
                  (by omega) (by omega)) (by omega) (by omega) (by omega)
                (by omega) (by omega)
            · refine FT_bind 0 40 0 0 0 0 (FT_check hwf.ne_nil .Check) ?_
                (by omega) (by omega) (by omega) (by omega) (by omega)
              intro b5
              refine FT_ite b5 (fun hb5 => ?_) (fun hb5 => ?_)
              · refine FT_bind 16 104 0 1 0 0
                  (FT_lift (FT_parseCheck hwf n) (by omega) (by omega)
                    (by omega))
                  (fun c => FT_lift (FT_elemBodyGo hwf n ub2 it _) (by omega)
                    (by omega) (by omega)) (by omega) (by omega) (by omega)
                  (by omega) (by omega)
              · refine FT_bind 0 40 0 0 0 0 (FT_check hwf.ne_nil .Element) ?_
                  (by omega) (by omega) (by omega) (by omega) (by omega)
                intro b6
                refine FT_ite b6 (fun hb6 => ?_) (fun hb6 => ?_)
                · refine FT_bind 40 104 1 1 0 0
                    (FT_conseq (FT_liftIdx
                        (FT_parseElementCtx hwf n childDoc it))
                      (by omega) (fun s hp => hp.2.mp hb6) (by omega)
                      (by omega) (fun x s h => trivial))
                    (fun child => FT_lift (FT_elemBodyGo hwf n ub2 it _)
                      (by omega) (by omega) (by omega)) (by omega) (by omega)
                    (by omega) (by omega) (by omega)
                · refine FT_bind 0 40 0 0 0 0 (FT_check hwf.ne_nil .Requires)
                    ?_ (by omega) (by omega) (by omega) (by omega) (by omega)
                  intro b7
                  refine FT_bind 0 40 0 0 0 0 (FT_check hwf.ne_nil .Allows)
                    ?_ (by omega) (by omega) (by omega) (by omega) (by omega)
                  intro b8
                  refine FT_bind 0 40 0 0 0 0 (FT_check hwf.ne_nil .Forbids)
                    ?_ (by omega) (by omega) (by omega) (by omega) (by omega)
                  intro b9
                  refine FT_ite _ (fun hb789 => FT_throwE _) (fun hb789 => ?_)
                  refine FT_bind 0 40 0 0 0 0
                    (FT_check hwf.ne_nil .Identifier) ?_ (by omega) (by omega)
                    (by omega) (by omega) (by omega)
                  intro b10
                  refine FT_ite b10 (fun hb10 => ?_) (fun hb10 => ?_)
                  · -- identifier branch with restores: direct proof
                    refine FT_conseq
                      (?_ : FT tk (n + 1) 40
                        (fun s => (curTok tk s.pos).kind = .Identifier) _ 0 0
                        (fun _ _ => True))
                      (le_refl _) (fun s hp => hp.2.mp hb10) (le_refl _)
                      (le_refl _) (fun x s h => trivial)
                    intro s2 hA2 hthr2 hcur
                    rw [bind_eval, getPos_eval]
                    dsimp only
                    have hlt2 : s2.pos < tk.length - 1 :=
                      curTok_not_eof_pos hwf (fun he =>
                        absurd (he.symm.trans hcur) (by decide))
                    rw [bind_eval, advance_eq hwf s2 hlt2]
                    dsimp only
                    rw [bind_eval, check_eq hwf.ne_nil]
                    dsimp only
                    cases hu : (curTok tk (s2.pos + 1)).kind == TokenKind.Uses
                    · rw [if_neg (by decide), bind_eval, check_eq hwf.ne_nil]
                      dsimp only
                      cases hdot : (curTok tk (s2.pos + 1)).kind ==
                          TokenKind.Dot
                      · rw [if_neg (by decide), restore_err]
                        refine ⟨?_, ?_⟩
                        · show s2.pos ≤ tk.length
                          omega
                        · show s2.pos + 0 ≤ s2.pos
                          omega
                      · rw [if_pos rfl, bind_eval, setPos_eval]
                        dsimp only
                        rw [bind_eval]
                        have htb := FT_parseTemplateBinding hwf n
                          (⟨s2.pos, s2.diagnostics⟩ : PSt)
                          (show s2.pos ≤ tk.length by omega)
                          (show 64 * (tk.length - s2.pos) + 15 < n by omega)
                          trivial
                        revert htb
                        match hres : parseTemplateBinding n tk
                            (⟨s2.pos, s2.diagnostics⟩ : PSt) with
                        | PRes.err c s5 =>
                          intro htb
                          obtain ⟨x, y⟩ := htb
                          refine ⟨x, ?_⟩
                          have y2 : s2.pos + 0 ≤ s5.pos := y
                          omega
                        | PRes.panic => exact fun h => h
                        | PRes.fuel => exact fun h => h
                        | PRes.ok b s5 =>
                          intro htb
                          obtain ⟨hA5, hB5, -⟩ := htb
                          dsimp only
                          have hB5b : s2.pos + 1 ≤ s5.pos := hB5
                          exact FT_rebase (FT_elemBodyGo hwf n ub2 it _) s2 0 0
                            s5 hA5 (by omega) trivial (by omega) (by omega)
                    · rw [if_pos rfl, bind_eval, setPos_eval]
                      dsimp only
                      rw [bind_eval]
                      have hus := FT_parseUses hwf n
                        (⟨s2.pos, s2.diagnostics⟩ : PSt)
                        (show s2.pos ≤ tk.length by omega)
                        (show 64 * (tk.length - s2.pos) + 15 < n by omega)
                        trivial
                      revert hus
                      match hres : parseUses n tk
                          (⟨s2.pos, s2.diagnostics⟩ : PSt) with
                      | PRes.err c s5 =>
                        intro hus
                        obtain ⟨x, y⟩ := hus
                        refine ⟨x, ?_⟩
                        have y2 : s2.pos + 0 ≤ s5.pos := y
                        omega
                      | PRes.panic => exact fun h => h
                      | PRes.fuel => exact fun h => h
                      | PRes.ok u s5 =>
                        intro hus
                        obtain ⟨hA5, hB5, -⟩ := hus
                        dsimp only
                        have hB5b : s2.pos + 1 ≤ s5.pos := hB5
                        exact FT_rebase (FT_elemBodyGo hwf n ub2 it _) s2 0 0
                          s5 hA5 (by omega) trivial (by omega) (by omega)
                  · -- fin2 / end branch
                    refine FT_bind 40 40 0 0 0 0
                      (?_ : FT tk (n + 1) 40 _ _ 0 0 (fun _ _ => True)) ?_
                      (by omega) (by omega) (by omega) (by omega) (by omega)
                    · refine FT_ite ub2 (fun hb => ?_) (fun hb => ?_)
                      · refine FT_bind 0 40 0 0 0 0
                          (FT_check hwf.ne_nil .RBrace) ?_ (by omega)
                          (by omega) (by omega) (by omega) (by omega)
                        intro a1
                        exact FT_pure _ (fun s h1 h2 => trivial)
                      · refine FT_bind 0 40 0 0 0 0
                          (FT_check hwf.ne_nil .Dedent) ?_ (by omega)
                          (by omega) (by omega) (by omega) (by omega)
                        intro a1
                        exact FT_pure _ (fun s h1 h2 => trivial)
                    · intro fin2
                      refine FT_bind 0 40 0 0 0 0 (FT_isAtEnd hwf.ne_nil) ?_
                        (by omega) (by omega) (by omega) (by omega) (by omega)
                      intro c1
                      refine FT_ite _
                        (fun hfe => FT_pure _ (fun s h1 h2 => trivial))
                        (fun hfe => FT_throwE _)
    refine FT_ite ub (fun hb => ?_) (fun hb => ?_)
    · refine FT_bind 1 40 0 0 0 0
        (FT_lift (FT_skipNewlinesAndIndents hwf n) (by omega) (by omega)
          (by omega))
        (fun u => ?_)
        (by omega) (by omega) (by omega) (by omega) (by omega)
      exact FT_wkT (hrest ub) (by omega) (by omega) (by omega)
    · refine FT_bind 1 40 0 0 0 0
        (FT_lift (FT_skipNewlines hwf n) (by omega) (by omega) (by omega))
        (fun u => ?_)
        (by omega) (by omega) (by omega) (by omega) (by omega)
      exact FT_wkT (hrest ub) (by omega) (by omega) (by omega)

end

end Hie.Par

namespace Hie.Par

/-- Restoring the position and returning a value succeeds at the restored
position. -/
theorem restore_ok (p : Nat) (a : α) (tk : Tokens) (s : PSt) :
    (setPos p >>= fun _ => (pure a : PM α)) tk s =
      .ok a ⟨p, s.diagnostics⟩ := rfl

theorem FT_ecsBodyGo {tk : Tokens} (hwf : StreamWF tk) :
    ∀ n acc, FT tk n 41 (fun _ => True) (ecsBodyGo n acc) 0 0
      (fun _ _ => True)
  | 0, _ => fun s h1 h2 h3 => absurd h2 (by omega)
  | n + 1, acc => by
    unfold ecsBodyGo
    dsimp only
    refine FT_bind 1 41 0 0 0 0
      (FT_lift (FT_skipNewlines hwf n) (by omega) (by omega) (by omega)) ?_
      (by omega) (by omega) (by omega) (by omega) (by omega)
    intro u
    refine FT_bind 0 41 0 0 0 0 (FT_check hwf.ne_nil .Dedent) ?_ (by omega)
      (by omega) (by omega) (by omega) (by omega)
    intro b1
    refine FT_bind 0 41 0 0 0 0 (FT_isAtEnd hwf.ne_nil) ?_ (by omega)
      (by omega) (by omega) (by omega) (by omega)
    intro b2
    refine FT_ite _ (fun hf => FT_pure _ (fun s h1 h2 => trivial))
      (fun hf => ?_)
    refine FT_bind 3 41 0 0 0 0
      (FT_lift (FT_parseDocComment hwf n) (by omega) (by omega) (by omega))
      ?_ (by omega) (by omega) (by omega) (by omega) (by omega)
    intro childDoc
    refine FT_bind 0 41 0 0 0 0 (FT_check hwf.ne_nil .Scope) ?_ (by omega)
      (by omega) (by omega) (by omega) (by omega)
    intro b3
    refine FT_ite b3 (fun hb3 => ?_) (fun hb3 => ?_)
    · refine FT_bind 16 105 0 1 0 0
        (FT_lift (FT_parseScope hwf n) (by omega) (by omega) (by omega))
        (fun sd => FT_lift (FT_ecsBodyGo hwf n _) (by omega) (by omega)
          (by omega)) (by omega) (by omega) (by omega) (by omega) (by omega)
    · refine FT_bind 0 41 0 0 0 0 (FT_check hwf.ne_nil .Ref) ?_ (by omega)
        (by omega) (by omega) (by omega) (by omega)
      intro b4
      refine FT_bind 0 41 0 0 0 0 (FT_check hwf.ne_nil .ConnectionPoint) ?_
        (by omega) (by omega) (by omega) (by omega) (by omega)
      intro b5
      refine FT_ite _ (fun hb45 => ?_) (fun hb45 => ?_)
      · refine FT_bind 16 105 0 1 0 0
          (FT_lift (FT_parseRef hwf n) (by omega) (by omega) (by omega))
          (fun r => FT_lift (FT_ecsBodyGo hwf n _) (by omega) (by omega)
            (by omega)) (by omega) (by omega) (by omega) (by omega)
          (by omega)
      · refine FT_bind 0 41 0 0 0 0 (FT_check hwf.ne_nil .Check) ?_
          (by omega) (by omega) (by omega) (by omega) (by omega)
        intro b6
        refine FT_ite b6 (fun hb6 => ?_) (fun hb6 => ?_)
        · refine FT_bind 16 105 0 1 0 0
            (FT_lift (FT_parseCheck hwf n) (by omega) (by omega) (by omega))
            (fun c => FT_lift (FT_ecsBodyGo hwf n _) (by omega) (by omega)
              (by omega)) (by omega) (by omega) (by omega) (by omega)
            (by omega)
        · refine FT_bind 0 41 0 0 0 0 (FT_check hwf.ne_nil .Element) ?_
            (by omega) (by omega) (by omega) (by omega) (by omega)
          intro b7
          refine FT_ite b7 (fun hb7 => ?_) (fun hb7 => ?_)
          · refine FT_bind 40 105 1 1 0 0
              (FT_conseq (FT_liftIdx (FT_parseElementCtx hwf n childDoc
                  false))
                (by omega) (fun s hp => hp.2.mp hb7) (by omega) (by omega)
                (fun x s h => trivial))
              (fun child => FT_lift (FT_ecsBodyGo hwf n _) (by omega)
                (by omega) (by omega)) (by omega) (by omega) (by omega)
              (by omega) (by omega)
          · refine FT_bind 0 41 0 0 0 0 (FT_check hwf.ne_nil .Requires) ?_
              (by omega) (by omega) (by omega) (by omega) (by omega)
            intro b8
            refine FT_bind 0 41 0 0 0 0 (FT_check hwf.ne_nil .Allows) ?_
              (by omega) (by omega) (by omega) (by omega) (by omega)
            intro b9
            refine FT_bind 0 41 0 0 0 0 (FT_check hwf.ne_nil .Forbids) ?_
              (by omega) (by omega) (by omega) (by omega) (by omega)
            intro b10
            refine FT_ite _ (fun hb => FT_throwE _)
              (fun hb => FT_pure _ (fun s h1 h2 => trivial))

theorem FT_parseRefComponentSpec {tk : Tokens} (hwf : StreamWF tk) :
    ∀ n, FT tk n 20 (fun s => ¬ (curTok tk s.pos).kind = .Eof)
      (parseRefComponentSpec n) 0 1 (fun _ _ => True)
  | 0 => fun s h1 h2 h3 => absurd h2 (by omega)
  | n + 1 => by
    unfold parseRefComponentSpec
    dsimp only
    refine FT_bind 0 84 0 1 0 0
      (FT_advanceP hwf (fun _ => True) (fun s h1 hp =>
        ⟨curTok_not_eof_pos hwf hp, trivial⟩)) ?_ (by omega) (by omega)
      (by omega) (by omega) (by omega)
    intro t
    refine FT_bind 0 148 0 1 0 0
      (FT_wkT (FT_parseIdentifier hwf) (by omega) (by omega) (by omega)) ?_
      (by omega) (by omega) (by omega) (by omega) (by omega)
    intro name
    refine FT_bind 0 212 0 1 0 0
      (FT_wkT (FT_expect hwf .Colon (by decide)) (by omega) (by omega)
        (by omega)) ?_ (by omega) (by omega) (by omega) (by omega) (by omega)
    intro t2
    refine FT_bind 0 276 0 1 0 0
      (FT_wkT ( FT_parseTypeAnnotation hwf) (by omega) (by omega) (by omega))
      ?_ (by omega) (by omega) (by omega) (by omega) (by omega)
    intro ta
    refine FT_bind 276 276 0 0 0 0
      (?_ : FT tk (n + 1) 276 _ _ 0 0 (fun _ _ => True)) ?_ (by omega)
      (by omega) (by omega) (by omega) (by omega)
    · refine FT_bind 0 276 0 0 0 0 (FT_check hwf.ne_nil .Equals) ?_
        (by omega) (by omega) (by omega) (by omega) (by omega)
      intro b
      refine FT_ite b (fun hb => ?_) (fun hb => ?_)
      · refine FT_bind 0 340 0 1 0 0
          (FT_advanceP hwf (fun _ => True) (fun s h1 hp =>
            ⟨curTok_not_eof_pos hwf (fun he =>
              absurd (he.symm.trans (hp.2.mp hb)) (by decide)), trivial⟩))
          ?_ (by omega) (by omega) (by omega) (by omega) (by omega)
        intro d
        refine FT_bind 13 404 0 1 0 0
          (FT_lift (FT_parseExpression hwf n) (by omega) (by omega)
            (by omega))
          (fun e => FT_pure _ (fun s h1 h2 => trivial)) (by omega) (by omega)
          (by omega) (by omega) (by omega)
      · exact FT_pure _ (fun s h1 h2 => trivial)
    · intro expression
      refine FT_bind 0 276 0 0 0 0
        (FT_wkT (FT_expectNewline hwf) (by omega) (by omega) (by omega))
        (fun u => FT_pure _ (fun s h1 h2 => trivial)) (by omega) (by omega)
        (by omega) (by omega) (by omega)

theorem FT_parseElementComponentSpec {tk : Tokens} (hwf : StreamWF tk) :
    ∀ n, FT tk n 20 (fun s => ¬ (curTok tk s.pos).kind = .Eof)
      (parseElementComponentSpec n) 0 1 (fun _ _ => True)
  | 0 => fun s h1 h2 h3 => absurd h2 (by omega)
  | n + 1 => by
    unfold parseElementComponentSpec
    dsimp only
    refine FT_bind 0 84 0 1 0 0
      (FT_advanceP hwf (fun _ => True) (fun s h1 hp =>
        ⟨curTok_not_eof_pos hwf hp, trivial⟩)) ?_ (by omega) (by omega)
      (by omega) (by omega) (by omega)
    intro t
    refine FT_bind 0 148 0 1 0 0
      (FT_wkT (FT_parseIdentifier hwf) (by omega) (by omega) (by omega)) ?_
      (by omega) (by omega) (by omega) (by omega) (by omega)
    intro name
    refine FT_bind 148 148 0 0 0 0
      (?_ : FT tk (n + 1) 148 _ _ 0 0 (fun _ _ => True)) ?_ (by omega)
      (by omega) (by omega) (by omega) (by omega)
    · -- type-annotation group: may rewind to its entry position
      intro s h1 h2 h3
      rw [bind_eval, check_eq hwf.ne_nil]
      dsimp only
      cases hc : (curTok tk s.pos).kind == TokenKind.Colon
      · rw [if_neg (by decide), pure_eval]
        exact ⟨h1, by omega, trivial⟩
      · have hcol : (curTok tk s.pos).kind = .Colon := by simpa using hc
        rw [if_pos rfl, bind_eval, getPos_eval]
        dsimp only
        have hlt : s.pos < tk.length - 1 := curTok_not_eof_pos hwf
          (fun he => absurd (he.symm.trans hcol) (by decide))
        rw [bind_eval, advance_eq hwf s hlt]
        dsimp only
        rw [bind_eval, check_eq hwf.ne_nil]
        dsimp only
        cases hid : (curTok tk (s.pos + 1)).kind == TokenKind.Identifier
        · rw [if_neg (by decide), restore_ok]
          refine ⟨?_, ?_, trivial⟩
          · show s.pos ≤ tk.length
            omega
          · show s.pos + 0 ≤ s.pos
            omega
        · rw [if_pos rfl, bind_eval]
          have hpi := (FT_parseIdentifier hwf : FT tk (n + 1) 0
              (fun _ => True) parseIdentifier 0 1 (fun _ _ => True))
            (⟨s.pos + 1, s.diagnostics⟩ : PSt)
            (show s.pos + 1 ≤ tk.length by omega)
            (show 64 * (tk.length - (s.pos + 1)) + 0 < n + 1 by omega)
            trivial
          revert hpi
          match hres : parseIdentifier tk (⟨s.pos + 1, s.diagnostics⟩ : PSt)
              with
          | PRes.err c s5 =>
            intro hpi
            obtain ⟨x, y⟩ := hpi
            refine ⟨x, ?_⟩
            have y2 : s.pos + 1 + 0 ≤ s5.pos := y
            omega
          | PRes.panic => exact fun h => h
          | PRes.fuel => exact fun h => h
          | PRes.ok idv s5 =>
            intro hpi
            obtain ⟨hA5, hB5, -⟩ := hpi
            have hB5b : s.pos + 1 + 1 ≤ s5.pos := hB5
            dsimp only
            rw [bind_eval, check_eq hwf.ne_nil]
            dsimp only
            rw [bind_eval, check_eq hwf.ne_nil]
            dsimp only
            rw [bind_eval, check_eq hwf.ne_nil]
            dsimp only
            cases hor : ((curTok tk s5.pos).kind == TokenKind.Implements ||
                (curTok tk s5.pos).kind == TokenKind.Newline ||
                (curTok tk s5.pos).kind == TokenKind.Colon)
            · rw [if_neg (by decide), restore_ok]
              refine ⟨?_, ?_, trivial⟩
              · show s.pos ≤ tk.length
                omega
              · show s.pos + 0 ≤ s.pos
                omega
            · rw [if_pos rfl, pure_eval]
              exact ⟨hA5, by omega, trivial⟩
    · intro typeAnnotation
      refine FT_bind 148 148 0 0 0 0
        (?_ : FT tk (n + 1) 148 _ _ 0 0 (fun _ _ => True)) ?_ (by omega)
        (by omega) (by omega) (by omega) (by omega)
      · -- implements group
        refine FT_bind 0 148 0 0 0 0 (FT_check hwf.ne_nil .Implements) ?_
          (by omega) (by omega) (by omega) (by omega) (by omega)
        intro b
        refine FT_ite b (fun hb => ?_) (fun hb => ?_)
        · refine FT_bind 0 212 0 1 0 0
            (FT_advanceP hwf (fun _ => True) (fun s h1 hp =>
              ⟨curTok_not_eof_pos hwf (fun he =>
                absurd (he.symm.trans (hp.2.mp hb)) (by decide)), trivial⟩))
            ?_ (by omega) (by omega) (by omega) (by omega) (by omega)
          intro d
          refine FT_bind 0 276 0 1 0 0
            (FT_wkT (FT_parseIdentifier hwf) (by omega) (by omega)
              (by omega))
            (fun idv => FT_pure _ (fun s h1 h2 => trivial)) (by omega)
            (by omega) (by omega) (by omega) (by omega)
        · exact FT_pure _ (fun s h1 h2 => trivial)
      · intro implementsT
        refine FT_bind 0 148 0 0 0 0 (FT_check hwf.ne_nil .Colon) ?_
          (by omega) (by omega) (by omega) (by omega) (by omega)
        intro bc
        refine FT_ite bc (fun hbc => ?_) (fun hbc => ?_)
        · refine FT_bind 0 212 0 1 0 0
            (FT_wkT (FT_expect hwf .Colon (by decide)) (by omega) (by omega)
              (by omega)) ?_ (by omega) (by omega) (by omega) (by omega)
            (by omega)
          intro d
          refine FT_bind 1 212 0 0 0 0
            (FT_lift (FT_skipNewlines hwf n) (by omega) (by omega)
              (by omega)) ?_ (by omega) (by omega) (by omega) (by omega)
            (by omega)
          intro u
          refine FT_bind 0 212 0 0 0 0 (FT_check hwf.ne_nil .Indent) ?_
            (by omega) (by omega) (by omega) (by omega) (by omega)
          intro bi
          refine FT_ite bi (fun hbi => ?_) (fun hbi => ?_)
          · refine FT_bind 0 276 0 1 0 0
              (FT_wkT (FT_expect hwf .Indent (by decide)) (by omega)
                (by omega) (by omega)) ?_ (by omega) (by omega) (by omega)
              (by omega) (by omega)
            intro d2
            refine FT_bind 42 276 0 0 0 0
              (FT_lift (FT_ecsBodyGo hwf n _) (by omega) (by omega)
                (by omega)) ?_ (by omega) (by omega) (by omega) (by omega)
              (by omega)
            intro acc
            refine FT_bind 0 276 0 0 0 0 (FT_check hwf.ne_nil .Dedent) ?_
              (by omega) (by omega) (by omega) (by omega) (by omega)
            intro bd
            refine FT_ite bd (fun hbd => ?_) (fun hbd => ?_)
            · refine FT_bind 0 340 0 1 0 0
                (FT_advanceP hwf (fun _ => True) (fun s h1 hp =>
                  ⟨curTok_not_eof_pos hwf (fun he =>
                    absurd (he.symm.trans (hp.2.mp hbd)) (by decide)),
                   trivial⟩))
                (fun d3 => FT_pure _ (fun s h1 h2 => trivial)) (by omega)
                (by omega) (by omega) (by omega) (by omega)
            · exact FT_pure _ (fun s h1 h2 => trivial)
          · exact FT_pure _ (fun s h1 h2 => trivial)
        · refine FT_bind 0 148 0 0 0 0
            (FT_wkT (FT_expectNewline hwf) (by omega) (by omega) (by omega))
            (fun u => FT_pure _ (fun s h1 h2 => trivial)) (by omega)
            (by omega) (by omega) (by omega) (by omega)

theorem FT_parseComponentRequirement {tk : Tokens} (hwf : StreamWF tk) :
    ∀ n action, FT tk n 25 (fun s => ¬ (curTok tk s.pos).kind = .Eof)
      (parseComponentRequirement n action) 0 1 (fun _ _ => True)
  | 0, _ => fun s h1 h2 h3 => absurd h2 (by omega)
  | n + 1, action => by
    unfold parseComponentRequirement
    dsimp only
    refine FT_bind 0 89 0 1 0 0
      (FT_advanceP hwf (fun _ => True) (fun s h1 hp =>
        ⟨curTok_not_eof_pos hwf hp, trivial⟩)) ?_ (by omega) (by omega)
      (by omega) (by omega) (by omega)
    intro t
    refine FT_bind 89 89 0 0 0 0
      (?_ : FT tk (n + 1) 89 _ _ 0 0 (fun _ _ => True)) ?_ (by omega)
      (by omega) (by omega) (by omega) (by omega)
    · -- descendant group
      refine FT_bind 0 89 0 0 0 0 (FT_check hwf.ne_nil .Descendant) ?_
        (by omega) (by omega) (by omega) (by omega) (by omega)
      intro b
      refine FT_ite b (fun hb => ?_) (fun hb => ?_)
      · refine FT_bind 0 153 0 1 0 0
          (FT_advanceP hwf (fun _ => True) (fun s h1 hp =>
            ⟨curTok_not_eof_pos hwf (fun he =>
              absurd (he.symm.trans (hp.2.mp hb)) (by decide)), trivial⟩))
          (fun d => FT_pure _ (fun s h1 h2 => trivial)) (by omega) (by omega)
          (by omega) (by omega) (by omega)
      · exact FT_pure _ (fun s h1 h2 => trivial)
    · intro isDesc
      refine FT_bind 0 89 0 0 0 0 (FT_check hwf.ne_nil .Scope) ?_ (by omega)
        (by omega) (by omega) (by omega) (by omega)
      intro b1
      refine FT_ite b1 (fun hb1 => ?_) (fun hb1 => ?_)
      · refine FT_bind 16 153 0 1 0 0
          (FT_lift (FT_parseScope hwf n) (by omega) (by omega) (by omega))
          (fun sd => FT_pure _ (fun s h1 h2 => trivial)) (by omega)
          (by omega) (by omega) (by omega) (by omega)
      · refine FT_bind 0 89 0 0 0 0 (FT_check hwf.ne_nil .Check) ?_
          (by omega) (by omega) (by omega) (by omega) (by omega)
        intro b2
        refine FT_ite b2 (fun hb2 => ?_) (fun hb2 => ?_)
        · refine FT_bind 16 153 0 1 0 0
            (FT_lift (FT_parseCheck hwf n) (by omega) (by omega) (by omega))
            (fun cd => FT_pure _ (fun s h1 h2 => trivial)) (by omega)
            (by omega) (by omega) (by omega) (by omega)
        · refine FT_bind 0 89 0 0 0 0 (FT_check hwf.ne_nil .Element) ?_
            (by omega) (by omega) (by omega) (by omega) (by omega)
          intro b3
          refine FT_ite b3 (fun hb3 => ?_) (fun hb3 => ?_)
          · refine FT_bind 21 153 0 1 0 0
              (FT_conseq (FT_liftIdx (FT_parseElementComponentSpec hwf n))
                (by omega)
                (fun s hp he =>
                  absurd ((hp.2.mp hb3).symm.trans he) (by decide))
                (by omega) (by omega) (fun x s h => trivial))
              (fun cs => FT_pure _ (fun s h1 h2 => trivial)) (by omega)
              (by omega) (by omega) (by omega) (by omega)
          · refine FT_bind 0 89 0 0 0 0 (FT_check hwf.ne_nil .Connection) ?_
              (by omega) (by omega) (by omega) (by omega) (by omega)
            intro b4
            refine FT_ite b4 (fun hb4 => ?_) (fun hb4 => ?_)
            · refine FT_bind 0 153 0 1 0 0
                (FT_advanceP hwf (fun _ => True) (fun s h1 hp =>
                  ⟨curTok_not_eof_pos hwf (fun he =>
                    absurd (he.symm.trans (hp.2.mp hb4)) (by decide)),
                   trivial⟩)) ?_ (by omega) (by omega) (by omega) (by omega)
                (by omega)
              intro d
              have htail : FT tk (n + 1) 153 (fun _ => True)
                  ((do
                    let pat ← parseConnectionPattern n
                    expectNewline
                    pure (.mk action isDesc (.connectionC pat))) :
                    PM ComponentReq) 0 1 (fun _ _ => True) := by
                refine FT_bind 4 217 0 1 0 0
                  (FT_lift (FT_parseConnectionPattern hwf n) (by omega)
                    (by omega) (by omega)) ?_ (by omega) (by omega)
                  (by omega) (by omega) (by omega)
                intro pat
                refine FT_bind 0 217 0 0 0 0
                  (FT_wkT (FT_expectNewline hwf) (by omega) (by omega)
                    (by omega))
                  (fun u2 => FT_pure _ (fun s h1 h2 => trivial)) (by omega)
                  (by omega) (by omega) (by omega) (by omega)
              refine FT_bind 0 153 0 0 0 0 (FT_check hwf.ne_nil .To) ?_
                (by omega) (by omega) (by omega) (by omega) (by omega)
              intro bt
              refine FT_ite bt (fun hbt => ?_) (fun hbt => ?_)
              · refine FT_bind 0 217 0 1 0 0
                  (FT_advanceP hwf (fun _ => True) (fun s h1 hp =>
                    ⟨curTok_not_eof_pos hwf (fun he =>
                      absurd (he.symm.trans (hp.2.mp hbt)) (by decide)),
                     trivial⟩))
                  (fun d2 => FT_wkT htail (by omega) (by omega) (by omega))
                  (by omega) (by omega) (by omega) (by omega) (by omega)
              · exact FT_wkT htail (by omega) (by omega) (by omega)
            · refine FT_bind 0 89 0 0 0 0 (FT_check hwf.ne_nil .Ref) ?_
                (by omega) (by omega) (by omega) (by omega) (by omega)
              intro b5
              refine FT_bind 0 89 0 0 0 0
                (FT_check hwf.ne_nil .ConnectionPoint) ?_ (by omega)
                (by omega) (by omega) (by omega) (by omega)
              intro b6
              refine FT_ite _ (fun hb56 => ?_) (fun hb56 => ?_)
              · refine FT_bind 21 153 0 1 0 0
                  (FT_conseq (FT_liftIdx (FT_parseRefComponentSpec hwf n))
                    (by omega)
                    (fun s hp he => by
                      cases hl : b5
                      · have hl2 : b6 = true := by
                          rw [hl] at hb56
                          simpa using hb56
                        exact absurd ((hp.2.mp hl2).symm.trans he) (by decide)
                      · exact absurd
                          ((hp.1.2.mp hl).symm.trans he) (by decide))
                    (by omega) (by omega) (fun x s h => trivial))
                  (fun cs => FT_pure _ (fun s h1 h2 => trivial)) (by omega)
                  (by omega) (by omega) (by omega) (by omega)
              · refine FT_bind 0 89 0 0 0 0
                  (FT_check hwf.ne_nil .Implements) ?_ (by omega) (by omega)
                  (by omega) (by omega) (by omega)
                intro b7
                refine FT_ite b7 (fun hb7 => ?_) (fun hb7 => ?_)
                · refine FT_bind 0 153 0 1 0 0
                    (FT_advanceP hwf (fun _ => True) (fun s h1 hp =>
                      ⟨curTok_not_eof_pos hwf (fun he =>
                        absurd (he.symm.trans (hp.2.mp hb7)) (by decide)),
                       trivial⟩)) ?_ (by omega) (by omega) (by omega)
                    (by omega) (by omega)
                  intro d
                  refine FT_bind 0 217 0 1 0 0
                    (FT_wkT (FT_parseIdentifier hwf) (by omega) (by omega)
                      (by omega)) ?_ (by omega) (by omega) (by omega)
                    (by omega) (by omega)
                  intro tn
                  refine FT_bind 0 217 0 0 0 0
                    (FT_wkT (FT_expectNewline hwf) (by omega) (by omega)
                      (by omega))
                    (fun u2 => FT_pure _ (fun s h1 h2 => trivial)) (by omega)
                    (by omega) (by omega) (by omega) (by omega)
                · refine FT_bind 0 89 0 0 0 0
                    (FT_check hwf.ne_nil .Language) ?_ (by omega) (by omega)
                    (by omega) (by omega) (by omega)
                  intro b8
                  refine FT_ite b8 (fun hb8 => ?_) (fun hb8 => FT_throwE _)
                  refine FT_bind 0 153 0 1 0 0
                    (FT_advanceP hwf (fun _ => True) (fun s h1 hp =>
                      ⟨curTok_not_eof_pos hwf (fun he =>
                        absurd (he.symm.trans (hp.2.mp hb8)) (by decide)),
                       trivial⟩)) ?_ (by omega) (by omega) (by omega)
                    (by omega) (by omega)
                  intro d
                  refine FT_bind 0 217 0 1 0 0
                    (FT_wkT (FT_parseIdentifier hwf) (by omega) (by omega)
                      (by omega)) ?_ (by omega) (by omega) (by omega)
                    (by omega) (by omega)
                  intro ln
                  refine FT_bind 0 217 0 0 0 0
                    (FT_wkT (FT_expectNewline hwf) (by omega) (by omega)
                      (by omega))
                    (fun u2 => FT_pure _ (fun s h1 h2 => trivial)) (by omega)
                    (by omega) (by omega) (by omega) (by omega)

/-- `parseLanguageDeclaration` under the guarantee that the current token is
the `language` keyword: both outcomes advance at least one token. -/
theorem FT_parseLanguageDeclarationK {tk : Tokens} (hwf : StreamWF tk) :
    ∀ n, FT tk n 24 (fun s => (curTok tk s.pos).kind = .Language)
      (parseLanguageDeclaration n) 1 1 (fun _ _ => True)
  | 0 => fun s h1 h2 h3 => absurd h2 (by omega)
  | n + 1 => by
    unfold parseLanguageDeclaration
    refine FT_bind 0 88 1 1 0 1
      (FT_expect_kind hwf .Language (by decide) 1) ?_ (by omega) (by omega)
      (by omega) (by omega) (by omega)
    intro t1
    refine FT_bind 0 152 0 1 0 0
      (FT_wkT (FT_parseIdentifier hwf) (by omega) (by omega) (by omega)) ?_
      (by omega) (by omega) (by omega) (by omega) (by omega)
    intro name
    refine FT_bind 0 152 0 0 0 0 (FT_check hwf.ne_nil .Colon) ?_ (by omega)
      (by omega) (by omega) (by omega) (by omega)
    intro b
    cases b
    · rw [if_neg (by decide)]
      refine FT_bind 0 152 0 0 0 0
        (FT_wkT (FT_expectNewline hwf) (by omega) (by omega) (by omega))
        (fun u => FT_pure _ (fun s h1 h2 => trivial)) (by omega) (by omega)
        (by omega) (by omega) (by omega)
    · rw [if_pos rfl]
      refine FT_bind 0 216 0 1 0 0
        (FT_advanceP hwf (fun _ => True) (fun s h1 hp =>
          ⟨curTok_not_eof_pos hwf (fun he =>
            absurd (he.symm.trans (hp.2.mp rfl)) (by decide)), trivial⟩))
        ?_ (by omega) (by omega) (by omega) (by omega) (by omega)
      intro t2
      refine FT_bind 1 216 0 0 0 0
        (FT_lift (FT_skipNewlines hwf n) (by omega) (by omega) (by omega)) ?_
        (by omega) (by omega) (by omega) (by omega) (by omega)
      intro u1
      refine FT_bind 0 280 0 1 0 0
        (FT_wkT (FT_expect hwf .Indent (by decide)) (by omega) (by omega)
          (by omega)) ?_ (by omega) (by omega) (by omega) (by omega)
        (by omega)
      intro t3
      refine FT_bind 23 280 0 0 0 0
        (FT_lift (FT_langBodyGo hwf n []) (by omega) (by omega) (by omega))
        ?_ (by omega) (by omega) (by omega) (by omega) (by omega)
      intro ccs
      refine FT_bind 0 280 0 0 0 0 (FT_check hwf.ne_nil .Dedent) ?_
        (by omega) (by omega) (by omega) (by omega) (by omega)
      intro b2
      cases b2
      · rw [if_neg (by decide)]
        exact FT_pure _ (fun s h1 h2 => trivial)
      · rw [if_pos rfl]
        refine FT_bind 0 344 0 1 0 0
          (FT_advanceP hwf (fun _ => True) (fun s h1 hp =>
            ⟨curTok_not_eof_pos hwf (fun he =>
              absurd (he.symm.trans (hp.2.mp rfl)) (by decide)), trivial⟩))
          (fun t4 => FT_pure _ (fun s h1 h2 => trivial)) (by omega)
          (by omega) (by omega) (by omega) (by omega)

theorem FT_templBodyGo {tk : Tokens} (hwf : StreamWF tk) :
    ∀ n ub acc, FT tk n 41 (fun _ => True) (templBodyGo n ub acc) 0 0
      (fun _ _ => True)
  | 0, _, _ => fun s h1 h2 h3 => absurd h2 (by omega)
  | n + 1, ub, acc => by
    unfold templBodyGo
    dsimp only
    have hrest : ∀ ub2 : Bool, FT tk (n + 1) 41 (fun _ => True)
        ((do
          let fin ← (do
            if ub2 = true then
              pure ((← check .RBrace) || (← isAtEnd))
            else pure ((← check .Dedent) || (← isAtEnd)))
          if fin = true then pure acc
          else do
            let childDoc ← parseDocComment n
            if (← check .Scope) then do
              let sd ← parseScope n
              templBodyGo n ub2 ⟨acc.scopes ++ [sd], acc.refs, acc.checks,
                acc.componentRequirements, acc.elements⟩
            else if (← check .Ref) || (← check .ConnectionPoint) then do
              let r ← parseRef n
              templBodyGo n ub2 ⟨acc.scopes, acc.refs ++ [r], acc.checks,
                acc.componentRequirements, acc.elements⟩
            else if (← check .Check) then do
              let c ← parseCheck n
              templBodyGo n ub2 ⟨acc.scopes, acc.refs, acc.checks ++ [c],
                acc.componentRequirements, acc.elements⟩
            else if (← check .Element) then do
              let e ← parseElementCtx n childDoc true
              templBodyGo n ub2 ⟨acc.scopes, acc.refs, acc.checks,
                acc.componentRequirements, acc.elements ++ [e]⟩
            else if (← check .Requires) then do
              let cr ← parseComponentRequirement n .requiresA
              templBodyGo n ub2 ⟨acc.scopes, acc.refs, acc.checks,
                acc.componentRequirements ++ [cr], acc.elements⟩
            else if (← check .Allows) then do
              let cr ← parseComponentRequirement n .allowsA
              templBodyGo n ub2 ⟨acc.scopes, acc.refs, acc.checks,
                acc.componentRequirements ++ [cr], acc.elements⟩
            else if (← check .Forbids) then do
              let cr ← parseComponentRequirement n .forbidsA
              templBodyGo n ub2 ⟨acc.scopes, acc.refs, acc.checks,
                acc.componentRequirements ++ [cr], acc.elements⟩
            else do
              let fin2 ← (do
                if ub2 = true then pure (← check .RBrace)
                else pure (← check .Dedent))
              if fin2 || (← isAtEnd) then pure acc
              else throwE "E002".toList) : PM TemplAcc) 0 0
        (fun _ _ => True) := by
      intro ub2
      refine FT_bind 41 41 0 0 0 0
        (?_ : FT tk (n + 1) 41 _ _ 0 0 (fun _ _ => True)) ?_ (by omega)
        (by omega) (by omega) (by omega) (by omega)
      · refine FT_ite ub2 (fun hb => ?_) (fun hb => ?_)
        · refine FT_bind 0 41 0 0 0 0 (FT_check hwf.ne_nil .RBrace) ?_
            (by omega) (by omega) (by omega) (by omega) (by omega)
          intro a1
          refine FT_bind 0 41 0 0 0 0 (FT_isAtEnd hwf.ne_nil) ?_ (by omega)
            (by omega) (by omega) (by omega) (by omega)
          intro a2
          exact FT_pure _ (fun s h1 h2 => trivial)
        · refine FT_bind 0 41 0 0 0 0 (FT_check hwf.ne_nil .Dedent) ?_
            (by omega) (by omega) (by omega) (by omega) (by omega)
          intro a1
          refine FT_bind 0 41 0 0 0 0 (FT_isAtEnd hwf.ne_nil) ?_ (by omega)
            (by omega) (by omega) (by omega) (by omega)
          intro a2
          exact FT_pure _ (fun s h1 h2 => trivial)
      · intro fin
        refine FT_ite fin (fun hf => FT_pure _ (fun s h1 h2 => trivial))
          (fun hf => ?_)
        refine FT_bind 3 41 0 0 0 0
          (FT_lift (FT_parseDocComment hwf n) (by omega) (by omega)
            (by omega)) ?_ (by omega) (by omega) (by omega) (by omega)
          (by omega)
        intro childDoc
        refine FT_bind 0 41 0 0 0 0 (FT_check hwf.ne_nil .Scope) ?_
          (by omega) (by omega) (by omega) (by omega) (by omega)
        intro b1
        refine FT_ite b1 (fun hb1 => ?_) (fun hb1 => ?_)
        · refine FT_bind 16 105 0 1 0 0
            (FT_lift (FT_parseScope hwf n) (by omega) (by omega) (by omega))
            (fun sd => FT_lift (FT_templBodyGo hwf n ub2 _) (by omega)
              (by omega) (by omega)) (by omega) (by omega) (by omega)
            (by omega) (by omega)
        · refine FT_bind 0 41 0 0 0 0 (FT_check hwf.ne_nil .Ref) ?_
            (by omega) (by omega) (by omega) (by omega) (by omega)
          intro b2
          refine FT_bind 0 41 0 0 0 0 (FT_check hwf.ne_nil .ConnectionPoint)
            ?_ (by omega) (by omega) (by omega) (by omega) (by omega)
          intro b3
          refine FT_ite _ (fun hb23 => ?_) (fun hb23 => ?_)
          · refine FT_bind 16 105 0 1 0 0
              (FT_lift (FT_parseRef hwf n) (by omega) (by omega) (by omega))
              (fun r => FT_lift (FT_templBodyGo hwf n ub2 _) (by omega)
                (by omega) (by omega)) (by omega) (by omega) (by omega)
              (by omega) (by omega)
          · refine FT_bind 0 41 0 0 0 0 (FT_check hwf.ne_nil .Check) ?_
              (by omega) (by omega) (by omega) (by omega) (by omega)
            intro b4
            refine FT_ite b4 (fun hb4 => ?_) (fun hb4 => ?_)
            · refine FT_bind 16 105 0 1 0 0
                (FT_lift (FT_parseCheck hwf n) (by omega) (by omega)
                  (by omega))
                (fun c => FT_lift (FT_templBodyGo hwf n ub2 _) (by omega)
                  (by omega) (by omega)) (by omega) (by omega) (by omega)
                (by omega) (by omega)
            · refine FT_bind 0 41 0 0 0 0 (FT_check hwf.ne_nil .Element) ?_
                (by omega) (by omega) (by omega) (by omega) (by omega)
              intro b5
              refine FT_ite b5 (fun hb5 => ?_) (fun hb5 => ?_)
              · refine FT_bind 40 105 1 1 0 0
                  (FT_conseq (FT_liftIdx
                      (FT_parseElementCtx hwf n childDoc true))
                    (by omega) (fun s hp => hp.2.mp hb5) (by omega)
                    (by omega) (fun x s h => trivial))
                  (fun e => FT_lift (FT_templBodyGo hwf n ub2 _) (by omega)
                    (by omega) (by omega)) (by omega) (by omega) (by omega)
                  (by omega) (by omega)
              · refine FT_bind 0 41 0 0 0 0 (FT_check hwf.ne_nil .Requires)
                  ?_ (by omega) (by omega) (by omega) (by omega) (by omega)
                intro b6
                refine FT_ite b6 (fun hb6 => ?_) (fun hb6 => ?_)
                · refine FT_bind 26 105 0 1 0 0
                    (FT_conseq (FT_liftIdx
                        (FT_parseComponentRequirement hwf n .requiresA))
                      (by omega)
                      (fun s hp he =>
                        absurd ((hp.2.mp hb6).symm.trans he) (by decide))
                      (by omega) (by omega) (fun x s h => trivial))
                    (fun cr => FT_lift (FT_templBodyGo hwf n ub2 _)
                      (by omega) (by omega) (by omega)) (by omega) (by omega)
                    (by omega) (by omega) (by omega)
                · refine FT_bind 0 41 0 0 0 0 (FT_check hwf.ne_nil .Allows)
                    ?_ (by omega) (by omega) (by omega) (by omega)
                    (by omega)
                  intro b7
                  refine FT_ite b7 (fun hb7 => ?_) (fun hb7 => ?_)
                  · refine FT_bind 26 105 0 1 0 0
                      (FT_conseq (FT_liftIdx
                          (FT_parseComponentRequirement hwf n .allowsA))
                        (by omega)
                        (fun s hp he =>
                          absurd ((hp.2.mp hb7).symm.trans he) (by decide))
                        (by omega) (by omega) (fun x s h => trivial))
                      (fun cr => FT_lift (FT_templBodyGo hwf n ub2 _)
                        (by omega) (by omega) (by omega)) (by omega)
                      (by omega) (by omega) (by omega) (by omega)
                  · refine FT_bind 0 41 0 0 0 0
                      (FT_check hwf.ne_nil .Forbids) ?_ (by omega)
                      (by omega) (by omega) (by omega) (by omega)
                    intro b8
                    refine FT_ite b8 (fun hb8 => ?_) (fun hb8 => ?_)
                    · refine FT_bind 26 105 0 1 0 0
                        (FT_conseq (FT_liftIdx
                            (FT_parseComponentRequirement hwf n .forbidsA))
                          (by omega)
                          (fun s hp he =>
                            absurd ((hp.2.mp hb8).symm.trans he) (by decide))
                          (by omega) (by omega) (fun x s h => trivial))
                        (fun cr => FT_lift (FT_templBodyGo hwf n ub2 _)
                          (by omega) (by omega) (by omega)) (by omega)
                        (by omega) (by omega) (by omega) (by omega)
                    · refine FT_bind 41 41 0 0 0 0
                        (?_ : FT tk (n + 1) 41 _ _ 0 0 (fun _ _ => True)) ?_
                        (by omega) (by omega) (by omega) (by omega)
                        (by omega)
                      · refine FT_ite ub2 (fun hb => ?_) (fun hb => ?_)
                        · refine FT_bind 0 41 0 0 0 0
                            (FT_check hwf.ne_nil .RBrace) ?_ (by omega)
                            (by omega) (by omega) (by omega) (by omega)
                          intro a1
                          exact FT_pure _ (fun s h1 h2 => trivial)
                        · refine FT_bind 0 41 0 0 0 0
                            (FT_check hwf.ne_nil .Dedent) ?_ (by omega)
                            (by omega) (by omega) (by omega) (by omega)
                          intro a1
                          exact FT_pure _ (fun s h1 h2 => trivial)
                      · intro fin2
                        refine FT_bind 0 41 0 0 0 0 (FT_isAtEnd hwf.ne_nil)
                          ?_ (by omega) (by omega) (by omega) (by omega)
                          (by omega)
                        intro c1
                        refine FT_ite _
                          (fun hfe => FT_pure _ (fun s h1 h2 => trivial))
                          (fun hfe => FT_throwE _)
    refine FT_ite ub (fun hb => ?_) (fun hb => ?_)
    · refine FT_bind 1 41 0 0 0 0
        (FT_lift (FT_skipNewlinesAndIndents hwf n) (by omega) (by omega)
          (by omega))
        (fun u => ?_)
        (by omega) (by omega) (by omega) (by omega) (by omega)
      exact FT_wkT (hrest ub) (by omega) (by omega) (by omega)
    · refine FT_bind 1 41 0 0 0 0
        (FT_lift (FT_skipNewlines hwf n) (by omega) (by omega) (by omega))
        (fun u => ?_)
        (by omega) (by omega) (by omega) (by omega) (by omega)
      exact FT_wkT (hrest ub) (by omega) (by omega) (by omega)

theorem FT_parseTemplate {tk : Tokens} (hwf : StreamWF tk) :
    ∀ n docComment,
      FT tk n 30 (fun s => (curTok tk s.pos).kind = .Template)
        (parseTemplate n docComment) 1 1 (fun _ _ => True)
  | 0, _ => fun s h1 h2 h3 => absurd h2 (by omega)
  | n + 1, docComment => by
    unfold parseTemplate
    dsimp only
    refine FT_bind 0 94 1 1 0 0 (FT_expect_kind hwf .Template (by decide) 1)
      ?_ (by omega) (by omega) (by omega) (by omega) (by omega)
    intro t
    refine FT_bind 0 158 0 1 0 0
      (FT_wkT (FT_parseIdentifier hwf) (by omega) (by omega) (by omega)) ?_
      (by omega) (by omega) (by omega) (by omega) (by omega)
    intro name
    refine FT_bind 0 158 0 0 0 0 (FT_check hwf.ne_nil .LBrace) ?_ (by omega)
      (by omega) (by omega) (by omega) (by omega)
    intro ub
    have hrest2 : ∀ ub2 : Bool, FT tk (n + 1) 222 (fun _ => True)
        ((do
          let acc ← templBodyGo n ub2 ⟨[], [], [], [], []⟩
          if ub2 = true then
            if (← check .RBrace) then do
              _ ← advance
              pure ()
            else pure ()
          else
            if (← check .Dedent) then do
              _ ← advance
              pure ()
            else pure ()
          pure ⟨docComment, name, acc.scopes, acc.refs, acc.checks,
            acc.componentRequirements, acc.elements⟩) : PM Template) 0 0
        (fun _ _ => True) := by
      intro ub2
      refine FT_bind 42 222 0 0 0 0
        (FT_lift (FT_templBodyGo hwf n ub2 ⟨[], [], [], [], []⟩) (by omega)
          (by omega) (by omega)) ?_ (by omega) (by omega) (by omega)
        (by omega) (by omega)
      intro acc
      refine FT_ite ub2 (fun hb2 => ?_) (fun hb2 => ?_)
      · refine FT_bind 0 222 0 0 0 0 (FT_check hwf.ne_nil .RBrace) ?_
          (by omega) (by omega) (by omega) (by omega) (by omega)
        intro b3
        refine FT_ite b3 (fun hb3 => ?_) (fun hb3 => ?_)
        · refine FT_bind 0 286 0 1 0 0
            (FT_advanceP hwf (fun _ => True) (fun s h1 hp =>
              ⟨curTok_not_eof_pos hwf (fun he =>
                absurd (he.symm.trans (hp.2.mp hb3)) (by decide)),
               trivial⟩))
            (fun d => FT_pure _ (fun s h1 h2 => trivial)) (by omega)
            (by omega) (by omega) (by omega) (by omega)
        · exact FT_pure _ (fun s h1 h2 => trivial)
      · refine FT_bind 0 222 0 0 0 0 (FT_check hwf.ne_nil .Dedent) ?_
          (by omega) (by omega) (by omega) (by omega) (by omega)
        intro b3
        refine FT_ite b3 (fun hb3 => ?_) (fun hb3 => ?_)
        · refine FT_bind 0 286 0 1 0 0
            (FT_advanceP hwf (fun _ => True) (fun s h1 hp =>
              ⟨curTok_not_eof_pos hwf (fun he =>
                absurd (he.symm.trans (hp.2.mp hb3)) (by decide)),
               trivial⟩))
            (fun d => FT_pure _ (fun s h1 h2 => trivial)) (by omega)
            (by omega) (by omega) (by omega) (by omega)
        · exact FT_pure _ (fun s h1 h2 => trivial)
    refine FT_ite ub (fun hb => ?_) (fun hb => ?_)
    · refine FT_bind 0 222 0 1 0 0
        (FT_advanceP hwf (fun _ => True) (fun s h1 hp =>
          ⟨curTok_not_eof_pos hwf (fun he =>
            absurd (he.symm.trans (hp.2.mp hb)) (by decide)), trivial⟩))
        ?_ (by omega) (by omega) (by omega) (by omega) (by omega)
      intro d
      refine FT_bind 1 222 0 0 0 0
        (FT_lift (FT_skipNewlinesAndIndents hwf n) (by omega) (by omega)
          (by omega))
        (fun u => ?_)
        (by omega) (by omega) (by omega) (by omega) (by omega)
      exact FT_wkT (hrest2 ub) (by omega) (by omega) (by omega)
    · refine FT_bind 0 222 0 1 0 0
        (FT_wkT (FT_expect hwf .Colon (by decide)) (by omega) (by omega)
          (by omega)) ?_ (by omega) (by omega) (by omega) (by omega)
        (by omega)
      intro d
      refine FT_bind 1 222 0 0 0 0
        (FT_lift (FT_skipNewlines hwf n) (by omega) (by omega) (by omega))
        ?_ (by omega) (by omega) (by omega) (by omega) (by omega)
      intro u
      refine FT_bind 0 222 0 1 0 0
        (FT_wkT (FT_expect hwf .Indent (by decide)) (by omega) (by omega)
          (by omega))
        (fun d2 => ?_)
        (by omega) (by omega) (by omega) (by omega) (by omega)
      exact FT_wkT (hrest2 ub) (by omega) (by omega) (by omega)

theorem FT_importsGo {tk : Tokens} (hwf : StreamWF tk) :
    ∀ n acc, FT tk n 6 (fun _ => True) (importsGo n acc) 0 0
      (fun _ _ => True)
  | 0, _ => fun s h1 h2 h3 => absurd h2 (by omega)
  | n + 1, acc => by
    unfold importsGo
    dsimp only
    refine FT_bind 0 6 0 0 0 0 (FT_check hwf.ne_nil .Import) ?_ (by omega)
      (by omega) (by omega) (by omega) (by omega)
    intro l1
    refine FT_bind 0 6 0 0 0 0 (FT_check hwf.ne_nil .From) ?_ (by omega)
      (by omega) (by omega) (by omega) (by omega)
    intro l2
    refine FT_ite _ (fun hb => ?_) (fun hb => FT_pure _ (fun s h1 h2 =>
      trivial))
    refine FT_bind 5 70 0 1 0 0
      (FT_conseq (FT_liftIdx (FT_tryP (FT_parseImport hwf n) (le_refl 1)
          (le_refl 1) 0))
        (by omega)
        (fun s hp => by
          cases hl : l1
          · refine Or.inr (hp.2.mp ?_)
            rw [hl] at hb
            simpa using hb
          · exact Or.inl (hp.1.2.mp hl))
        (by omega) (by omega) (fun x s h => trivial)) ?_ (by omega)
      (by omega) (by omega) (by omega) (by omega)
    intro r
    cases r with
    | error c =>
      dsimp only
      refine FT_bind 0 70 0 0 0 0 (FT_pushDiag c (fun s d h => trivial)) ?_
        (by omega) (by omega) (by omega) (by omega) (by omega)
      intro u
      refine FT_bind 1 70 0 0 0 0
        (FT_lift (FT_recoverToNewline hwf n) (by omega) (by omega)
          (by omega)) ?_ (by omega) (by omega) (by omega) (by omega)
        (by omega)
      intro u2
      refine FT_bind 1 70 0 0 0 0
        (FT_lift (FT_skipNewlinesAndComments hwf n) (by omega) (by omega)
          (by omega))
        (fun u3 => FT_lift (FT_importsGo hwf n acc) (by omega) (by omega)
          (by omega)) (by omega) (by omega) (by omega) (by omega) (by omega)
    | ok imp =>
      dsimp only
      refine FT_bind 1 70 0 0 0 0
        (FT_lift (FT_skipNewlinesAndComments hwf n) (by omega) (by omega)
          (by omega))
        (fun u3 => FT_lift (FT_importsGo hwf n (acc ++ [imp])) (by omega)
          (by omega) (by omega)) (by omega) (by omega) (by omega) (by omega)
        (by omega)

theorem FT_topGo {tk : Tokens} (hwf : StreamWF tk) :
    ∀ n acc, FT tk n 45 (fun _ => True) (topGo n acc) 0 0
      (fun _ _ => True)
  | 0, _ => fun s h1 h2 h3 => absurd h2 (by omega)
  | n + 1, acc => by
    unfold topGo
    dsimp only
    intro s0 hA0 hB0 hC0
    rw [bind_eval, isAtEnd_eq hwf.ne_nil]
    dsimp only
    cases hae : (curTok tk s0.pos).kind == TokenKind.Eof
    · rw [if_neg (by decide)]
      have hne : ¬ (curTok tk s0.pos).kind = .Eof := by simpa using hae
      have hlt : s0.pos < tk.length - 1 := curTok_not_eof_pos hwf hne
      have hn : 172 < n := by omega
      have htail : FT tk (n + 1) 45 (fun _ => True)
          ((do
            let _ ← skipNewlines n
            if (← isAtEnd) then pure acc
            else do
              let docComment ← parseDocComment n
              if (← check .Template) then do
                let r ← tryP (parseTemplate n docComment)
                match r with
                | .ok t => topGo n ⟨acc.languages, acc.templates ++ [t],
                    acc.elements⟩
                | .error c => do
                  pushDiag c
                  _ ← recoverToElement n
                  topGo n acc
              else if (← check .Element) then do
                let r ← tryP (parseElementCtx n docComment false)
                match r with
                | .ok e => topGo n ⟨acc.languages, acc.templates,
                    acc.elements ++ [e]⟩
                | .error c => do
                  pushDiag c
                  _ ← recoverToElement n
                  topGo n acc
              else if (← check .Language) then do
                let r ← tryP (parseLanguageDeclaration n)
                match r with
                | .ok l => topGo n ⟨acc.languages ++ [l], acc.templates,
                    acc.elements⟩
                | .error c => do
                  pushDiag c
                  _ ← recoverToNewline n
                  topGo n acc
              else do
                if (← isAtEnd) then topGo n acc
                else do
                  pushDiag "E001".toList
                  _ ← advance
                  topGo n acc) : PM TopAcc) 0 0
          (fun _ _ => True) := by
        refine FT_bind 1 45 0 0 0 0
          (FT_lift (FT_skipNewlines hwf n) (by omega) (by omega) (by omega))
          ?_ (by omega) (by omega) (by omega) (by omega) (by omega)
        intro u
        refine FT_bind 0 45 0 0 0 0 (FT_isAtEnd hwf.ne_nil) ?_ (by omega)
          (by omega) (by omega) (by omega) (by omega)
        intro b1
        refine FT_ite b1 (fun hb1 => FT_pure _ (fun s h1 h2 => trivial))
          (fun hb1 => ?_)
        refine FT_bind 3 45 0 0 0 0
          (FT_lift (FT_parseDocComment hwf n) (by omega) (by omega)
            (by omega)) ?_ (by omega) (by omega) (by omega) (by omega)
          (by omega)
        intro docComment
        refine FT_bind 0 45 0 0 0 0 (FT_check hwf.ne_nil .Template) ?_
          (by omega) (by omega) (by omega) (by omega) (by omega)
        intro c1
        refine FT_ite c1 (fun hc1 => ?_) (fun hc1 => ?_)
        · refine FT_bind 31 109 0 1 0 0
            (FT_conseq (FT_liftIdx (FT_tryP
                (FT_parseTemplate hwf n docComment) (le_refl 1) (le_refl 1)
                0))
              (by omega) (fun s hp => hp.2.mp hc1) (by omega) (by omega)
              (fun x s h => trivial)) ?_ (by omega) (by omega) (by omega)
            (by omega) (by omega)
          intro r
          cases r with
          | error c =>
            dsimp only
            refine FT_bind 0 109 0 0 0 0
              (FT_pushDiag c (fun s d h => trivial)) ?_ (by omega) (by omega)
              (by omega) (by omega) (by omega)
            intro u2
            refine FT_bind 1 109 0 0 0 0
              (FT_lift (FT_recoverToElement hwf n) (by omega) (by omega)
                (by omega))
              (fun u3 => FT_lift (FT_topGo hwf n acc) (by omega) (by omega)
                (by omega)) (by omega) (by omega) (by omega) (by omega)
              (by omega)
          | ok t =>
            dsimp only
            exact FT_lift (FT_topGo hwf n _) (by omega) (by omega) (by omega)
        · refine FT_bind 0 45 0 0 0 0 (FT_check hwf.ne_nil .Element) ?_
            (by omega) (by omega) (by omega) (by omega) (by omega)
          intro c2
          refine FT_ite c2 (fun hc2 => ?_) (fun hc2 => ?_)
          · refine FT_bind 40 109 0 1 0 0
              (FT_conseq (FT_liftIdx (FT_tryP
                  (FT_parseElementCtx hwf n docComment false) (le_refl 1)
                  (le_refl 1) 0))
                (by omega) (fun s hp => hp.2.mp hc2) (by omega) (by omega)
                (fun x s h => trivial)) ?_ (by omega) (by omega) (by omega)
              (by omega) (by omega)
            intro r
            cases r with
            | error c =>
              dsimp only
              refine FT_bind 0 109 0 0 0 0
                (FT_pushDiag c (fun s d h => trivial)) ?_ (by omega)
                (by omega) (by omega) (by omega) (by omega)
              intro u2
              refine FT_bind 1 109 0 0 0 0
                (FT_lift (FT_recoverToElement hwf n) (by omega) (by omega)
                  (by omega))
                (fun u3 => FT_lift (FT_topGo hwf n acc) (by omega) (by omega)
                  (by omega)) (by omega) (by omega) (by omega) (by omega)
                (by omega)
            | ok e =>
              dsimp only
              exact FT_lift (FT_topGo hwf n _) (by omega) (by omega)
                (by omega)
          · refine FT_bind 0 45 0 0 0 0 (FT_check hwf.ne_nil .Language) ?_
              (by omega) (by omega) (by omega) (by omega) (by omega)
            intro c3
            refine FT_ite c3 (fun hc3 => ?_) (fun hc3 => ?_)
            · refine FT_bind 25 109 0 1 0 0
                (FT_conseq (FT_liftIdx (FT_tryP
                    (FT_parseLanguageDeclarationK hwf n) (le_refl 1)
                    (le_refl 1) 0))
                  (by omega) (fun s hp => hp.2.mp hc3) (by omega) (by omega)
                  (fun x s h => trivial)) ?_ (by omega) (by omega) (by omega)
                (by omega) (by omega)
              intro r
              cases r with
              | error c =>
                dsimp only
                refine FT_bind 0 109 0 0 0 0
                  (FT_pushDiag c (fun s d h => trivial)) ?_ (by omega)
                  (by omega) (by omega) (by omega) (by omega)
                intro u2
                refine FT_bind 1 109 0 0 0 0
                  (FT_lift (FT_recoverToNewline hwf n) (by omega) (by omega)
                    (by omega))
                  (fun u3 => FT_lift (FT_topGo hwf n acc) (by omega)
                    (by omega) (by omega)) (by omega) (by omega) (by omega)
                  (by omega) (by omega)
              | ok l =>
                dsimp only
                exact FT_lift (FT_topGo hwf n _) (by omega) (by omega)
                  (by omega)
            · refine FT_bind 0 45 0 0 0 0 (FT_isAtEnd hwf.ne_nil) ?_
                (by omega) (by omega) (by omega) (by omega) (by omega)
              intro b3
              refine FT_ite b3
                (fun hb3 s h1x h2x hp =>
                  FT_topGo hwf n acc s h1x
                    (by
                      have hEnd := (curTok_eof_iff hwf s.pos).mp
                        (hp.2.mp hb3)
                      omega) trivial)
                (fun hb3 => ?_)
              refine FT_bind 0 45 0 0 0 0
                (FT_pushDiag "E001".toList (fun s d h => h)) ?_ (by omega)
                (by omega) (by omega) (by omega) (by omega)
              intro u2
              refine FT_bind 0 109 0 1 0 0
                (FT_advanceP hwf (fun _ => True) (fun s h1x hp =>
                  ⟨curTok_not_eof_pos hwf (fun he =>
                    absurd (hp.2.mpr he) (by rw [hb3]; decide)), trivial⟩))
                (fun d => FT_lift (FT_topGo hwf n acc) (by omega) (by omega)
                  (by omega)) (by omega) (by omega) (by omega) (by omega)
                (by omega)
      exact FT_rebase htail s0 0 0 s0 hA0 (by omega) trivial (by omega)
        (by omega)
    · rw [if_pos rfl, pure_eval]
      exact ⟨hA0, by omega, trivial⟩

theorem FT_parse {tk : Tokens} (hwf : StreamWF tk) :
    ∀ n, FT tk n 47 (fun _ => True) (parse n) 0 0 (fun _ _ => True)
  | 0 => fun s h1 h2 h3 => absurd h2 (by omega)
  | n + 1 => by
    unfold parse
    dsimp only
    refine FT_bind 1 47 0 0 0 0
      (FT_lift (FT_skipNewlinesAndComments hwf n) (by omega) (by omega)
        (by omega)) ?_ (by omega) (by omega) (by omega) (by omega)
      (by omega)
    intro u
    refine FT_bind 7 47 0 0 0 0
      (FT_lift (FT_importsGo hwf n []) (by omega) (by omega) (by omega)) ?_
      (by omega) (by omega) (by omega) (by omega) (by omega)
    intro imports
    refine FT_bind 46 47 0 0 0 0
      (FT_lift (FT_topGo hwf n ⟨[], [], []⟩) (by omega) (by omega)
        (by omega))
      (fun top => FT_pure _ (fun s h1 h2 => trivial)) (by omega) (by omega)
      (by omega) (by omega) (by omega)

end Hie.Par

namespace Hie.Par

/-- A parser computation that never returns an `Err` outcome. -/
def NE (m : PM α) : Prop := ∀ tk s c s1, ¬ m tk s = .err c s1

theorem NE_bind {m : PM α} {f : α → PM β} (h1 : NE m)
    (h2 : ∀ a, NE (f a)) : NE (m >>= f) := by
  intro tk s c s1
  rw [bind_eval]
  cases hm : m tk s <;> dsimp only
  · exact h2 _ tk _ c s1
  · exact fun h => absurd hm (h1 tk s _ _)
  · exact fun h => PRes.noConfusion h
  · exact fun h => PRes.noConfusion h

theorem NE_ite (b : Bool) {m1 m2 : PM α} (h1 : b = true → NE m1)
    (h2 : b = false → NE m2) : NE (if b = true then m1 else m2) := by
  cases b
  · rw [if_neg (by decide)]
    exact h2 rfl
  · rw [if_pos rfl]
    exact h1 rfl

theorem NE_pure (a : α) : NE (pure a : PM α) :=
  fun tk s c s1 h => PRes.noConfusion h

theorem NE_fuelOut : NE (fuelOut : PM α) :=
  fun tk s c s1 h => PRes.noConfusion h

theorem NE_pushDiag (d : Str) : NE (pushDiag d) :=
  fun tk s c s1 h => PRes.noConfusion h

theorem NE_current : NE current := by
  intro tk s c s1
  unfold current
  cases h1 : tk.get? s.pos <;> dsimp only
  · cases h2 : tk.get? (tk.length - 1) <;> dsimp only <;>
      exact fun h => PRes.noConfusion h
  · exact fun h => PRes.noConfusion h

theorem NE_advance : NE advance := by
  intro tk s c s1
  unfold advance
  cases h1 : current tk s <;> dsimp only
  · rename_i t s2
    cases h2 : (if t.kind == TokenKind.Eof then s.pos else s.pos + 1) <;>
      dsimp only
    · exact fun h => PRes.noConfusion h
    · rename_i p
      cases h3 : tk.get? p <;> dsimp only <;>
        exact fun h => PRes.noConfusion h
  · exact fun h => absurd h1 (NE_current tk s _ _)
  · exact fun h => PRes.noConfusion h
  · exact fun h => PRes.noConfusion h

theorem NE_check (k : TokenKind) : NE (check k) :=
  NE_bind NE_current (fun t => NE_pure _)

theorem NE_isAtEnd : NE isAtEnd :=
  NE_bind NE_current (fun t => NE_pure _)

theorem NE_tryP (m : PM α) : NE (tryP m) := by
  intro tk s c s1
  unfold tryP
  cases hm : m tk s <;> dsimp only <;> exact fun h => PRes.noConfusion h

theorem NE_skipNewlines : ∀ n, NE (skipNewlines n)
  | 0 => NE_fuelOut
  | n + 1 => by
    unfold skipNewlines
    exact NE_bind (NE_check _) (fun b => NE_ite b
      (fun hb => NE_bind NE_advance (fun u => NE_skipNewlines n))
      (fun hb => NE_pure _))

theorem NE_skipNewlinesAndComments : ∀ n, NE (skipNewlinesAndComments n)
  | 0 => NE_fuelOut
  | n + 1 => by
    unfold skipNewlinesAndComments
    exact NE_bind (NE_check _) (fun l1 => NE_bind (NE_check _) (fun l2 =>
      NE_ite _
        (fun hb => NE_bind NE_advance
          (fun u => NE_skipNewlinesAndComments n))
        (fun hb => NE_pure _)))

theorem NE_recoverToNewline : ∀ n, NE (recoverToNewline n)
  | 0 => NE_fuelOut
  | n + 1 => by
    unfold recoverToNewline
    exact NE_bind NE_isAtEnd (fun a => NE_bind (NE_check _) (fun b =>
      NE_ite _
        (fun hb => NE_bind NE_advance (fun u => NE_recoverToNewline n))
        (fun hb => NE_bind (NE_check _) (fun b2 => NE_ite b2
          (fun hb2 => NE_bind NE_advance (fun u => NE_pure _))
          (fun hb2 => NE_pure _)))))

theorem NE_recoverToElement : ∀ n, NE (recoverToElement n)
  | 0 => NE_fuelOut
  | n + 1 => by
    unfold recoverToElement
    exact NE_bind NE_isAtEnd (fun a => NE_ite a (fun ha => NE_pure _)
      (fun ha => NE_bind (NE_check _) (fun b => NE_ite b
        (fun hb => NE_pure _)
        (fun hb => NE_bind NE_advance
          (fun u => NE_recoverToElement n)))))

theorem NE_docGo : ∀ n acc, NE (docGo n acc)
  | 0, _ => NE_fuelOut
  | n + 1, acc => by
    unfold docGo
    exact NE_bind (NE_check _) (fun b => NE_ite b
      (fun hb => NE_bind NE_advance (fun t =>
        NE_bind (NE_skipNewlines n) (fun u => NE_docGo n _)))
      (fun hb => NE_ite _ (fun h2 => NE_pure _) (fun h2 => NE_pure _)))

theorem NE_parseDocComment (n : Nat) : NE (parseDocComment n) :=
  NE_docGo n []

theorem NE_importsGo : ∀ n acc, NE (importsGo n acc)
  | 0, _ => NE_fuelOut
  | n + 1, acc => by
    unfold importsGo
    dsimp only
    refine NE_bind (NE_check _) (fun l1 => ?_)
    refine NE_bind (NE_check _) (fun l2 => ?_)
    refine NE_ite _ (fun hb => ?_) (fun hb => NE_pure _)
    refine NE_bind (NE_tryP _) (fun r => ?_)
    cases r with
    | error c =>
      exact NE_bind (NE_pushDiag _) (fun u =>
        NE_bind (NE_recoverToNewline n) (fun u2 =>
          NE_bind (NE_skipNewlinesAndComments n)
            (fun u3 => NE_importsGo n acc)))
    | ok imp =>
      exact NE_bind (NE_skipNewlinesAndComments n)
        (fun u3 => NE_importsGo n (acc ++ [imp]))

theorem NE_topGo : ∀ n acc, NE (topGo n acc)
  | 0, _ => NE_fuelOut
  | n + 1, acc => by
    unfold topGo
    dsimp only
    refine NE_bind NE_isAtEnd (fun a1 => ?_)
    refine NE_ite a1 (fun h => NE_pure _) (fun h => ?_)
    refine NE_bind (NE_skipNewlines n) (fun u => ?_)
    refine NE_bind NE_isAtEnd (fun a2 => ?_)
    refine NE_ite a2 (fun h2 => NE_pure _) (fun h2 => ?_)
    refine NE_bind (NE_parseDocComment n) (fun docComment => ?_)
    refine NE_bind (NE_check _) (fun c1 => ?_)
    refine NE_ite c1 (fun hc1 => ?_) (fun hc1 => ?_)
    · refine NE_bind (NE_tryP _) (fun r => ?_)
      cases r with
      | error c =>
        exact NE_bind (NE_pushDiag _) (fun u2 =>
          NE_bind (NE_recoverToElement n) (fun u3 => NE_topGo n acc))
      | ok t => exact NE_topGo n _
    · refine NE_bind (NE_check _) (fun c2 => ?_)
      refine NE_ite c2 (fun hc2 => ?_) (fun hc2 => ?_)
      · refine NE_bind (NE_tryP _) (fun r => ?_)
        cases r with
        | error c =>
          exact NE_bind (NE_pushDiag _) (fun u2 =>
            NE_bind (NE_recoverToElement n) (fun u3 => NE_topGo n acc))
        | ok e => exact NE_topGo n _
      · refine NE_bind (NE_check _) (fun c3 => ?_)
        refine NE_ite c3 (fun hc3 => ?_) (fun hc3 => ?_)
        · refine NE_bind (NE_tryP _) (fun r => ?_)
          cases r with
          | error c =>
            exact NE_bind (NE_pushDiag _) (fun u2 =>
              NE_bind (NE_recoverToNewline n) (fun u3 => NE_topGo n acc))
          | ok l => exact NE_topGo n _
        · refine NE_bind NE_isAtEnd (fun a3 => ?_)
          refine NE_ite a3 (fun h3 => NE_topGo n acc) (fun h3 => ?_)
          exact NE_bind (NE_pushDiag _) (fun u2 =>
            NE_bind NE_advance (fun d => NE_topGo n acc))

theorem NE_parse : ∀ n, NE (parse n)
  | 0 => NE_fuelOut
  | n + 1 => by
    unfold parse
    exact NE_bind (NE_skipNewlinesAndComments n) (fun u =>
      NE_bind (NE_importsGo n []) (fun imports =>
        NE_bind (NE_topGo n ⟨[], [], []⟩)
          (fun top => NE_pure _)))

end Hie.Par

namespace Hie.Lex

/-- A string-literal token carries both quotes: its text is at least two
characters. -/
def strTokOK (t : Token) : Prop :=
  (t.kind = .StringSingle ∨ t.kind = .StringDouble) → 2 ≤ t.text.length

theorem strTail_ge_one (q : Char) : ∀ (r : Str) (n : Nat),
    strTail q r = some n → 1 ≤ n
  | [], n => by
    intro h
    simp [strTail] at h
  | c :: rest, n => by
    intro h
    unfold strTail at h
    split_ifs at h with h1 h2
    · simp at h
      omega
    · rcases rest with _ | ⟨c2, rest2⟩
      · simp at h
      · dsimp only at h
        split_ifs at h with h3 <;> simp at h
        obtain ⟨m, hm, he⟩ := h
        omega
    · rw [Option.map_eq_some'] at h
      obtain ⟨m, hm, he⟩ := h
      omega

theorem strTail_ne_nil (q : Char) (r : Str) (n : Nat)
    (h : strTail q r = some n) : r ≠ [] := by
  intro he
  subst he
  simp [strTail] at h

theorem keywordKind_not_str (w : Str) :
    ¬ (keywordKind w = .StringSingle ∨ keywordKind w = .StringDouble) := by
  unfold keywordKind
  rcases hl : keywordTable.lookup w with _ | v
  · decide
  · have hv := lookup_val_mem hl
    have hall : ∀ k ∈ keywordTable.map Prod.snd,
        ¬ (k = TokenKind.StringSingle ∨ k = TokenKind.StringDouble) := by
      decide
    simpa using hall v hv

set_option maxHeartbeats 1000000 in
theorem innerNext_strOK {cs : Str} {k : TokenKind} {txt rest' : Str}
    (h : innerNext cs = some (.ok k, txt, rest'))
    (hk : k = .StringSingle ∨ k = .StringDouble) : 2 ≤ txt.length := by
  unfold innerNext at h
  rcases hd : cs.dropWhile isWs with _ | ⟨c, rest⟩ <;> rw [hd] at h
  · exact absurd h (by simp)
  · simp only [Option.some.injEq, Prod.mk.injEq] at h
    obtain ⟨h1, h2, h3⟩ := h
    subst h2
    unfold innerNextCore at h1 ⊢
    split_ifs at h1 ⊢ with ha hb hc hq1 hq2 hdig hid
    · rcases hk with he | he <;> subst he <;> simp at h1
    · unfold crMatch at h1
      rcases rest with _ | ⟨c2, r2⟩
      · rcases hk with he | he <;> subst he <;> simp at h1
      · dsimp only at h1
        split_ifs at h1 with h5 <;>
          rcases hk with he | he <;> subst he <;> simp at h1
    · rcases hk with he | he <;> subst he <;>
        rcases commentMatch_kind (c :: rest) with hcm | hcm | hcm <;>
        rw [hcm] at h1 <;> simp at h1
    · unfold quoteMatch at h1 ⊢
      rcases hst : strTail squote rest with _ | m <;> rw [hst] at h1 <;>
        dsimp only at h1 ⊢
      · simp at h1
      · rw [List.length_take]
        have hm := strTail_ge_one squote rest m hst
        have hr : rest ≠ [] := strTail_ne_nil squote rest m hst
        have hr2 : 1 ≤ rest.length := by
          rcases rest with _ | ⟨x, xs⟩
          · simp at hr
          · simp
        simp only [List.length_cons]
        omega
    · unfold quoteMatch at h1 ⊢
      rcases hst : strTail dquote rest with _ | m <;> rw [hst] at h1 <;>
        dsimp only at h1 ⊢
      · simp at h1
      · rw [List.length_take]
        have hm := strTail_ge_one dquote rest m hst
        have hr : rest ≠ [] := strTail_ne_nil dquote rest m hst
        have hr2 : 1 ≤ rest.length := by
          rcases rest with _ | ⟨x, xs⟩
          · simp at hr
          · simp
        simp only [List.length_cons]
        omega
    · rcases hk with he | he <;> subst he <;> simp at h1
    · unfold identMatch at h1
      simp only [Except.ok.injEq] at h1
      refine absurd ?_ (keywordKind_not_str
        ((c :: rest).takeWhile isIdentChar))
      rcases hk with he | he
      · rw [h1, he]
        exact Or.inl rfl
      · rw [h1, he]
        exact Or.inr rfl
    · unfold punctMatch at h1
      split_ifs at h1 <;>
        rcases hk with he | he <;> subst he <;> simp at h1

theorem innerLoopGo_strOK : ∀ (n : Nat) (stack : List Nat) (cs : Str),
    strTokOK (innerLoopGo n stack cs).1
  | 0, stack, cs => by
    show strTokOK eofTok
    intro h
    rcases h with h | h <;> exact absurd h (by decide)
  | n + 1, stack, cs => by
    unfold innerLoopGo
    rcases hin : innerNext cs with _ | ⟨r, txt, rest'⟩
    · dsimp only
      cases hff : finishFlush stack with
      | nil =>
        show strTokOK eofTok
        intro h
        rcases h with h | h <;> exact absurd h (by decide)
      | cons d ds =>
        have hd : d = dedTok := by
          unfold finishFlush at hff
          rcases hl : stack.length - 1 with _ | m <;> rw [hl] at hff
          · simp at hff
          · rw [List.replicate_succ] at hff
            exact (List.cons.injEq .. ▸ hff).1.symm
        subst hd
        show strTokOK dedTok
        intro h
        rcases h with h | h <;> exact absurd h (by decide)
    · rcases r with e | k
      · dsimp only
        exact innerLoopGo_strOK n stack rest'
      · cases k <;> dsimp only <;>
          first
            | exact innerLoopGo_strOK n stack rest'
            | exact fun h => innerNext_strOK hin (Or.inl rfl)
            | exact fun h => innerNext_strOK hin (Or.inr rfl)
            | exact fun h => by rcases h with h | h <;> simp at h

theorem nextToken_strOK {s : LexSt} (hinv : StInv s) :
    strTokOK (nextToken s).1 ∧ StInv (nextToken s).2 := by
  obtain ⟨hp, hne, hlast⟩ := hinv
  unfold nextToken
  cases hpend : s.pending with
  | cons t ts =>
    dsimp only
    refine ⟨?_, ?_, hne, hlast⟩
    · intro h
      rcases hp t (by rw [hpend]; exact List.mem_cons_self ..) with he | he <;>
        rcases h with h2 | h2 <;> rw [he] at h2 <;> exact absurd h2 (by decide)
    · intro u hu
      exact hp u (by rw [hpend]; exact List.mem_cons_of_mem _ hu)
  | nil =>
    dsimp only
    by_cases hfin : s.finished = true
    · rw [if_pos hfin]
      exact ⟨show strTokOK eofTok from fun h => by
        rcases h with h | h <;> exact absurd h (by decide),
        hp, hne, hlast⟩
    · rw [if_neg hfin]
      rcases hpi : (if s.atLineStart = true then processInd s.stack s.rest 0
          else (s.stack, [])) with ⟨stack1, pend1⟩
      have hstack1 : stack1 ≠ [] ∧ stack1.getLast? = some 0 ∧
          ∀ t ∈ pend1, t = indTok ∨ t = dedTok := by
        by_cases hals : s.atLineStart = true
        · rw [if_pos hals] at hpi
          obtain ⟨x1, x2, x3, x4⟩ := processInd_inv hne hlast hpi
          exact ⟨x1, x2, x3⟩
        · rw [if_neg hals] at hpi
          obtain ⟨e1, e2⟩ := Prod.mk.injEq .. ▸ hpi
          subst e1
          subst e2
          exact ⟨hne, hlast, by simp⟩
      cases hpend1 : pend1 with
      | cons t ts =>
        dsimp only
        refine ⟨?_, ?_, hstack1.1, hstack1.2.1⟩
        · intro h
          rcases hstack1.2.2 t (by rw [hpend1]; exact List.mem_cons_self ..)
            with he | he <;> rcases h with h2 | h2 <;> rw [he] at h2 <;>
            exact absurd h2 (by decide)
        · intro u hu
          exact hstack1.2.2 u
            (by rw [hpend1]; exact List.mem_cons_of_mem _ hu)
      | nil =>
        dsimp only
        constructor
        · exact innerLoopGo_strOK (s.rest.length + 1) stack1 s.rest
        · rcases innerLoop_out stack1 s.rest with ⟨hle, hout⟩ |
            ⟨hge, hout⟩ | ⟨txt, rest', hlt, hout⟩ |
            ⟨k, txt, rest', hlt, hnl, hnn, hout⟩ <;>
            rw [show innerLoop stack1 s.rest =
              innerLoopGo (s.rest.length + 1) stack1 s.rest from
              (innerLoop_eq stack1 s.rest _ (by omega)).symm] at * <;>
            rw [hout]
          · exact ⟨by simp, by simp, by
              rcases hl1 : stack1 with _ | ⟨a, b⟩
              · exact absurd hl1 hstack1.1
              · simp [List.getLastD_eq_getLast?, ← hl1, hstack1.2.1]⟩
          · refine ⟨?_, by simp, by
              rcases hl1 : stack1 with _ | ⟨a, b⟩
              · exact absurd hl1 hstack1.1
              · simp [List.getLastD_eq_getLast?, ← hl1, hstack1.2.1]⟩
            intro t ht
            exact Or.inr (List.eq_of_mem_replicate ht)
          · exact ⟨by simp, hstack1.1, hstack1.2.1⟩
          · exact ⟨by simp, hstack1.1, hstack1.2.1⟩

theorem lexGo_strOK : ∀ (n : Nat) (s : LexSt), StInv s →
    ∀ t ∈ lexGo n s, strTokOK t
  | 0, s => by
    intro hinv t ht
    simp [lexGo] at ht
  | n + 1, s => by
    intro hinv t ht
    unfold lexGo at ht
    rcases hnt : nextToken s with ⟨t1, s1⟩
    rw [hnt] at ht
    dsimp only at ht
    have hns := nextToken_strOK hinv
    rw [hnt] at hns
    by_cases he : t1.kind = .Eof
    · rw [if_pos he] at ht
      rcases List.mem_singleton.mp ht with rfl
      exact hns.1
    · rw [if_neg he] at ht
      rcases List.mem_cons.mp ht with rfl | hmem
      · exact hns.1
      · exact lexGo_strOK n s1 hns.2 t hmem

theorem tokenize_strOK (src : String) : ∀ t ∈ tokenize src, strTokOK t := by
  have hinv : StInv (initSt src) :=
    ⟨by simp [initSt], by simp [initSt], by simp [initSt]⟩
  exact lexGo_strOK (lexMeasure (initSt src) + 1) (initSt src) hinv

end Hie.Lex

namespace Hie.Par

/-- The tokenizer always produces a parser-well-formed token stream. -/
theorem tokenize_streamWF (src : String) : StreamWF (Lex.tokenize src) := by
  constructor
  · exact Lex.lexAll_shape (Lex.lexMeasure (Lex.initSt src) + 1)
      (Lex.initSt src) (by omega)
  · exact Lex.tokenize_strOK src

end Hie.Par

namespace Hie.Par

/-- With fuel at least `64 * |tokens| + 48`, `parse` returns a `Program`
together with its final state (position and diagnostics). -/
theorem parse_ok (src : String) (fuel : Nat)
    (h : 64 * (Lex.tokenize src).length + 48 ≤ fuel) :
    ∃ prog st, parseSrc fuel src = PRes.ok prog st := by
  have hwf := tokenize_streamWF src
  have hft := FT_parse hwf fuel (⟨0, []⟩ : PSt) (Nat.zero_le _)
    (by
      show 64 * ((Lex.tokenize src).length - 0) + 47 < fuel
      omega) trivial
  show ∃ prog st, parse fuel (Lex.tokenize src) ⟨0, []⟩ = PRes.ok prog st
  revert hft
  match hres : parse fuel (Lex.tokenize src) (⟨0, []⟩ : PSt) with
  | PRes.ok prog st => exact fun _ => ⟨prog, st, rfl⟩
  | PRes.err c s1 => exact absurd hres (NE_parse fuel _ _ c s1)
  | PRes.panic => exact fun hc => hc.elim
  | PRes.fuel => exact fun hc => hc.elim

theorem parseSrc_no_err (src : String) (fuel : Nat) (c : Str) (s1 : PSt) :
    ¬ parseSrc fuel src = PRes.err c s1 :=
  NE_parse fuel (Lex.tokenize src) ⟨0, []⟩ c s1

/-- C8: for every input source string, including malformed input,
`Parser::parse` returns a `(Program, Diagnostics)` pair and never panics:
with enough fuel to cover the embedded recursion (64 per token plus 48),
`parseSrc` yields `PRes.ok` — a program plus a final state carrying the
diagnostics — so it is neither a panic nor a fuel-out; and at every fuel it
never produces an error outcome (`parse` recovers from all diagnostics). -/
theorem C8_parse_no_panic (src : String) :
    (∀ fuel, 64 * (Lex.tokenize src).length + 48 ≤ fuel →
      ∃ prog st, parseSrc fuel src = PRes.ok prog st) ∧
    (∀ fuel, 64 * (Lex.tokenize src).length + 48 ≤ fuel →
      ¬ parseSrc fuel src = PRes.panic) ∧
    (∀ fuel c s1, ¬ parseSrc fuel src = PRes.err c s1) := by
  refine ⟨fun fuel hf => parse_ok src fuel hf, fun fuel hf hp => ?_,
    fun fuel c s1 => parseSrc_no_err src fuel c s1⟩
  obtain ⟨prog, st, hok⟩ := parse_ok src fuel hf
  rw [hok] at hp
  exact PRes.noConfusion hp

/-- Witness: on the source `"x"` (two tokens) with fuel 176, `parse`
returns `ok`. -/
theorem C8_parse_no_panic_witness :
    ∃ prog st, parseSrc 176 "x" = PRes.ok prog st :=
  (C8_parse_no_panic "x").1 176 (by decide)

end Hie.Par
